import Mathlib

/-!
# BlockchainCarsApp: the HTTP-to-ledger client (`fabric-samples/cars-golang/source.go`)

Byte strings are lists of natural numbers (one per byte).  The Go standard
library routines the program calls (`encoding/json`, `fmt.Scanf`, `path.Join`)
are embedded next to the program's own functions, each under the name it has
in Go.
-/

namespace CarsApp

/-- A Go byte string. -/
abbrev Bytes := List Nat

/-- The bytes of a text literal (its UTF-8 encoding for the ASCII range, the
code point otherwise; every literal of the program is ASCII). -/
def str (s : String) : Bytes := s.toList.map Char.toNat

/-! ## `encoding/json`: the scanner (`scanner.go`) -/

/-- The values a scanner step returns (`scanContinue` .. `scanError`). -/
inductive Op
  | scanContinue | scanBeginLiteral | scanBeginObject | scanObjectKey
  | scanObjectValue | scanEndObject | scanBeginArray | scanArrayValue
  | scanEndArray | scanSkipSpace | scanEnd | scanError
  deriving DecidableEq, Repr

/-- The entries of the scanner's `parseState` stack. -/
inductive ParseState
  | parseObjectKey | parseObjectValue | parseArrayValue
  deriving DecidableEq, Repr

/-- The scanner's state functions, as a tag. -/
inductive Step
  | stateBeginValueOrEmpty | stateBeginValue | stateBeginStringOrEmpty
  | stateBeginString | stateEndValue | stateEndTop
  | stateInString | stateInStringEsc | stateInStringEscU | stateInStringEscU1
  | stateInStringEscU12 | stateInStringEscU123
  | stateNeg | state1 | state0 | stateDot | stateDot0 | stateE | stateESign | stateE0
  | stateT | stateTr | stateTru | stateF | stateFa | stateFal | stateFals
  | stateN | stateNu | stateNul | stateError
  deriving DecidableEq, Repr

/-- The `scanner` struct: `step`, the `parseState` stack (innermost entry
first), `endTop` and whether `err` is set. -/
structure Scanner where
  step : Step
  parseState : List ParseState
  endTop : Bool
  err : Bool
  deriving DecidableEq, Repr

/-- The nesting limit of the scanner. -/
def maxNestingDepth : Nat := 10000

/-- Go `scanner.reset`. -/
def Scanner.reset : Scanner :=
  { step := .stateBeginValue, parseState := [], endTop := false, err := false }

/-- Go `scanner.error`: records the error and returns `scanError`. -/
def Scanner.error (s : Scanner) : Scanner × Op :=
  ({ s with step := .stateError, err := true }, .scanError)

/-- Go `isSpace`. -/
def isSpace (c : Nat) : Bool := c == 32 || c == 9 || c == 13 || c == 10

/-- Go `scanner.pushParseState`. -/
def Scanner.pushParseState (s : Scanner) (newParseState : ParseState) (successState : Op) :
    Scanner × Op :=
  let s1 := { s with parseState := newParseState :: s.parseState }
  if s1.parseState.length ≤ maxNestingDepth then (s1, successState) else s1.error

/-- Go `scanner.popParseState`. -/
def Scanner.popParseState (s : Scanner) : Scanner :=
  let rest := s.parseState.tail
  if rest.length = 0 then { s with parseState := rest, step := .stateEndTop, endTop := true }
  else { s with parseState := rest, step := .stateEndValue }

/-- Go `stateEndTop`: a non-space byte after the top-level value records an
error, reported on the next call. -/
def stateEndTop (s : Scanner) (c : Nat) : Scanner × Op :=
  if !isSpace c then (s.error.1, .scanEnd) else (s, .scanEnd)

/-- Go `stateEndValue`. -/
def stateEndValue (s : Scanner) (c : Nat) : Scanner × Op :=
  match s.parseState with
  | [] => stateEndTop { s with step := .stateEndTop, endTop := true } c
  | ps :: rest =>
    if isSpace c then ({ s with step := .stateEndValue }, .scanSkipSpace)
    else match ps with
      | .parseObjectKey =>
        if c = 58 then
          ({ s with parseState := .parseObjectValue :: rest, step := .stateBeginValue },
            .scanObjectKey)
        else s.error
      | .parseObjectValue =>
        if c = 44 then
          ({ s with parseState := .parseObjectKey :: rest, step := .stateBeginString },
            .scanObjectValue)
        else if c = 125 then (s.popParseState, .scanEndObject)
        else s.error
      | .parseArrayValue =>
        if c = 44 then ({ s with step := .stateBeginValue }, .scanArrayValue)
        else if c = 93 then (s.popParseState, .scanEndArray)
        else s.error

/-- Go `stateBeginValue`. -/
def stateBeginValue (s : Scanner) (c : Nat) : Scanner × Op :=
  if isSpace c then (s, .scanSkipSpace)
  else if c = 123 then
    Scanner.pushParseState { s with step := .stateBeginStringOrEmpty } .parseObjectKey
      .scanBeginObject
  else if c = 91 then
    Scanner.pushParseState { s with step := .stateBeginValueOrEmpty } .parseArrayValue
      .scanBeginArray
  else if c = 34 then ({ s with step := .stateInString }, .scanBeginLiteral)
  else if c = 45 then ({ s with step := .stateNeg }, .scanBeginLiteral)
  else if c = 48 then ({ s with step := .state0 }, .scanBeginLiteral)
  else if c = 116 then ({ s with step := .stateT }, .scanBeginLiteral)
  else if c = 102 then ({ s with step := .stateF }, .scanBeginLiteral)
  else if c = 110 then ({ s with step := .stateN }, .scanBeginLiteral)
  else if 49 ≤ c ∧ c ≤ 57 then ({ s with step := .state1 }, .scanBeginLiteral)
  else s.error

/-- Go `stateBeginValueOrEmpty`. -/
def stateBeginValueOrEmpty (s : Scanner) (c : Nat) : Scanner × Op :=
  if isSpace c then (s, .scanSkipSpace)
  else if c = 93 then stateEndValue s c
  else stateBeginValue s c

/-- Go `stateBeginString`. -/
def stateBeginString (s : Scanner) (c : Nat) : Scanner × Op :=
  if isSpace c then (s, .scanSkipSpace)
  else if c = 34 then ({ s with step := .stateInString }, .scanBeginLiteral)
  else s.error

/-- Go `stateBeginStringOrEmpty`. -/
def stateBeginStringOrEmpty (s : Scanner) (c : Nat) : Scanner × Op :=
  if isSpace c then (s, .scanSkipSpace)
  else if c = 125 then
    stateEndValue { s with parseState := .parseObjectValue :: s.parseState.tail } c
  else stateBeginString s c

/-- Whether `c` is a decimal digit. -/
def isDigit (c : Nat) : Bool := decide (48 ≤ c) && decide (c ≤ 57)

/-- Whether `c` is a hexadecimal digit. -/
def isHex (c : Nat) : Bool :=
  isDigit c || (decide (97 ≤ c) && decide (c ≤ 102)) || (decide (65 ≤ c) && decide (c ≤ 70))

/-- Go `stateInString`. -/
def stateInString (s : Scanner) (c : Nat) : Scanner × Op :=
  if c = 34 then ({ s with step := .stateEndValue }, .scanContinue)
  else if c = 92 then ({ s with step := .stateInStringEsc }, .scanContinue)
  else if c < 32 then s.error
  else (s, .scanContinue)

/-- Go `stateInStringEsc`. -/
def stateInStringEsc (s : Scanner) (c : Nat) : Scanner × Op :=
  if c = 98 ∨ c = 102 ∨ c = 110 ∨ c = 114 ∨ c = 116 ∨ c = 92 ∨ c = 47 ∨ c = 34 then
    ({ s with step := .stateInString }, .scanContinue)
  else if c = 117 then ({ s with step := .stateInStringEscU }, .scanContinue)
  else s.error

/-- A state that accepts exactly the bytes satisfying `ok` and moves to `next`
(the shape of the `\u` digit states and of the `true`/`false`/`null` states). -/
def expect (ok : Nat → Bool) (next : Step) (s : Scanner) (c : Nat) : Scanner × Op :=
  if ok c then ({ s with step := next }, .scanContinue) else s.error

/-- Go `state0`. -/
def state0 (s : Scanner) (c : Nat) : Scanner × Op :=
  if c = 46 then ({ s with step := .stateDot }, .scanContinue)
  else if c = 101 ∨ c = 69 then ({ s with step := .stateE }, .scanContinue)
  else stateEndValue s c

/-- Go `state1`. -/
def state1 (s : Scanner) (c : Nat) : Scanner × Op :=
  if isDigit c then ({ s with step := .state1 }, .scanContinue) else state0 s c

/-- Go `stateNeg`. -/
def stateNeg (s : Scanner) (c : Nat) : Scanner × Op :=
  if c = 48 then ({ s with step := .state0 }, .scanContinue)
  else if 49 ≤ c ∧ c ≤ 57 then ({ s with step := .state1 }, .scanContinue)
  else s.error

/-- Go `stateDot0`. -/
def stateDot0 (s : Scanner) (c : Nat) : Scanner × Op :=
  if isDigit c then (s, .scanContinue)
  else if c = 101 ∨ c = 69 then ({ s with step := .stateE }, .scanContinue)
  else stateEndValue s c

/-- Go `stateESign`. -/
def stateESign (s : Scanner) (c : Nat) : Scanner × Op :=
  if isDigit c then ({ s with step := .stateE0 }, .scanContinue) else s.error

/-- Go `stateE`. -/
def stateE (s : Scanner) (c : Nat) : Scanner × Op :=
  if c = 43 ∨ c = 45 then ({ s with step := .stateESign }, .scanContinue)
  else stateESign s c

/-- Go `stateE0`. -/
def stateE0 (s : Scanner) (c : Nat) : Scanner × Op :=
  if isDigit c then (s, .scanContinue) else stateEndValue s c

/-- One scanner transition, `s.step(s, c)`: dispatch on the current state
function. -/
def Scanner.doStep (s : Scanner) (c : Nat) : Scanner × Op :=
  match s.step with
  | .stateBeginValueOrEmpty => stateBeginValueOrEmpty s c
  | .stateBeginValue => stateBeginValue s c
  | .stateBeginStringOrEmpty => stateBeginStringOrEmpty s c
  | .stateBeginString => stateBeginString s c
  | .stateEndValue => stateEndValue s c
  | .stateEndTop => stateEndTop s c
  | .stateInString => stateInString s c
  | .stateInStringEsc => stateInStringEsc s c
  | .stateInStringEscU => expect isHex .stateInStringEscU1 s c
  | .stateInStringEscU1 => expect isHex .stateInStringEscU12 s c
  | .stateInStringEscU12 => expect isHex .stateInStringEscU123 s c
  | .stateInStringEscU123 => expect isHex .stateInString s c
  | .stateNeg => stateNeg s c
  | .state1 => state1 s c
  | .state0 => state0 s c
  | .stateDot => expect isDigit .stateDot0 s c
  | .stateDot0 => stateDot0 s c
  | .stateE => stateE s c
  | .stateESign => stateESign s c
  | .stateE0 => stateE0 s c
  | .stateT => expect (· == 114) .stateTr s c
  | .stateTr => expect (· == 117) .stateTru s c
  | .stateTru => expect (· == 101) .stateEndValue s c
  | .stateF => expect (· == 97) .stateFa s c
  | .stateFa => expect (· == 108) .stateFal s c
  | .stateFal => expect (· == 115) .stateFals s c
  | .stateFals => expect (· == 101) .stateEndValue s c
  | .stateN => expect (· == 117) .stateNu s c
  | .stateNu => expect (· == 108) .stateNul s c
  | .stateNul => expect (· == 108) .stateEndValue s c
  | .stateError => (s, .scanError)

/-- Go `scanner.eof`: `true` when the input may end here (`scanEnd`), `false`
for `scanError`. -/
def Scanner.eof (s : Scanner) : Bool :=
  if s.err then false
  else if s.endTop then true
  else (s.doStep 32).1.endTop

/-- Go `checkValid`: the scanner's run over `data`, stopping at the first
`scanError`; `true` when the data is one JSON value. -/
def checkValidFrom : Scanner → Bytes → Bool
  | s, [] => s.eof
  | s, c :: cs =>
    match s.doStep c with
    | (_, .scanError) => false
    | (s1, _) => checkValidFrom s1 cs

/-- Go `json.Valid`. -/
def Valid (data : Bytes) : Bool := checkValidFrom Scanner.reset data

/-! ## `encoding/json`: `Indent` (`indent.go`) -/

/-- Go `appendNewline`: a line feed, the prefix, and `depth` copies of the
indent. -/
def appendNewline (dst pfx indent : Bytes) (depth : Int) : Bytes :=
  dst ++ [10] ++ pfx ++ (List.replicate depth.toNat indent).flatten

/-- The loop variables of `appendIndent` besides the scanner. -/
structure IndentState where
  needIndent : Bool
  depth : Int
  dst : Bytes
  deriving DecidableEq, Repr

/-- The body of the loop of `appendIndent` for one byte `c` whose scanner
result `v` is neither `scanSkipSpace` nor `scanError`. -/
def indentEmit (pfx indent : Bytes) (st : IndentState) (v : Op) (c : Nat) : IndentState :=
  let st1 : IndentState :=
    if st.needIndent ∧ v ≠ .scanEndObject ∧ v ≠ .scanEndArray then
      { needIndent := false, depth := st.depth + 1,
        dst := appendNewline st.dst pfx indent (st.depth + 1) }
    else st
  if v = .scanContinue then { st1 with dst := st1.dst ++ [c] }
  else if c = 123 ∨ c = 91 then { st1 with needIndent := true, dst := st1.dst ++ [c] }
  else if c = 44 then
    { st1 with dst := appendNewline (st1.dst ++ [c]) pfx indent st1.depth }
  else if c = 58 then { st1 with dst := st1.dst ++ [c, 32] }
  else if c = 125 ∨ c = 93 then
    if st1.needIndent then { st1 with needIndent := false, dst := st1.dst ++ [c] }
    else
      { st1 with depth := st1.depth - 1,
                 dst := appendNewline st1.dst pfx indent (st1.depth - 1) ++ [c] }
  else { st1 with dst := st1.dst ++ [c] }

/-- The loop of `appendIndent` over the remaining source bytes: a byte the
scanner skips is dropped, the loop stops at `scanError`. -/
def indentLoop (pfx indent : Bytes) : Scanner → IndentState → Bytes → Scanner × IndentState
  | scan, st, [] => (scan, st)
  | scan, st, c :: cs =>
    match scan.doStep c with
    | (scan1, .scanSkipSpace) => indentLoop pfx indent scan1 st cs
    | (scan1, .scanError) => (scan1, st)
    | (scan1, v) => indentLoop pfx indent scan1 (indentEmit pfx indent st v c) cs

/-- Go `json.Indent` into an empty buffer: the indented bytes, or `none` when
it returns an error (the scanner met an error or the input ended early). -/
def Indent (src pfx indent : Bytes) : Option Bytes :=
  let r := indentLoop pfx indent Scanner.reset ⟨false, 0, []⟩ src
  if r.1.eof then some r.2.dst else none

/-- A computation driven by the scanner, the way `Indent` and the decoder are:
the scanner reads every byte, a byte it skips is dropped, the run stops at
`scanError`, and every other byte updates the accumulator through `f`. -/
def scanFold {σ : Type} (f : σ → Scanner → Op → Nat → σ) : Scanner → σ → Bytes → Scanner × σ
  | s, a, [] => (s, a)
  | s, a, c :: cs =>
    match s.doStep c with
    | (s1, .scanSkipSpace) => scanFold f s1 a cs
    | (s1, .scanError) => (s1, a)
    | (s1, v) => scanFold f s1 (f a s1 v c) cs

/-! ## The program: `formatJSON` -/

/-- Source `formatJSON`: `json.Indent(&prettyJSON, data, " ", "")`; `none` is
the panic on an error of `Indent`. -/
def formatJSON (data : Bytes) : Option Bytes := Indent data [32] []

/-! ## `encoding/json`: decoding (`stream.go`, `decode.go`) -/

/-- The errors `Decoder.Decode` returns. -/
inductive JsonError
  | eof | unexpectedEOF | syntaxError | unmarshalTypeError
  deriving DecidableEq, Repr

/-- The loop of Go `Decoder.readValue` over a body that is read to its end,
`n` bytes of it scanned so far: the length of the first JSON value (leading
white space included).  The scanner runs up to the byte after the value or to
the closing bracket of the top-level value; at the end of the body a space is
fed to it, and a body that ends too early gives `io.EOF` when it holds white
space only and `io.ErrUnexpectedEOF` otherwise. -/
def readValueFrom (buf : Bytes) : Scanner → Nat → Bytes → Except JsonError Nat
  | s, n, [] =>
    if (s.doStep 32).2 = .scanEnd then .ok n
    else if buf.any (fun c => !isSpace c) then .error .unexpectedEOF
    else .error .eof
  | s, n, c :: cs =>
    match s.doStep c with
    | (_, .scanEnd) => .ok n
    | (s1, .scanEndObject) =>
      if (stateEndValue s1 32).2 = .scanEnd then .ok (n + 1)
      else readValueFrom buf (stateEndValue s1 32).1 (n + 1) cs
    | (s1, .scanEndArray) =>
      if (stateEndValue s1 32).2 = .scanEnd then .ok (n + 1)
      else readValueFrom buf (stateEndValue s1 32).1 (n + 1) cs
    | (_, .scanError) => .error .syntaxError
    | (s1, _) => readValueFrom buf s1 (n + 1) cs

/-- Go `Decoder.readValue` on a fresh decoder. -/
def readValue (body : Bytes) : Except JsonError Nat := readValueFrom body Scanner.reset 0 body

/-- The update that records every byte the scanner does not skip, with the
scanner's result for it, up to the end of the top-level value. -/
def collect (a : List (Nat × Op)) (_ : Scanner) (v : Op) (c : Nat) : List (Nat × Op) :=
  if v = .scanEnd then a else a ++ [(c, v)]

/-- What the decoder reads of a document: its bytes outside the white space
between tokens, each with the scanner's result for it. -/
def events (data : Bytes) : List (Nat × Op) := (scanFold collect Scanner.reset [] data).2

/-- A decoded JSON value; a number keeps its literal. -/
inductive JValue
  | null
  | bool (b : Bool)
  | number (lit : Bytes)
  | string (s : Bytes)
  | array (elems : List JValue)
  | object (members : List (Bytes × JValue))

/-- The value of a hexadecimal digit. -/
def hexVal (c : Nat) : Nat :=
  if 48 ≤ c ∧ c ≤ 57 then c - 48
  else if 97 ≤ c ∧ c ≤ 102 then c - 97 + 10
  else c - 65 + 10

/-- Go `utf8.EncodeRune` (a surrogate or a rune above U+10FFFF is written as
U+FFFD). -/
def encodeRune (r : Nat) : Bytes :=
  if r < 0x80 then [r]
  else if r < 0x800 then [0xC0 + r / 64, 0x80 + r % 64]
  else if (0xD800 ≤ r ∧ r < 0xE000) ∨ 0x10FFFF < r then [0xEF, 0xBF, 0xBD]
  else if r < 0x10000 then [0xE0 + r / 4096, 0x80 + r / 64 % 64, 0x80 + r % 64]
  else [0xF0 + r / 262144, 0x80 + r / 4096 % 64, 0x80 + r / 64 % 64, 0x80 + r % 64]

/-- Whether `c` is a UTF-8 continuation byte. -/
def isCont (c : Nat) : Bool := decide (0x80 ≤ c) && decide (c ≤ 0xBF)

/-- The size of the well-formed UTF-8 sequence at the head of `s` as
`utf8.DecodeRune` accepts it, `0` when the head is not one. -/
def utf8Size : Bytes → Nat
  | [] => 0
  | b0 :: rest =>
    if b0 < 0x80 then 1
    else if 0xC2 ≤ b0 ∧ b0 ≤ 0xDF then
      match rest with
      | b1 :: _ => if isCont b1 then 2 else 0
      | _ => 0
    else if 0xE0 ≤ b0 ∧ b0 ≤ 0xEF then
      match rest with
      | b1 :: b2 :: _ =>
        let lo := if b0 = 0xE0 then 0xA0 else 0x80
        let hi := if b0 = 0xED then 0x9F else 0xBF
        if lo ≤ b1 ∧ b1 ≤ hi ∧ isCont b2 then 3 else 0
      | _ => 0
    else if 0xF0 ≤ b0 ∧ b0 ≤ 0xF4 then
      match rest with
      | b1 :: b2 :: b3 :: _ =>
        let lo := if b0 = 0xF0 then 0x90 else 0x80
        let hi := if b0 = 0xF4 then 0x8F else 0xBF
        if lo ≤ b1 ∧ b1 ≤ hi ∧ isCont b2 ∧ isCont b3 then 4 else 0
      | _ => 0
    else 0

/-- Go `getu4`: the rune of a `\uXXXX` escape at the head of `s`. -/
def getu4 : Bytes → Option Nat
  | 92 :: 117 :: a :: b :: c :: d :: _ =>
    if isHex a ∧ isHex b ∧ isHex c ∧ isHex d then
      some (hexVal a * 4096 + hexVal b * 256 + hexVal c * 16 + hexVal d)
    else none
  | _ => none

/-- The loop of Go `unquoteBytes` over the inside of a string literal. -/
def unquoteLoop : Nat → Bytes → Option Bytes
  | 0, _ => none
  | _ + 1, [] => some []
  | fuel + 1, 92 :: rest =>
    match rest with
    | [] => none
    | e :: rest1 =>
      if e = 34 ∨ e = 92 ∨ e = 47 ∨ e = 39 then (unquoteLoop fuel rest1).map (e :: ·)
      else if e = 98 then (unquoteLoop fuel rest1).map (8 :: ·)
      else if e = 102 then (unquoteLoop fuel rest1).map (12 :: ·)
      else if e = 110 then (unquoteLoop fuel rest1).map (10 :: ·)
      else if e = 114 then (unquoteLoop fuel rest1).map (13 :: ·)
      else if e = 116 then (unquoteLoop fuel rest1).map (9 :: ·)
      else if e = 117 then
        match getu4 (92 :: rest) with
        | none => none
        | some rr =>
          let after := rest.drop 5
          if 0xD800 ≤ rr ∧ rr < 0xE000 then
            match getu4 after with
            | some rr1 =>
              if rr < 0xDC00 ∧ 0xDC00 ≤ rr1 ∧ rr1 < 0xE000 then
                (unquoteLoop fuel (after.drop 6)).map
                  (encodeRune ((rr - 0xD800) * 1024 + (rr1 - 0xDC00) + 0x10000) ++ ·)
              else (unquoteLoop fuel after).map ([0xEF, 0xBF, 0xBD] ++ ·)
            | none => (unquoteLoop fuel after).map ([0xEF, 0xBF, 0xBD] ++ ·)
          else (unquoteLoop fuel after).map (encodeRune rr ++ ·)
      else none
  | fuel + 1, c :: rest =>
    if c = 34 ∨ c < 32 then none
    else if c < 0x80 then (unquoteLoop fuel rest).map (c :: ·)
    else
      let n := utf8Size (c :: rest)
      if n = 0 then (unquoteLoop fuel rest).map ([0xEF, 0xBF, 0xBD] ++ ·)
      else (unquoteLoop fuel ((c :: rest).drop n)).map ((c :: rest).take n ++ ·)

/-- Go `unquoteBytes`: the string a quoted literal denotes. -/
def unquoteBytes (s : Bytes) : Option Bytes :=
  if s.length < 2 ∨ s.head? ≠ some 34 ∨ s.getLast? ≠ some 34 then none
  else unquoteLoop (s.length + 1) (s.tail.dropLast)

/-- The literal that starts with the byte `c`: `c` and the bytes the scanner
continues it with, and the events after it. -/
def literalOf (c : Nat) (rest : List (Nat × Op)) : Bytes × List (Nat × Op) :=
  (c :: (rest.takeWhile (fun e => e.2 = .scanContinue)).map (·.1),
    rest.dropWhile (fun e => e.2 = .scanContinue))

mutual
/-- The value at the head of the events (Go `decodeState.value`). -/
def parseValue : Nat → List (Nat × Op) → Option (JValue × List (Nat × Op))
  | 0, _ => none
  | _ + 1, (c, .scanBeginLiteral) :: rest =>
    let item := literalOf c rest
    if c = 34 then (unquoteBytes item.1).map (fun s => (.string s, item.2))
    else if c = 116 then some (.bool true, item.2)
    else if c = 102 then some (.bool false, item.2)
    else if c = 110 then some (.null, item.2)
    else some (.number item.1, item.2)
  | fuel + 1, (_, .scanBeginArray) :: rest =>
    match rest with
    | (_, .scanEndArray) :: rest1 => some (.array [], rest1)
    | _ => (parseElems fuel rest).map (fun r => (.array r.1, r.2))
  | fuel + 1, (_, .scanBeginObject) :: rest =>
    match rest with
    | (_, .scanEndObject) :: rest1 => some (.object [], rest1)
    | _ => (parseMembers fuel rest).map (fun r => (.object r.1, r.2))
  | _, _ => none
/-- The elements of an array up to its closing bracket (Go `decodeState.array`). -/
def parseElems : Nat → List (Nat × Op) → Option (List JValue × List (Nat × Op))
  | 0, _ => none
  | fuel + 1, evs =>
    match parseValue fuel evs with
    | none => none
    | some (v, (_, .scanEndArray) :: rest) => some ([v], rest)
    | some (v, (_, .scanArrayValue) :: rest) =>
      (parseElems fuel rest).map (fun r => (v :: r.1, r.2))
    | some _ => none
/-- The members of an object up to its closing bracket (Go `decodeState.object`). -/
def parseMembers : Nat → List (Nat × Op) → Option (List (Bytes × JValue) × List (Nat × Op))
  | 0, _ => none
  | fuel + 1, (c, .scanBeginLiteral) :: rest =>
    let item := literalOf c rest
    match unquoteBytes item.1, item.2 with
    | some key, (_, .scanObjectKey) :: rest1 =>
      match parseValue fuel rest1 with
      | some (v, (_, .scanEndObject) :: rest2) => some ([(key, v)], rest2)
      | some (v, (_, .scanObjectValue) :: rest2) =>
        (parseMembers fuel rest2).map (fun r => ((key, v) :: r.1, r.2))
      | _ => none
    | _, _ => none
  | _, _ => none
end

/-- The value a document denotes, as the decoder reads it from the scanner's
events. -/
def jsonValue (data : Bytes) : Option JValue :=
  (parseValue ((events data).length + 1) (events data)).map (·.1)

/-! ## The program: the request record and its decoding -/

/-- Source `Transaction`.  The last three fields are unexported in the source
(lower-case names), so `encoding/json` never sets them. -/
structure Transaction where
  PersonID : Bytes
  CarID : Bytes
  Color : Bytes
  OwnerID : Bytes
  NewOwnerID : Bytes
  acceptMalfunctionedStr : Bytes
  description : Bytes
  repairPrice : Bytes
  deriving DecidableEq, Repr

/-- The zero value of `Transaction` (`var transaction Transaction`). -/
def Transaction.zero : Transaction := ⟨[], [], [], [], [], [], [], []⟩

/-- The fields of `Transaction` that `encoding/json` sees: the exported ones. -/
inductive Field
  | PersonID | CarID | Color | OwnerID | NewOwnerID
  deriving DecidableEq, Repr

/-- The JSON name of a field, from its struct tag. -/
def Field.name : Field → Bytes
  | .PersonID => str "personID"
  | .CarID => str "carID"
  | .Color => str "color"
  | .OwnerID => str "ownerID"
  | .NewOwnerID => str "newOwnerID"

/-- The exported fields in declaration order. -/
def exportedFields : List Field := [.PersonID, .CarID, .Color, .OwnerID, .NewOwnerID]

/-- Go `foldName`: ASCII letters in upper case, U+017F and U+212A as the ASCII
letters of their fold orbits (`S`, `K`).  Every other rune outside ASCII is
kept: its fold is outside ASCII too, so it matches no field name. -/
def foldName : Bytes → Bytes
  | [] => []
  | 0xC5 :: 0xBF :: rest => 83 :: foldName rest
  | 0xE2 :: 0x84 :: 0xAA :: rest => 75 :: foldName rest
  | c :: rest => (if 97 ≤ c ∧ c ≤ 122 then c - 32 else c) :: foldName rest

/-- The field an object key selects: the one with exactly that name, else the
first whose name is the key up to case folding. -/
def lookupField (key : Bytes) : Option Field :=
  match exportedFields.find? (fun f => f.name = key) with
  | some f => some f
  | none => exportedFields.find? (fun f => foldName f.name = foldName key)

/-- Assignment to an exported field. -/
def Transaction.set (t : Transaction) : Field → Bytes → Transaction
  | .PersonID, s => { t with PersonID := s }
  | .CarID, s => { t with CarID := s }
  | .Color, s => { t with Color := s }
  | .OwnerID, s => { t with OwnerID := s }
  | .NewOwnerID, s => { t with NewOwnerID := s }

/-- One member of the object (the body of the loop of Go `decodeState.object`
for a struct): a string sets the selected field, `null` leaves it, any other
value saves an `UnmarshalTypeError` (the first one is kept) and decoding goes
on; a key that selects no field is skipped with its value. -/
def decodeMember (st : Transaction × Option JsonError) (m : Bytes × JValue) :
    Transaction × Option JsonError :=
  match lookupField m.1 with
  | none => st
  | some f =>
    match m.2 with
    | .string s => (st.1.set f s, st.2)
    | .null => st
    | _ => (st.1, match st.2 with | some e => some e | none => some .unmarshalTypeError)

/-- Go `decodeState.value` into a `Transaction`: an object fills the fields,
`null` changes nothing, any other value is an `UnmarshalTypeError`. -/
def unmarshalTransaction (t : Transaction) : JValue → Transaction × Option JsonError
  | .object members => members.foldl decodeMember (t, none)
  | .null => (t, none)
  | _ => (t, some .unmarshalTypeError)

/-- The outcome of `json.NewDecoder(r.Body).Decode(&transaction)`. -/
inductive DecodeResult
  | ok (transaction : Transaction)
  | err (e : JsonError)
  | phasePanic
  deriving DecidableEq, Repr

/-- Go `Decoder.Decode` into a zero `Transaction`, the body read to its end:
`readValue` finds the first value, which is then decoded.  `phasePanic` is
the decoder's panic on a value its own scanner has validated but it cannot
read. -/
def Decode (body : Bytes) : DecodeResult :=
  match readValue body with
  | .error e => .err e
  | .ok n =>
    match jsonValue (body.take n) with
    | none => .phasePanic
    | some v =>
      match unmarshalTransaction Transaction.zero v with
      | (t, none) => .ok t
      | (_, some e) => .err e

/-! ## The program: the ledger operations -/

/-- The two ways the program invokes the contract. -/
inductive Kind
  | evaluate | submit
  deriving DecidableEq, Repr

/-- One remote call on the contract: `EvaluateTransaction` or
`SubmitTransaction` with a function name and its arguments. -/
structure Call where
  kind : Kind
  name : Bytes
  args : List Bytes
  deriving DecidableEq, Repr

/-- What a request does besides answering: lines printed to the console and
remote calls, in order. -/
inductive Event
  | print (text : Bytes)
  | call (c : Call)
  deriving DecidableEq, Repr

/-- The contract handle (`*client.Contract`): what the gateway answers to an
evaluate and to a submit, the result bytes or the message of the error (a
time-out is an error). -/
structure Contract where
  EvaluateTransaction : Bytes → List Bytes → Except Bytes Bytes
  SubmitTransaction : Bytes → List Bytes → Except Bytes Bytes

/-- The run of one function of the program: its events, and whether it ended
in a panic. -/
structure Run where
  events : List Event
  panicked : Bool
  deriving DecidableEq, Repr

/-- The shape the four submitting operations share: print the banner, submit,
then print the wrapped error or the success line. -/
def submitAndReport (contract : Contract) (banner : Bytes) (name : Bytes) (args : List Bytes) :
    Run :=
  match contract.SubmitTransaction name args with
  | .error err =>
    ⟨[.print banner, .call ⟨.submit, name, args⟩,
      .print (str "failed to submit transaction: " ++ err ++ [10])], false⟩
  | .ok _ =>
    ⟨[.print banner, .call ⟨.submit, name, args⟩,
      .print (str "*** Transaction committed successfully\n")], false⟩

/-- The shape the four evaluating operations share: print the banner,
evaluate, then print the wrapped error, or format the result with
`formatJSON` (whose panic ends the run) and print it. -/
def evaluateAndPrint (contract : Contract) (banner : Bytes) (name : Bytes) (args : List Bytes) :
    Run :=
  match contract.EvaluateTransaction name args with
  | .error err =>
    ⟨[.print banner, .call ⟨.evaluate, name, args⟩,
      .print (str "failed to evaluate transaction: " ++ err ++ [10])], false⟩
  | .ok evaluateResult =>
    match formatJSON evaluateResult with
    | none => ⟨[.print banner, .call ⟨.evaluate, name, args⟩], true⟩
    | some result =>
      ⟨[.print banner, .call ⟨.evaluate, name, args⟩,
        .print (str "*** Result:" ++ result ++ [10])], false⟩

/-- Source `initLedger`. -/
def initLedger (contract : Contract) : Run :=
  submitAndReport contract
    (str "Submit Transaction: InitLedger, function creates the initial set of assets on the ledger \n")
    (str "InitLedger") []

/-- Source `readPersonAsset`. -/
def readPersonAsset (contract : Contract) (id : Bytes) : Run :=
  evaluateAndPrint contract
    (str "Evaluate Transaction: ReadPersonAsset, function returns person asset attributes\n")
    (str "ReadPersonAsset") [id]

/-- Source `readCarAsset`. -/
def readCarAsset (contract : Contract) (id : Bytes) : Run :=
  evaluateAndPrint contract
    (str "Evaluate Transaction: ReadCarAsset, function returns car asset attributes\n")
    (str "ReadCarAsset") [id]

/-- Source `getCarsByColor`. -/
def getCarsByColor (contract : Contract) (color : Bytes) : Run :=
  evaluateAndPrint contract
    (str "Evaluate Transaction: GetCarsByColor, function returns all the cars with the given color\n")
    (str "GetCarsByColor") [color]

/-- Source `getCarsByColorAndOwner`. -/
def getCarsByColorAndOwner (contract : Contract) (color ownerID : Bytes) : Run :=
  evaluateAndPrint contract
    (str "Evaluate Transaction: GetCarsByColorAndOwner, function returns all the cars with the given color and owner\n")
    (str "GetCarsByColorAndOwner") [color, ownerID]

/-- Go `strconv.FormatBool`. -/
def FormatBool (b : Bool) : Bytes := if b then str "true" else str "false"

/-- Source `transferCarAsset`. -/
def transferCarAsset (contract : Contract) (id newOwner : Bytes) (acceptMalfunction : Bool) :
    Run :=
  submitAndReport contract (str "Submit Transaction: TransferCarAsset, change car owner \n")
    (str "TransferCarAsset") [id, newOwner, FormatBool acceptMalfunction]

/-- Source `changeCarColor`. -/
def changeCarColor (contract : Contract) (id newColor : Bytes) : Run :=
  submitAndReport contract (str "Submit Transaction: ChangeCarColor, change the color of a car \n")
    (str "ChangeCarColor") [id, newColor]

/-- Source `repairCar`. -/
def repairCar (contract : Contract) (id : Bytes) : Run :=
  submitAndReport contract
    (str "Submit Transaction: RepairCar, fix all of the car\x27s malfunctions \n")
    (str "RepairCar") [id]

/-! ## The program: the HTTP handlers registered in `main` -/

/-- The nine patterns `main` registers with `http.HandleFunc`. -/
inductive Route
  | initLedger | readPersonAsset | readCarAsset | getCarsByColor | getCarsByColorAndOwner
  | transferCarAsset | addCarMalfunction | changeCarColor | repairCar
  deriving DecidableEq, Repr

/-- How a handler ends: the status of the response, or a panic (which
`net/http` recovers by dropping the connection without a response). -/
inductive Outcome
  | status (code : Nat)
  | panicked
  deriving DecidableEq, Repr

/-- What serving one request did. -/
structure Response where
  events : List Event
  outcome : Outcome
  deriving DecidableEq, Repr

/-- The frame the eight decoding handlers share: decode the body into a
`Transaction`; on an error answer `http.StatusBadRequest` and return; else run
the operation and, when it returns, write `http.StatusOK`. -/
def withTransaction (body : Bytes) (operation : Transaction → Run) : Response :=
  match Decode body with
  | .err _ => ⟨[], .status 400⟩
  | .phasePanic => ⟨[], .panicked⟩
  | .ok transaction =>
    let run := operation transaction
    if run.panicked then ⟨run.events, .panicked⟩ else ⟨run.events, .status 200⟩

/-- The handler `main` registers for each route.  The `/initLedger` handler
never reads the body and never writes a header: `net/http` answers 200 when it
returns.  The `/addCarMalfunction` handler decodes and calls nothing. -/
def handle (contract : Contract) (route : Route) (body : Bytes) : Response :=
  match route with
  | .initLedger =>
    let run := initLedger contract
    ⟨.print (str "Initializing ledger...\n") :: run.events, .status 200⟩
  | .readPersonAsset =>
    withTransaction body fun transaction => readPersonAsset contract transaction.PersonID
  | .readCarAsset =>
    withTransaction body fun transaction => readCarAsset contract transaction.CarID
  | .getCarsByColor =>
    withTransaction body fun transaction => getCarsByColor contract transaction.Color
  | .getCarsByColorAndOwner =>
    withTransaction body fun transaction =>
      getCarsByColorAndOwner contract transaction.Color transaction.OwnerID
  | .transferCarAsset =>
    withTransaction body fun transaction =>
      let acceptMalfunctionedBool :=
        if transaction.acceptMalfunctionedStr = str "n" then false else true
      transferCarAsset contract transaction.CarID transaction.NewOwnerID acceptMalfunctionedBool
  | .addCarMalfunction => withTransaction body fun _ => ⟨[], false⟩
  | .changeCarColor =>
    withTransaction body fun transaction =>
      changeCarColor contract transaction.CarID transaction.Color
  | .repairCar =>
    withTransaction body fun transaction => repairCar contract transaction.CarID

/-- The remote calls among the events. -/
def callsOf : List Event → List Call
  | [] => []
  | .call c :: rest => c :: callsOf rest
  | .print _ :: rest => callsOf rest

/-- The remote calls a request issues. -/
def Response.calls (r : Response) : List Call := callsOf r.events

/-! ## The operation table of the specification -/

/-- The invocation kind the table gives for a route (none for
`/addCarMalfunction`, which is not forwarded). -/
def tableKind : Route → Option Kind
  | .initLedger => some .submit
  | .readPersonAsset => some .evaluate
  | .readCarAsset => some .evaluate
  | .getCarsByColor => some .evaluate
  | .getCarsByColorAndOwner => some .evaluate
  | .transferCarAsset => some .submit
  | .addCarMalfunction => none
  | .changeCarColor => some .submit
  | .repairCar => some .submit

/-- The function name the table gives for a route. -/
def tableName : Route → Bytes
  | .initLedger => str "InitLedger"
  | .readPersonAsset => str "ReadPersonAsset"
  | .readCarAsset => str "ReadCarAsset"
  | .getCarsByColor => str "GetCarsByColor"
  | .getCarsByColorAndOwner => str "GetCarsByColorAndOwner"
  | .transferCarAsset => str "TransferCarAsset"
  | .addCarMalfunction => str "AddCarMalfunction"
  | .changeCarColor => str "ChangeCarColor"
  | .repairCar => str "RepairCar"

/-- The arguments the table lists for the six routes whose arguments are
body fields as they are, taken from a decoded record. -/
def tableArgs : Route → Transaction → List Bytes
  | .readPersonAsset, t => [t.PersonID]
  | .readCarAsset, t => [t.CarID]
  | .getCarsByColor, t => [t.Color]
  | .getCarsByColorAndOwner, t => [t.Color, t.OwnerID]
  | .changeCarColor, t => [t.CarID, t.Color]
  | .repairCar, t => [t.CarID]
  | _, _ => []

/-! ## The program: configuration -/

/-- Source `OrgConfig`. -/
structure OrgConfig where
  MspID : Bytes
  CertPath : Bytes
  KeyPath : Bytes
  TlsCertPath : Bytes
  PeerEndpoint : Bytes
  GatewayPeer : Bytes
  deriving DecidableEq, Repr

/-- The zero value of `OrgConfig`. -/
def OrgConfig.zero : OrgConfig := ⟨[], [], [], [], [], []⟩

/-- Source `AppConfig`; the map `Orgs` is a list of entries, the latest entry
of a key first. -/
structure AppConfig where
  Orgs : List (Bytes × OrgConfig)
  ChannelName : Bytes
  ChaincodeName : Bytes
  deriving DecidableEq, Repr

/-- The zero value of `AppConfig` (a nil map, empty names). -/
def AppConfig.zero : AppConfig := ⟨[], [], []⟩

/-- Go map indexing `orgsConfig[key]`: the entry, or the zero value when the
key is absent. -/
def mapIndex (orgs : List (Bytes × OrgConfig)) (key : Bytes) : OrgConfig :=
  match orgs.find? (fun e => e.1 = key) with
  | some e => e.2
  | none => OrgConfig.zero

/-- The field of `OrgConfig` (by position `0..5`) an object key selects:
exact JSON name first, else the first name equal up to case folding. -/
def orgFieldNames : List Bytes :=
  [str "mspID", str "certPath", str "keyPath", str "tlsCertPath", str "peerEndpoint",
    str "gatewayPeer"]

/-- The position of the name a key selects in a list of JSON names. -/
def lookupName (names : List Bytes) (key : Bytes) : Option Nat :=
  match names.indexOf? key with
  | some i => some i
  | none => (names.map foldName).indexOf? (foldName key)

/-- Assignment to the `i`-th field of `OrgConfig`. -/
def OrgConfig.set (o : OrgConfig) (i : Nat) (s : Bytes) : OrgConfig :=
  match i with
  | 0 => { o with MspID := s }
  | 1 => { o with CertPath := s }
  | 2 => { o with KeyPath := s }
  | 3 => { o with TlsCertPath := s }
  | 4 => { o with PeerEndpoint := s }
  | 5 => { o with GatewayPeer := s }
  | _ => o

/-- Decoding of a JSON value into an `OrgConfig` (errors are saved by the
decoder and do not stop it; `main` discards them). -/
def unmarshalOrgConfig (o : OrgConfig) : JValue → OrgConfig
  | .object members =>
    members.foldl (fun acc m =>
      match lookupName orgFieldNames m.1, m.2 with
      | some i, .string s => acc.set i s
      | _, _ => acc) o
  | _ => o

/-- Decoding of a JSON value into the map `Orgs`: every member of an object
is decoded into a zero `OrgConfig` and stored under its key; `null` makes the
map nil. -/
def unmarshalOrgs (orgs : List (Bytes × OrgConfig)) : JValue → List (Bytes × OrgConfig)
  | .object members =>
    members.foldl (fun acc m => (m.1, unmarshalOrgConfig OrgConfig.zero m.2) :: acc) orgs
  | .null => []
  | _ => orgs

/-- The JSON names of the fields of `AppConfig`. -/
def appFieldNames : List Bytes := [str "orgs", str "channelName", str "chaincodeName"]

/-- Decoding of a JSON value into an `AppConfig`. -/
def unmarshalAppConfigValue (a : AppConfig) : JValue → AppConfig
  | .object members =>
    members.foldl (fun acc m =>
      match lookupName appFieldNames m.1, m.2 with
      | some 0, v => { acc with Orgs := unmarshalOrgs acc.Orgs v }
      | some 1, .string s => { acc with ChannelName := s }
      | some 2, .string s => { acc with ChaincodeName := s }
      | _, _ => acc) a
  | _ => a

/-- The `appConfig` after `json.Unmarshal(byteConfig, &appConfig)` on a zero
`AppConfig`; the error `Unmarshal` returns is dropped by `main`.  Data that is
not valid JSON leaves the value untouched. -/
def unmarshalAppConfig (byteConfig : Bytes) : AppConfig :=
  if Valid byteConfig then
    match jsonValue byteConfig with
    | some v => unmarshalAppConfigValue AppConfig.zero v
    | none => AppConfig.zero
  else AppConfig.zero

/-! ## `fmt.Scanf("%d", &orgOption)` -/

/-- Go `fmt`'s `isSpace` on a rune. -/
def isSpaceRune (r : Nat) : Bool :=
  decide (0x09 ≤ r ∧ r ≤ 0x0d) || r == 0x20 || r == 0x85 || r == 0xa0 || r == 0x1680 ||
    decide (0x2000 ≤ r ∧ r ≤ 0x200a) || r == 0x2028 || r == 0x2029 || r == 0x202f ||
    r == 0x205f || r == 0x3000

/-- Go `ss.SkipSpace` under `Scanf` (a newline is not a space): the input
after the leading spaces, or `none` for the error "unexpected newline". -/
def SkipSpace : List Nat → Option (List Nat)
  | [] => some []
  | r :: rest =>
    if r = 13 ∧ rest.head? = some 10 then SkipSpace rest
    else if r = 10 then none
    else if isSpaceRune r then SkipSpace rest
    else some (r :: rest)

/-- The integer `Scanf("%d", ...)` stores for an input (the runes on standard
input), `none` when the scan fails and stores nothing: leading spaces, an
optional sign, at least one decimal digit, the value within `int64`. -/
def scanInt (input : List Nat) : Option Int :=
  match SkipSpace input with
  | none => none
  | some [] => none
  | some (r :: rest) =>
    let neg := decide (r = 45)
    let body := if r = 43 ∨ r = 45 then rest else r :: rest
    let digits := body.takeWhile isDigit
    if digits = [] then none
    else
      let n : Nat := digits.foldl (fun acc d => acc * 10 + (d - 48)) 0
      if neg then (if n ≤ 2 ^ 63 then some (-(n : Int)) else none)
      else (if n < 2 ^ 63 then some (n : Int) else none)

/-- The organisation choice of `main`: `orgOption` starts at zero, `Scanf`
stores into it when the scan succeeds, and the `switch` picks the entry. -/
def selectOrg (orgsConfig : List (Bytes × OrgConfig)) (input : List Nat) : OrgConfig :=
  let orgOption : Int := match scanInt input with
    | some n => n
    | none => 0
  if orgOption = 2 then mapIndex orgsConfig (str "org2")
  else if orgOption = 3 then mapIndex orgsConfig (str "org3")
  else if orgOption = 4 then mapIndex orgsConfig (str "org4")
  else mapIndex orgsConfig (str "org1")

/-! ## `path.Join` -/

/-- The elements of a slash-separated path, empty ones included. -/
def splitSlash : Bytes → List Bytes
  | [] => [[]]
  | c :: rest =>
    if c = 47 then [] :: splitSlash rest
    else match splitSlash rest with
      | [] => [[c]]
      | e :: es => (c :: e) :: es

/-- The elements `path.Clean` keeps, innermost first: empty and `.` elements
go, `..` removes the element before it, stays at the front of a relative path
and goes at the root. -/
def cleanElems (rooted : Bool) : List Bytes → List Bytes → List Bytes
  | kept, [] => kept
  | kept, e :: es =>
    if e = [] ∨ e = [46] then cleanElems rooted kept es
    else if e = [46, 46] then
      match kept with
      | k :: ks => if k = [46, 46] then cleanElems rooted (e :: kept) es
                   else cleanElems rooted ks es
      | [] => if rooted then cleanElems rooted [] es else cleanElems rooted [e] es
    else cleanElems rooted (e :: kept) es

/-- Go `path.Clean`. -/
def pathClean (p : Bytes) : Bytes :=
  if p = [] then [46]
  else
    let rooted := decide (p.head? = some 47)
    let body := List.intercalate [47] (cleanElems rooted [] (splitSlash p)).reverse
    if rooted then 47 :: body else if body = [] then [46] else body

/-- Go `path.Join`: the non-empty elements joined by slashes, cleaned; the
empty string when all are empty. -/
def pathJoin (elems : List Bytes) : Bytes :=
  let parts := elems.filter (fun e => e ≠ [])
  if parts = [] then [] else pathClean (List.intercalate [47] parts)

/-! ## The program: start-up -/

/-- The world `main` starts in: the configuration file (`none` when
`os.Open` fails, else the bytes `ReadAll` returns and whether it reports an
error), the operator's input, the file system, and the outcomes of the
library calls that build credentials and connections. -/
structure World where
  configFile : Option (Bytes × Bool)
  stdin : List Nat
  ReadFile : Bytes → Option Bytes
  ReadDir : Bytes → Option (List Bytes)
  CertificateFromPEM : Bytes → Bool
  Dial : Bytes → Bytes → Bool
  NewX509Identity : Bytes → Bytes → Bool
  PrivateKeyFromPEM : Bytes → Bool
  NewPrivateKeySign : Bytes → Bool
  Connect : Bool

/-- The panics of start-up, by the place that raises them. -/
inductive Panic
  | configOpen | certificateRead | certificateParse | grpcDial | identity
  | keyDirRead | indexOutOfRange | keyFileRead | privateKeyParse | privateKeySign
  | gatewayConnect
  deriving DecidableEq, Repr

/-- What start-up does to the outside, in order. -/
inductive Action
  | prompt
  | scan
  | readFile (path : Bytes)
  | readDir (path : Bytes)
  | parseCertificate
  | dial (peerEndpoint gatewayPeer : Bytes)
  | newIdentity (mspID : Bytes)
  | parsePrivateKey
  | newSign
  | connect
  | listen (channelName chaincodeName : Bytes)
  deriving DecidableEq, Repr

/-- A start-up function's run: its actions, then the panic that ended it or
its result. -/
structure Startup (α : Type) where
  actions : List Action
  result : Except Panic α

/-- A step that does `actions` and returns `a`. -/
def Startup.done {α : Type} (actions : List Action) (a : α) : Startup α := ⟨actions, .ok a⟩

/-- A step that does `actions` and panics. -/
def Startup.panic {α : Type} (actions : List Action) (p : Panic) : Startup α :=
  ⟨actions, .error p⟩

/-- Sequencing: a panic ends the run. -/
def Startup.andThen {α β : Type} (x : Startup α) (k : α → Startup β) : Startup β :=
  match x.result with
  | .error p => ⟨x.actions, .error p⟩
  | .ok a => ⟨x.actions ++ (k a).actions, (k a).result⟩

/-- Source `loadCertificate` followed by the caller's `panic(err)`: the PEM
bytes of the certificate. -/
def loadCertificate (w : World) (filename : Bytes) : Startup Bytes :=
  match w.ReadFile filename with
  | none => .panic [.readFile filename] .certificateRead
  | some certificatePEM =>
    if w.CertificateFromPEM certificatePEM then
      .done [.readFile filename, .parseCertificate] certificatePEM
    else .panic [.readFile filename, .parseCertificate] .certificateParse

/-- Source `newGrpcConnection`. -/
def newGrpcConnection (w : World) (tlsCertPath gatewayPeer peerEndpoint : Bytes) :
    Startup Unit :=
  (loadCertificate w tlsCertPath).andThen fun _ =>
    if w.Dial peerEndpoint gatewayPeer then .done [.dial peerEndpoint gatewayPeer] ()
    else .panic [.dial peerEndpoint gatewayPeer] .grpcDial

/-- Source `newIdentity`. -/
def newIdentity (w : World) (certPath mspID : Bytes) : Startup Unit :=
  (loadCertificate w certPath).andThen fun certificate =>
    if w.NewX509Identity mspID certificate then .done [.newIdentity mspID] ()
    else .panic [.newIdentity mspID] .identity

/-- Source `newSign`: list the key directory, read the file named by the
first entry (`files[0]`, a run-time panic on an empty listing), parse the
key, make the signing function. -/
def newSign (w : World) (keyPath : Bytes) : Startup Unit :=
  match w.ReadDir keyPath with
  | none => .panic [.readDir keyPath] .keyDirRead
  | some files =>
    match files with
    | [] => .panic [.readDir keyPath] .indexOutOfRange
    | first :: _ =>
      match w.ReadFile (pathJoin [keyPath, first]) with
      | none => .panic [.readDir keyPath, .readFile (pathJoin [keyPath, first])] .keyFileRead
      | some privateKeyPEM =>
        if !w.PrivateKeyFromPEM privateKeyPEM then
          .panic [.readDir keyPath, .readFile (pathJoin [keyPath, first]), .parsePrivateKey]
            .privateKeyParse
        else if !w.NewPrivateKeySign privateKeyPEM then
          .panic
            [.readDir keyPath, .readFile (pathJoin [keyPath, first]), .parsePrivateKey, .newSign]
            .privateKeySign
        else
          .done
            [.readDir keyPath, .readFile (pathJoin [keyPath, first]), .parsePrivateKey, .newSign]
            ()

/-- Source `main` up to `http.ListenAndServe`: open and decode the
configuration (only a failure of `os.Open` is checked), prompt, scan, pick
the organisation, build the connection, the identity, the signer and the
gateway, then serve. -/
def main (w : World) : Startup Unit :=
  match w.configFile with
  | none => .panic [] .configOpen
  | some (byteConfig, _) =>
    let appConfig := unmarshalAppConfig byteConfig
    let orgConfig := selectOrg appConfig.Orgs w.stdin
    (Startup.done [.prompt, .scan] ()).andThen fun _ =>
    (newGrpcConnection w orgConfig.TlsCertPath orgConfig.GatewayPeer
      orgConfig.PeerEndpoint).andThen fun _ =>
    (newIdentity w orgConfig.CertPath orgConfig.MspID).andThen fun _ =>
    (newSign w orgConfig.KeyPath).andThen fun _ =>
    (if w.Connect then Startup.done [.connect] () else Startup.panic [.connect] .gatewayConnect
      ).andThen fun _ =>
    Startup.done [.listen appConfig.ChannelName appConfig.ChaincodeName] ()

/-! ## JSON texts by the grammar of RFC 8259

The notion of valid JSON the specification refers to, written after the
grammar of RFC 8259 and not after the code: a JSON text is a syntax tree, and
the byte string it stands for is its rendering.  Every production of the
grammar is a constructor; the lexical conditions are in `ok`.  A character of
a string outside ASCII is a run of bytes from 0x80 up, so every UTF-8 encoded
JSON text is the rendering of a tree. -/

/-- The production `ws`: spaces, horizontal tabs, line feeds and carriage
returns. -/
def isWs (w : Bytes) : Bool := w.all fun c => c == 32 || c == 9 || c == 10 || c == 13

/-- The production `char` of a string: an unescaped byte, a two-character
escape, or `\u` and four hexadecimal digits. -/
inductive StringItem
  | plain (c : Nat)
  | escape (e : Nat)
  | unicode (a b c d : Nat)
  deriving DecidableEq, Repr

/-- The lexical condition on a `char`: an unescaped byte is neither a control
character nor `"` nor `\`; an escape is one of `" \ / b f n r t`. -/
def StringItem.ok : StringItem → Bool
  | .plain c => decide (32 ≤ c) && c != 34 && c != 92
  | .escape e =>
    e == 34 || e == 92 || e == 47 || e == 98 || e == 102 || e == 110 || e == 114 || e == 116
  | .unicode a b c d => isHex a && isHex b && isHex c && isHex d

/-- The bytes of a `char`. -/
def StringItem.render : StringItem → Bytes
  | .plain c => [c]
  | .escape e => [92, e]
  | .unicode a b c d => [92, 117, a, b, c, d]

/-- The production `string`: the characters between quotation marks. -/
def renderString (items : List StringItem) : Bytes :=
  34 :: (items.map StringItem.render).flatten ++ [34]

/-- The production `number = [ minus ] int [ frac ] [ exp ]`: the digits of
`int`, the digits after the decimal point, and the exponent as its letter,
its sign and its digits. -/
structure NumberLit where
  minus : Bool
  int : Bytes
  frac : Option Bytes
  exp : Option (Nat × Option Nat × Bytes)
  deriving DecidableEq, Repr

/-- The lexical condition on a number: `int` is `0` or starts with a digit
from 1 to 9, `frac` and `exp` have at least one digit, the exponent letter is
`e` or `E` and its sign `+` or `-`. -/
def NumberLit.ok (n : NumberLit) : Bool :=
  (match n.int with
    | [] => false
    | d :: ds => (d == 48 && ds.isEmpty) || (decide (49 ≤ d) && decide (d ≤ 57) && ds.all isDigit)) &&
  (match n.frac with
    | none => true
    | some ds => !ds.isEmpty && ds.all isDigit) &&
  (match n.exp with
    | none => true
    | some (e, sign, ds) =>
      (e == 101 || e == 69) && (sign == none || sign == some 43 || sign == some 45) &&
        !ds.isEmpty && ds.all isDigit)

/-- The bytes of a number. -/
def NumberLit.render (n : NumberLit) : Bytes :=
  (if n.minus then [45] else []) ++ n.int ++
    (match n.frac with
      | none => []
      | some ds => 46 :: ds) ++
    (match n.exp with
      | none => []
      | some (e, sign, ds) => e :: (match sign with | none => [] | some c => [c]) ++ ds)

/-- The values that are one token: the three literal names, numbers and
strings. -/
inductive Token
  | litNull
  | litTrue
  | litFalse
  | number (n : NumberLit)
  | string (items : List StringItem)
  deriving DecidableEq, Repr

/-- The lexical condition on a token. -/
def Token.ok : Token → Bool
  | .number n => n.ok
  | .string items => items.all StringItem.ok
  | _ => true

/-- The bytes of a token. -/
def Token.render : Token → Bytes
  | .litNull => [110, 117, 108, 108]
  | .litTrue => [116, 114, 117, 101]
  | .litFalse => [102, 97, 108, 115, 101]
  | .number n => n.render
  | .string items => renderString items

/-- The syntactic categories of the grammar: a value, the non-empty list of
the elements of an array, the non-empty list of the members of an object. -/
inductive Cat
  | value | elements | members
  deriving DecidableEq, Repr

/-- The syntax trees of the grammar.  A value is a token, `[ ws ]`,
`[ ws elements ]`, `{ ws }` or `{ ws members }`; elements are `value ws` or
`value ws , ws elements`; members are `string ws : ws value ws` or
`string ws : ws value ws , ws members`. -/
inductive JsonTree : Cat → Type
  | literal (tok : Token) : JsonTree .value
  | emptyArray (ws : Bytes) : JsonTree .value
  | array (ws : Bytes) (es : JsonTree .elements) : JsonTree .value
  | emptyObject (ws : Bytes) : JsonTree .value
  | object (ws : Bytes) (ms : JsonTree .members) : JsonTree .value
  | single (v : JsonTree .value) (ws : Bytes) : JsonTree .elements
  | more (v : JsonTree .value) (ws1 ws2 : Bytes) (rest : JsonTree .elements) :
      JsonTree .elements
  | member (key : List StringItem) (ws1 ws2 : Bytes) (v : JsonTree .value) (ws3 : Bytes) :
      JsonTree .members
  | members (key : List StringItem) (ws1 ws2 : Bytes) (v : JsonTree .value) (ws3 ws4 : Bytes)
      (rest : JsonTree .members) : JsonTree .members

/-- The bytes a tree stands for. -/
def JsonTree.render : {k : Cat} → JsonTree k → Bytes
  | _, .literal tok => tok.render
  | _, .emptyArray ws => 91 :: ws ++ [93]
  | _, .array ws es => 91 :: ws ++ es.render ++ [93]
  | _, .emptyObject ws => 123 :: ws ++ [125]
  | _, .object ws ms => 123 :: ws ++ ms.render ++ [125]
  | _, .single v ws => v.render ++ ws
  | _, .more v ws1 ws2 rest => v.render ++ ws1 ++ 44 :: ws2 ++ rest.render
  | _, .member key ws1 ws2 v ws3 => renderString key ++ ws1 ++ 58 :: ws2 ++ v.render ++ ws3
  | _, .members key ws1 ws2 v ws3 ws4 rest =>
    renderString key ++ ws1 ++ 58 :: ws2 ++ v.render ++ ws3 ++ 44 :: ws4 ++ rest.render

/-- The lexical conditions of a tree: every token and key is well formed and
every `ws` is white space. -/
def JsonTree.ok : {k : Cat} → JsonTree k → Bool
  | _, .literal tok => tok.ok
  | _, .emptyArray ws => isWs ws
  | _, .array ws es => isWs ws && es.ok
  | _, .emptyObject ws => isWs ws
  | _, .object ws ms => isWs ws && ms.ok
  | _, .single v ws => v.ok && isWs ws
  | _, .more v ws1 ws2 rest => v.ok && isWs ws1 && isWs ws2 && rest.ok
  | _, .member key ws1 ws2 v ws3 =>
    key.all StringItem.ok && isWs ws1 && isWs ws2 && v.ok && isWs ws3
  | _, .members key ws1 ws2 v ws3 ws4 rest =>
    key.all StringItem.ok && isWs ws1 && isWs ws2 && v.ok && isWs ws3 && isWs ws4 && rest.ok

/-- The nesting depth of a tree: the largest number of arrays and objects one
inside the other. -/
def JsonTree.depth : {k : Cat} → JsonTree k → Nat
  | _, .literal _ => 0
  | _, .emptyArray _ => 1
  | _, .array _ es => es.depth + 1
  | _, .emptyObject _ => 1
  | _, .object _ ms => ms.depth + 1
  | _, .single v _ => v.depth
  | _, .more v _ _ rest => max v.depth rest.depth
  | _, .member _ _ _ v _ => v.depth
  | _, .members _ _ _ v _ _ rest => max v.depth rest.depth

/-- The production `JSON-text = ws value ws`. -/
structure JsonText where
  lead : Bytes
  value : JsonTree .value
  trail : Bytes

/-- The bytes of a JSON text. -/
def JsonText.render (t : JsonText) : Bytes := t.lead ++ t.value.render ++ t.trail

/-- The lexical conditions of a JSON text. -/
def JsonText.ok (t : JsonText) : Bool := isWs t.lead && t.value.ok && isWs t.trail

/-- The nesting depth of a JSON text. -/
def JsonText.depth (t : JsonText) : Nat := t.value.depth

/-- A scanner in `stateError` has its error recorded. -/
def WF (s : Scanner) : Prop := s.step = .stateError → s.err = true

/-- What every scanner transition guarantees, whatever the byte. -/
def StepSpec (s : Scanner) (c : Nat) (r : Scanner × Op) : Prop :=
  (r.2 = .scanError → r.1.err = true) ∧ (s.err = true → r.1.err = true) ∧
  (WF s → WF r.1) ∧
  (r.2 = .scanSkipSpace → isSpace c = true) ∧
  (r.2 = .scanEndObject → c = 125) ∧ (r.2 = .scanEndArray → c = 93)

/-- The states in which a value or key is awaited. -/
def Step.isBegin : Step → Bool
  | .stateBeginValueOrEmpty | .stateBeginValue | .stateBeginStringOrEmpty | .stateBeginString => true
  | _ => false

/-- The states right after `[` or `{`. -/
def Step.isOrEmpty : Step → Bool
  | .stateBeginValueOrEmpty | .stateBeginStringOrEmpty => true
  | _ => false

/-- The states in which a number may end. -/
def Step.isNumEnd : Step → Bool
  | .state1 | .state0 | .stateDot0 | .stateE0 => true
  | _ => false

/-- The bytes one emitting step of `formatJSON` appends. -/
def chunk (ni : Bool) (v : Op) (c : Nat) : Bytes :=
  (indentEmit [32] [] ⟨ni, 0, []⟩ v c).dst

/-- The `needIndent` flag after one emitting step. -/
def niAfter (ni : Bool) (v : Op) (c : Nat) : Bool :=
  (indentEmit [32] [] ⟨ni, 0, []⟩ v c).needIndent

/-- The `depth` after one emitting step. -/
def depthAfter (ni : Bool) (d : Int) (v : Op) (c : Nat) : Int :=
  (indentEmit [32] [] ⟨ni, d, []⟩ v c).depth

/-- The update of `formatJSON` on the loop variables of `Indent`, as an
update of a scanner-driven run. -/
def fmtAcc (st : IndentState) (_ : Scanner) (v : Op) (c : Nat) : IndentState :=
  indentEmit [32] [] st v c

/-- The scanner of the second run is the scanner of the first run, up to
white space the first run has skipped after a number. -/
def Rel (s1 s2 : Scanner) : Prop :=
  s1 = s2 ∨ (s2.step.isNumEnd = true ∧ s2.parseState ≠ [] ∧ s1 = { s2 with step := .stateEndValue })

/-- The invariant of the scanner's bookkeeping: `err` is set exactly in
`stateError`, and `endTop` exactly once the top-level value has ended. -/
def Good (s : Scanner) : Prop :=
  (s.err = true ↔ s.step = .stateError) ∧ (s.step = .stateEndTop → s.endTop = true) ∧
  (s.endTop = true → s.step = .stateEndTop ∨ s.step = .stateError)

/-- What every scanner transition guarantees about `err`, `endTop` and the
closing of a bracket. -/
def StepSpec2 (s : Scanner) (r : Scanner × Op) : Prop :=
  (s.err = false → r.1.err = true → r.1.step = .stateError) ∧
  ((s.step = .stateEndTop → s.endTop = true) → r.1.step = .stateEndTop → r.1.endTop = true) ∧
  (s.endTop = false → r.1.endTop = true → r.1.step = .stateEndTop ∨ r.1.step = .stateError) ∧
  (r.2 = .scanEndObject ∨ r.2 = .scanEndArray →
    (r.1.parseState = [] → r.1.step = .stateEndTop ∧ r.1.endTop = true) ∧
    (r.1.parseState ≠ [] → r.1.step = .stateEndValue))

/-- A transition that does not end the top-level value. -/
def NoEnd (r : Scanner × Op) : Prop := r.2 ≠ .scanEnd

/-- A transition that ends the top-level value only on an empty stack. -/
def EndNil (s : Scanner) (r : Scanner × Op) : Prop := r.2 = .scanEnd → s.parseState = []

/-- A transition that enters `stateBeginValueOrEmpty` only with a bracket on
the stack. -/
def KeepOpen (s : Scanner) (r : Scanner × Op) : Prop :=
  (s.step = .stateBeginValueOrEmpty → s.parseState ≠ []) →
    r.1.step = .stateBeginValueOrEmpty → r.1.parseState ≠ []

/-- The scanner's invariant on a run from `reset`: the bookkeeping of `Good`,
and an open bracket on the stack in `stateBeginValueOrEmpty`. -/
def Reach (s : Scanner) : Prop :=
  Good s ∧ (s.step = .stateBeginValueOrEmpty → s.parseState ≠ [])

/-- The events of a token: its first byte begins a literal, the others
continue it. -/
def litEvents : Bytes → List (Nat × Op)
  | [] => []
  | c :: cs => (c, .scanBeginLiteral) :: cs.map fun c => (c, .scanContinue)

/-- The events of bytes inside a literal. -/
def contEvents (x : Bytes) : List (Nat × Op) := x.map fun c => (c, .scanContinue)

/-- The scanner reads `x` from `s` without an error, ends in `s1`, and what
it reports for the bytes it does not skip is `evs`: stated for every
computation the scanner drives and every input that goes on after `x`. -/
def Scans (s : Scanner) (x : Bytes) (s1 : Scanner) (evs : List (Nat × Op)) : Prop :=
  ∀ (σ : Type) (g : σ → Op → Nat → σ) (a : σ) (rest : Bytes),
    scanFold (fun a _ v c => g a v c) s a (x ++ rest) =
      scanFold (fun a _ v c => g a v c) s1 (evs.foldl (fun a e => g a e.2 e.1) a) rest

/-- The condition of `NumberLit.ok` on `int`. -/
def intOk (int : Bytes) : Bool :=
  match int with
  | [] => false
  | d :: ds => (d == 48 && ds.isEmpty) || (decide (49 ≤ d) && decide (d ≤ 57) && ds.all isDigit)

/-- The condition of `NumberLit.ok` on `frac`. -/
def fracOk (frac : Option Bytes) : Bool :=
  match frac with
  | none => true
  | some ds => !ds.isEmpty && ds.all isDigit

/-- The condition of `NumberLit.ok` on `exp`. -/
def expOk (exp : Option (Nat × Option Nat × Bytes)) : Bool :=
  match exp with
  | none => true
  | some (e, sign, ds) =>
    (e == 101 || e == 69) && (sign == none || sign == some 43 || sign == some 45) &&
      !ds.isEmpty && ds.all isDigit

/-- The bytes of `frac`. -/
def fracBytes (frac : Option Bytes) : Bytes :=
  match frac with
  | none => []
  | some ds => 46 :: ds

/-- The bytes of `exp`. -/
def expBytes (exp : Option (Nat × Option Nat × Bytes)) : Bytes :=
  match exp with
  | none => []
  | some (e, sign, ds) => e :: (match sign with | none => [] | some c => [c]) ++ ds

/-- The first byte of a value is read alike in `stateBeginValue` and in
`stateBeginValueOrEmpty`. -/
def Step.isValueStart : Step → Bool
  | .stateBeginValue | .stateBeginValueOrEmpty => true
  | _ => false

/-- The states in which a string may begin: those of a value and those of a
key. -/
def Step.isStringStart : Step → Bool
  | .stateBeginValue | .stateBeginValueOrEmpty | .stateBeginString
  | .stateBeginStringOrEmpty => true
  | _ => false

/-- What the scanner reports for the bytes of a tree: a token is one
literal, brackets, commas and colons are reported by their role, white space
is skipped. -/
def JsonTree.events : {k : Cat} → JsonTree k → List (Nat × Op)
  | _, .literal tok => litEvents tok.render
  | _, .emptyArray _ => [(91, .scanBeginArray), (93, .scanEndArray)]
  | _, .array _ es => (91, .scanBeginArray) :: es.events ++ [(93, .scanEndArray)]
  | _, .emptyObject _ => [(123, .scanBeginObject), (125, .scanEndObject)]
  | _, .object _ ms => (123, .scanBeginObject) :: ms.events ++ [(125, .scanEndObject)]
  | _, .single v _ => v.events
  | _, .more v _ _ rest => v.events ++ (44, .scanArrayValue) :: rest.events
  | _, .member key _ _ v _ => litEvents (renderString key) ++ (58, .scanObjectKey) :: v.events
  | _, .members key _ _ v _ _ rest =>
    litEvents (renderString key) ++ (58, .scanObjectKey) :: v.events ++
      (44, .scanObjectValue) :: rest.events

/-- The states after a value: `stateEndValue`, or a state in which a number
may end. -/
def Step.isPost (st : Step) : Prop := st = .stateEndValue ∨ st.isNumEnd = true

/-- The run of the scanner over a tree that is inside an array or an object:
a value leaves the stack as it is and the scanner after a value; elements are
read on a stack that starts with `parseArrayValue`; members take the stack
from `parseObjectKey` to `parseObjectValue`. -/
def ScanSpec : (k : Cat) → JsonTree k → Prop
  | .value, t =>
    ∀ (st0 : Step) (p : ParseState) (ps : List ParseState) (et err : Bool),
      st0.isValueStart = true → (p :: ps).length + t.depth ≤ maxNestingDepth →
      ∃ st, st.isPost ∧ Scans ⟨st0, p :: ps, et, err⟩ t.render ⟨st, p :: ps, et, err⟩ t.events
  | .elements, t =>
    ∀ (st0 : Step) (ps : List ParseState) (et err : Bool),
      st0.isValueStart = true → (ps.length + 1) + t.depth ≤ maxNestingDepth →
      ∃ st, st.isPost ∧
        Scans ⟨st0, .parseArrayValue :: ps, et, err⟩ t.render
          ⟨st, .parseArrayValue :: ps, et, err⟩ t.events
  | .members, t =>
    ∀ (st0 : Step) (ps : List ParseState) (et err : Bool),
      (st0 = .stateBeginString ∨ st0 = .stateBeginStringOrEmpty) →
      (ps.length + 1) + t.depth ≤ maxNestingDepth →
      ∃ st, st.isPost ∧
        Scans ⟨st0, .parseObjectKey :: ps, et, err⟩ t.render
          ⟨st, .parseObjectValue :: ps, et, err⟩ t.events

/-- The events of white space after the top-level value. -/
def endEvents (w : Bytes) : List (Nat × Op) := w.map fun c => (c, .scanEnd)

/-- The layout `formatJSON` gives a tree: no white space but a line feed and
one space after an opening bracket that is not closed at once, after a comma
and before the closing bracket, and one space after a colon.  `tr` is the
white space after the last element or member. -/
def JsonTree.pretty (tr : Bytes) : {k : Cat} → JsonTree k → JsonTree k
  | _, .literal tok => .literal tok
  | _, .emptyArray _ => .emptyArray []
  | _, .array _ es => .array [10, 32] (es.pretty [10, 32])
  | _, .emptyObject _ => .emptyObject []
  | _, .object _ ms => .object [10, 32] (ms.pretty [10, 32])
  | _, .single v _ => .single (v.pretty []) tr
  | _, .more v _ _ rest => .more (v.pretty []) [] [10, 32] (rest.pretty tr)
  | _, .member key _ _ v _ => .member key [] [32] (v.pretty []) tr
  | _, .members key _ _ v _ _ rest =>
    .members key [] [32] (v.pretty []) [] [10, 32] (rest.pretty tr)

/-- The layout `formatJSON` gives a JSON text: the white space before the
value is dropped, the value is laid out, the white space after it is kept. -/
def JsonText.pretty (t : JsonText) : JsonText := ⟨[], t.value.pretty [], t.trail⟩

/-- The bytes a string denotes, as the decoder unquotes its literal. -/
def stringValue (items : List StringItem) : Bytes :=
  (unquoteBytes (renderString items)).getD []

/-- The value a token denotes: a number keeps its literal. -/
def Token.value : Token → JValue
  | .litNull => .null
  | .litTrue => .bool true
  | .litFalse => .bool false
  | .number n => .number n.render
  | .string items => .string (stringValue items)

/-- The inside of a string literal: the bytes of well-formed characters. -/
def IsBody (x : Bytes) : Prop :=
  ∃ items : List StringItem, items.all StringItem.ok = true ∧
    x = (items.map StringItem.render).flatten

/-- A contract whose every call succeeds with the payload `{}`. -/
def emptyObjectContract : Contract :=
  { EvaluateTransaction := fun _ _ => .ok (str "\x7b\x7d"),
    SubmitTransaction := fun _ _ => .ok [] }

/-- A contract whose evaluations succeed with an empty payload. -/
def emptyPayloadContract : Contract :=
  { EvaluateTransaction := fun _ _ => .ok [],
    SubmitTransaction := fun _ _ => .ok [] }

/-- Whether a member of the body's object decodes without an error: its key
selects no exported field, or its value is a string or `null`. -/
def memberDecodes (m : Bytes × JValue) : Bool :=
  match lookupField m.1, m.2 with
  | none, _ => true
  | some _, .string _ => true
  | some _, .null => true
  | some _, _ => false

/-- The values that decode into a `Transaction` without an error: `null`, and
an object every member of which decodes. -/
def decodes : JValue → Bool
  | .null => true
  | .object members => members.all memberDecodes
  | _ => false

/-- The request the specification's Scenario B posts. -/
def scenarioB : Bytes :=
  str "\x7b\"carID\":\"asset1\",\"newOwnerID\":\"Alice\",\"acceptMalfunctionedStr\":\"n\"\x7d"

/-- A world in which every file can be read, the key directory holds one
file, and every library call succeeds. -/
def friendlyWorld (config : Bytes) (input : List Nat) : World :=
  { configFile := some (config, false), stdin := input,
    ReadFile := fun _ => some [], ReadDir := fun _ => some [str "priv_sk"],
    CertificateFromPEM := fun _ => true, Dial := fun _ _ => true,
    NewX509Identity := fun _ _ => true, PrivateKeyFromPEM := fun _ => true,
    NewPrivateKeySign := fun _ => true, Connect := true }

/-- A configuration whose `channelName` is a number: `json.Unmarshal` reports
an `UnmarshalTypeError` for it and still fills in the rest. -/
def mistypedConfig : Bytes :=
  str ("\x7b\"orgs\":\x7b\"org1\":\x7b\"mspID\":\"Org1MSP\",\"certPath\":\"cert.pem\"," ++
    "\"keyPath\":\"keystore\",\"tlsCertPath\":\"tls.pem\",\"peerEndpoint\":\"localhost:7051\"," ++
    "\"gatewayPeer\":\"peer0.org1\"\x7d\x7d,\"channelName\":5,\"chaincodeName\":\"cars\"\x7d")

/-- The paths of the files a start-up run reads. -/
def filesRead : List Action → List Bytes
  | [] => []
  | .readFile p :: rest => p :: filesRead rest
  | _ :: rest => filesRead rest

/-- The JSON text `{"a": [1, {"b":null} ],\n"c":"x"}\n`. -/
def exampleText : JsonText :=
  { lead := []
    value :=
      .object []
        (.members [.plain 97] [] [32]
          (.array []
            (.more (.literal (.number ⟨false, [49], none, none⟩)) [] [32]
              (.single (.object [] (.member [.plain 98] [] [] (.literal .litNull) [])) [32])))
          [] [10]
          (.member [.plain 99] [] [] (.literal (.string [.plain 120])) []))
    trail := [10] }

/-! ## Theorems -/

theorem spec_ite {p : Prop} [Decidable p] {s : Scanner} {c : Nat} {a b : Scanner × Op}
    (ha : p → StepSpec s c a) (hb : ¬p → StepSpec s c b) :
    StepSpec s c (if p then a else b) := by
  by_cases h : p
  · rw [if_pos h]; exact ha h
  · rw [if_neg h]; exact hb h

theorem spec_endValue (s : Scanner) (c : Nat) : StepSpec s c (stateEndValue s c) := by
  obtain ⟨step, ps, et, err⟩ := s
  rcases ps with _ | ⟨p, rest⟩
  · simp only [stateEndValue, stateEndTop, StepSpec, WF, Scanner.error]
    split <;> simp
  · cases p <;> simp only [stateEndValue] <;>
      repeat' (refine spec_ite (fun _ => ?_) (fun _ => ?_))
    all_goals simp only [StepSpec, WF, Scanner.error, Scanner.popParseState]
    all_goals (try split_ifs)
    all_goals simp_all

theorem spec_beginValue (s : Scanner) (c : Nat) : StepSpec s c (stateBeginValue s c) := by
  unfold stateBeginValue
  repeat' (refine spec_ite (fun _ => ?_) (fun _ => ?_)) 
  all_goals simp_all [StepSpec, WF, Scanner.error, Scanner.pushParseState]

theorem spec_beginValueOrEmpty (s : Scanner) (c : Nat) :
    StepSpec s c (stateBeginValueOrEmpty s c) := by
  unfold stateBeginValueOrEmpty
  refine spec_ite (fun _ => ?_) (fun _ => spec_ite (fun _ => ?_) (fun _ => ?_)) 
  · simp_all [StepSpec, WF]
  · exact spec_endValue s c
  · exact spec_beginValue s c

theorem spec_beginString (s : Scanner) (c : Nat) : StepSpec s c (stateBeginString s c) := by
  unfold stateBeginString
  repeat' (refine spec_ite (fun _ => ?_) (fun _ => ?_)) 
  all_goals simp_all [StepSpec, WF, Scanner.error]

theorem spec_beginStringOrEmpty (s : Scanner) (c : Nat) :
    StepSpec s c (stateBeginStringOrEmpty s c) := by
  unfold stateBeginStringOrEmpty
  refine spec_ite (fun _ => ?_) (fun _ => spec_ite (fun _ => ?_) (fun _ => ?_)) 
  · simp_all [StepSpec, WF]
  · have := spec_endValue { s with parseState := .parseObjectValue :: s.parseState.tail } c
    simpa [StepSpec, WF] using this
  · exact spec_beginString s c

theorem spec_expect (ok : Nat → Bool) (next : Step) (s : Scanner) (c : Nat)
    (hn : next ≠ .stateError) : StepSpec s c (expect ok next s c) := by
  unfold expect
  refine spec_ite (fun _ => ?_) (fun _ => ?_) <;> simp_all [StepSpec, WF, Scanner.error]

theorem spec_inString (s : Scanner) (c : Nat) : StepSpec s c (stateInString s c) := by
  unfold stateInString
  repeat' (refine spec_ite (fun _ => ?_) (fun _ => ?_)) 
  all_goals simp_all [StepSpec, WF, Scanner.error]

theorem spec_inStringEsc (s : Scanner) (c : Nat) : StepSpec s c (stateInStringEsc s c) := by
  unfold stateInStringEsc
  repeat' (refine spec_ite (fun _ => ?_) (fun _ => ?_)) 
  all_goals simp_all [StepSpec, WF, Scanner.error]

theorem spec_state0 (s : Scanner) (c : Nat) : StepSpec s c (state0 s c) := by
  unfold state0
  refine spec_ite (fun _ => ?_) (fun _ => spec_ite (fun _ => ?_) (fun _ => ?_)) 
  · simp_all [StepSpec, WF]
  · simp_all [StepSpec, WF]
  · exact spec_endValue s c

theorem spec_state1 (s : Scanner) (c : Nat) : StepSpec s c (state1 s c) := by
  unfold state1
  refine spec_ite (fun _ => ?_) (fun _ => ?_)
  · simp_all [StepSpec, WF]
  · exact spec_state0 s c

theorem spec_stateNeg (s : Scanner) (c : Nat) : StepSpec s c (stateNeg s c) := by
  unfold stateNeg
  repeat' (refine spec_ite (fun _ => ?_) (fun _ => ?_)) 
  all_goals simp_all [StepSpec, WF, Scanner.error]

theorem spec_stateDot0 (s : Scanner) (c : Nat) : StepSpec s c (stateDot0 s c) := by
  unfold stateDot0
  refine spec_ite (fun _ => ?_) (fun _ => spec_ite (fun _ => ?_) (fun _ => ?_)) 
  · simp_all [StepSpec, WF]
  · simp_all [StepSpec, WF]
  · exact spec_endValue s c

theorem spec_stateESign (s : Scanner) (c : Nat) : StepSpec s c (stateESign s c) := by
  unfold stateESign
  refine spec_ite (fun _ => ?_) (fun _ => ?_) <;> simp_all [StepSpec, WF, Scanner.error]

theorem spec_stateE (s : Scanner) (c : Nat) : StepSpec s c (stateE s c) := by
  unfold stateE
  refine spec_ite (fun _ => ?_) (fun _ => ?_)
  · simp_all [StepSpec, WF]
  · exact spec_stateESign s c

theorem spec_stateE0 (s : Scanner) (c : Nat) : StepSpec s c (stateE0 s c) := by
  unfold stateE0
  refine spec_ite (fun _ => ?_) (fun _ => ?_)
  · simp_all [StepSpec, WF]
  · exact spec_endValue s c

theorem spec_endTop (s : Scanner) (c : Nat) : StepSpec s c (stateEndTop s c) := by
  unfold stateEndTop
  refine spec_ite (fun _ => ?_) (fun _ => ?_) <;> simp_all [StepSpec, WF, Scanner.error]

theorem spec_doStep (s : Scanner) (c : Nat) (hwf : WF s) : StepSpec s c (s.doStep c) := by
  unfold Scanner.doStep
  split
  case h_31 h => simp_all [StepSpec, WF]
  all_goals first
    | exact spec_expect _ _ s c (by decide)
    | exact spec_beginValueOrEmpty s c
    | exact spec_beginValue s c
    | exact spec_beginStringOrEmpty s c
    | exact spec_beginString s c
    | exact spec_endValue s c
    | exact spec_endTop s c
    | exact spec_inString s c
    | exact spec_inStringEsc s c
    | exact spec_stateNeg s c
    | exact spec_state1 s c
    | exact spec_state0 s c
    | exact spec_stateDot0 s c
    | exact spec_stateE s c
    | exact spec_stateESign s c
    | exact spec_stateE0 s c

theorem skip_begin (s : Scanner) (b : Nat) (hb : b = 10 ∨ b = 32) (h : s.step.isBegin = true) :
    s.doStep b = (s, .scanSkipSpace) := by
  obtain ⟨step, ps, et, err⟩ := s
  rcases hb with rfl | rfl <;> cases step <;>
    simp_all [Step.isBegin, Scanner.doStep, stateBeginValueOrEmpty, stateBeginValue,
      stateBeginStringOrEmpty, stateBeginString, isSpace]

theorem skip_end (s : Scanner) (b : Nat) (hb : b = 10 ∨ b = 32)
    (h : s.step = .stateEndValue ∨ s.step.isNumEnd = true) (hps : s.parseState ≠ []) :
    s.doStep b = ({ s with step := .stateEndValue }, .scanSkipSpace) := by
  obtain ⟨step, ps, et, err⟩ := s
  rcases ps with _ | ⟨p, rest⟩
  · simp at hps
  rcases hb with rfl | rfl <;> cases step <;>
    simp_all [Step.isNumEnd, Scanner.doStep, stateEndValue, state0, state1, stateDot0, stateE0,
      isSpace, isDigit]

theorem skip_shape (s : Scanner) (b : Nat) (h : (s.doStep b).2 = .scanSkipSpace) (hb : isSpace b = true) :
    (s.doStep b).1 = s ∨
      (s.step.isNumEnd = true ∧ s.parseState ≠ [] ∧
        (s.doStep b).1 = { s with step := .stateEndValue }) := by
  obtain ⟨step, ps, et, err⟩ := s
  have hb4 : b = 32 ∨ b = 9 ∨ b = 13 ∨ b = 10 := by
    simp [isSpace] at hb; tauto
  revert h
  rcases ps with _ | ⟨p, rest⟩ <;> rcases hb4 with rfl | rfl | rfl | rfl <;> cases step <;>
    simp [Step.isNumEnd, Scanner.doStep, stateBeginValueOrEmpty, stateBeginValue,
      stateBeginStringOrEmpty, stateBeginString, stateEndValue, stateEndTop, stateInString,
      stateInStringEsc, expect, state0, state1, stateNeg, stateDot0, stateESign, stateE, stateE0,
      Scanner.error, isSpace, isDigit, isHex]

theorem punct_comma (s s1 : Scanner) (v : Op) (h : s.doStep 44 = (s1, v))
    (hv : v ≠ .scanContinue) (he : v ≠ .scanError) (herr : s1.err = false) :
    s1.step.isBegin = true ∧ s1.step.isOrEmpty = false := by
  obtain ⟨step, ps, et, err⟩ := s
  revert h
  rcases ps with _ | ⟨p, rest⟩ <;> cases step <;> (try cases p) <;>
    simp [Step.isBegin, Step.isOrEmpty, Scanner.doStep, stateBeginValueOrEmpty, stateBeginValue,
      stateBeginStringOrEmpty, stateBeginString, stateEndValue, stateEndTop, stateInString,
      stateInStringEsc, expect, state0, state1, stateNeg, stateDot0, stateESign, stateE, stateE0,
      Scanner.error, isSpace, isDigit, isHex] <;>
    intro h1 h2 <;> subst h1 <;> subst h2 <;> simp_all [Step.isBegin, Step.isOrEmpty]

theorem punct_colon (s : Scanner) 
    (hv : (s.doStep 58).2 ≠ .scanContinue) (he : (s.doStep 58).2 ≠ .scanError)
    (herr : (s.doStep 58).1.err = false) :
    (s.doStep 58).1.step.isBegin = true ∧ (s.doStep 58).1.step.isOrEmpty = false := by
  obtain ⟨step, ps, et, err⟩ := s
  revert hv he herr
  rcases ps with _ | ⟨p, rest⟩ <;> cases step <;> (try cases p) <;>
    simp [Step.isBegin, Step.isOrEmpty, Scanner.doStep, stateBeginValueOrEmpty, stateBeginValue,
      stateBeginStringOrEmpty, stateBeginString, stateEndValue, stateEndTop, stateInString,
      stateInStringEsc, expect, state0, state1, stateNeg, stateDot0, stateESign, stateE, stateE0,
      Scanner.error, isSpace, isDigit, isHex]

theorem punct_open (s : Scanner) (c : Nat) (hc : c = 123 ∨ c = 91)
    (hv : (s.doStep c).2 ≠ .scanContinue) (he : (s.doStep c).2 ≠ .scanError)
    (herr : (s.doStep c).1.err = false) :
    (s.doStep c).1.step.isOrEmpty = true := by
  obtain ⟨step, ps, et, err⟩ := s
  revert hv he herr
  rcases hc with rfl | rfl <;> rcases ps with _ | ⟨p, rest⟩ <;> cases step <;> (try cases p) <;>
    simp [Step.isBegin, Step.isOrEmpty, Scanner.doStep, stateBeginValueOrEmpty, stateBeginValue,
      stateBeginStringOrEmpty, stateBeginString, stateEndValue, stateEndTop, stateInString,
      stateInStringEsc, expect, state0, state1, stateNeg, stateDot0, stateESign, stateE, stateE0,
      Scanner.error, Scanner.pushParseState, isSpace, isDigit, isHex] <;>
    split_ifs <;> simp

theorem punct_close (s : Scanner) (c : Nat) (hc : c = 125 ∨ c = 93) 
    (hv : (s.doStep c).2 ≠ .scanContinue) (he : (s.doStep c).2 ≠ .scanError)
    (herr : (s.doStep c).1.err = false) :
    ((s.doStep c).2 = .scanEndObject ∨ (s.doStep c).2 = .scanEndArray) ∧
      (s.step.isOrEmpty = true ∨
        ((s.step = .stateEndValue ∨ s.step.isNumEnd = true) ∧ s.parseState ≠ [])) := by
  obtain ⟨step, ps, et, err⟩ := s
  revert hv he herr
  rcases hc with rfl | rfl <;> rcases ps with _ | ⟨p, rest⟩ <;> cases step <;> (try cases p) <;>
    simp [Step.isNumEnd, Step.isOrEmpty, Scanner.doStep, stateBeginValueOrEmpty, stateBeginValue,
      stateBeginStringOrEmpty, stateBeginString, stateEndValue, stateEndTop, stateInString,
      stateInStringEsc, expect, state0, state1, stateNeg, stateDot0, stateESign, stateE, stateE0,
      Scanner.error, Scanner.popParseState, isSpace, isDigit, isHex] 

theorem numEnd_punct (s : Scanner) (c : Nat) (hc : c = 44 ∨ c = 58 ∨ c = 125 ∨ c = 93)
    (h : s.step.isNumEnd = true) :
    s.doStep c = ({ s with step := .stateEndValue } : Scanner).doStep c := by
  obtain ⟨step, ps, et, err⟩ := s
  rcases hc with rfl | rfl | rfl | rfl <;> rcases ps with _ | ⟨p, rest⟩ <;> cases step <;>
    simp_all [Step.isNumEnd, Scanner.doStep, stateEndValue, stateEndTop, state0, state1,
      stateDot0, stateE0, Scanner.error, Scanner.popParseState, isSpace, isDigit]

theorem endValue_punct (s : Scanner) (c : Nat) (h : s.step = .stateEndValue)
    (hps : s.parseState ≠ []) (he : (s.doStep c).2 ≠ .scanError)
    (hk : (s.doStep c).2 ≠ .scanSkipSpace) : c = 44 ∨ c = 58 ∨ c = 125 ∨ c = 93 := by
  obtain ⟨step, ps, et, err⟩ := s
  subst h
  revert he hk
  rcases ps with _ | ⟨p, rest⟩
  · simp at hps
  cases p <;> simp only [Scanner.doStep, stateEndValue] <;> split_ifs <;>
    simp_all [Scanner.error]

theorem appendNewline_fmt (dst : Bytes) (d : Int) :
    appendNewline dst [32] [] d = dst ++ [10, 32] := by
  simp [appendNewline]

theorem indentEmit_eq (st : IndentState) (v : Op) (c : Nat) :
    indentEmit [32] [] st v c =
      ⟨niAfter st.needIndent v c, depthAfter st.needIndent st.depth v c,
        st.dst ++ chunk st.needIndent v c⟩ := by
  obtain ⟨ni, d, dst⟩ := st
  simp only [indentEmit, chunk, niAfter, depthAfter, appendNewline_fmt]
  split_ifs <;> simp

section fold
variable {σ : Type} (f : σ → Scanner → Op → Nat → σ)

theorem scanFold_cons_skip (s s1 : Scanner) (a : σ) (b : Nat) (l : Bytes)
    (h : s.doStep b = (s1, .scanSkipSpace)) : scanFold f s a (b :: l) = scanFold f s1 a l := by
  simp [scanFold, h]

theorem scanFold_cons_emit (s s1 : Scanner) (a : σ) (c : Nat) (l : Bytes) (v : Op)
    (h : s.doStep c = (s1, v)) (hk : v ≠ .scanSkipSpace) (he : v ≠ .scanError) :
    scanFold f s a (c :: l) = scanFold f s1 (f a s1 v c) l := by
  cases v <;> first
    | exact absurd rfl hk
    | exact absurd rfl he
    | simp only [scanFold, h]

theorem scanFold_cons_error (s s1 : Scanner) (a : σ) (c : Nat) (l : Bytes)
    (h : s.doStep c = (s1, .scanError)) : scanFold f s a (c :: l) = (s1, a) := by
  simp [scanFold, h]

/-- The scanner of a run does not depend on what is accumulated. -/
theorem scanFold_fst {τ : Type} (g : τ → Scanner → Op → Nat → τ) (x : Bytes) :
    ∀ (s : Scanner) (a : σ) (b : τ), (scanFold f s a x).1 = (scanFold g s b x).1 := by
  induction x with
  | nil => intro s a b; rfl
  | cons c cs ih =>
    intro s a b
    rcases hr : s.doStep c with ⟨s1, v⟩
    by_cases hk : v = .scanSkipSpace
    · subst hk
      rw [scanFold_cons_skip f s s1 a c cs hr, scanFold_cons_skip g s s1 b c cs hr]
      exact ih _ _ _
    · by_cases he : v = .scanError
      · subst he
        rw [scanFold_cons_error f s s1 a c cs hr, scanFold_cons_error g s s1 b c cs hr]
      · rw [scanFold_cons_emit f s s1 a c cs v hr hk he,
          scanFold_cons_emit g s s1 b c cs v hr hk he]
        exact ih _ _ _

/-- An error, once recorded, stays. -/
theorem scanFold_err (x : Bytes) :
    ∀ (s : Scanner) (a : σ), s.err = true → (scanFold f s a x).1.err = true := by
  induction x with
  | nil => intro s a h; exact h
  | cons c cs ih =>
    intro s a h
    have hspec := spec_doStep s c (fun _ => h)
    rcases hr : s.doStep c with ⟨s1, v⟩
    rw [hr] at hspec
    have h1 : s1.err = true := hspec.2.1 h
    by_cases hk : v = .scanSkipSpace
    · subst hk
      rw [scanFold_cons_skip f s s1 a c cs hr]
      exact ih _ _ h1
    · by_cases he : v = .scanError
      · subst he
        rw [scanFold_cons_error f s s1 a c cs hr]
        exact h1
      · rw [scanFold_cons_emit f s s1 a c cs v hr hk he]
        exact ih _ _ h1

/-- A run over `u ++ w` that meets no error in `u` is the run over `w` from
where the run over `u` ends. -/
theorem scanFold_append (u w : Bytes) :
    ∀ (s : Scanner) (a : σ), WF s → (scanFold f s a u).1.err = false →
      scanFold f s a (u ++ w) = scanFold f (scanFold f s a u).1 (scanFold f s a u).2 w := by
  induction u with
  | nil => intro s a _ _; rfl
  | cons c cs ih =>
    intro s a hwf h
    have hspec := spec_doStep s c hwf
    rcases hr : s.doStep c with ⟨s1, v⟩
    rw [hr] at hspec
    have hwf1 : WF s1 := hspec.2.2.1 hwf
    by_cases hk : v = .scanSkipSpace
    · subst hk
      rw [List.cons_append, scanFold_cons_skip f s s1 a c _ hr,
        scanFold_cons_skip f s s1 a c cs hr]
      rw [scanFold_cons_skip f s s1 a c cs hr] at h
      exact ih _ _ hwf1 h
    · by_cases he : v = .scanError
      · subst he
        rw [scanFold_cons_error f s s1 a c cs hr] at h
        have := hspec.1 rfl
        simp_all
      · rw [List.cons_append, scanFold_cons_emit f s s1 a c _ v hr hk he,
          scanFold_cons_emit f s s1 a c cs v hr hk he]
        rw [scanFold_cons_emit f s s1 a c cs v hr hk he] at h
        exact ih _ _ hwf1 h

end fold

/-- The loop of `formatJSON` is the scanner-driven run that updates the loop
variables with `indentEmit`. -/
theorem indentLoop_eq (x : Bytes) :
    ∀ (s : Scanner) (st : IndentState),
      indentLoop [32] [] s st x = scanFold fmtAcc s st x := by
  induction x with
  | nil => intro s st; rfl
  | cons c cs ih =>
    intro s st
    rcases hr : s.doStep c with ⟨s1, v⟩
    cases v <;> simp only [indentLoop, scanFold, hr, ih, fmtAcc]

theorem isBegin_of_isOrEmpty {x : Step} (h : x.isOrEmpty = true) : x.isBegin = true := by
  cases x <;> simp_all [Step.isOrEmpty, Step.isBegin]

section fold
variable {σ : Type} (f : σ → Scanner → Op → Nat → σ)

theorem lead_begin (s : Scanner) (a : σ) (l : Bytes) (h : s.step.isBegin = true) :
    scanFold f s a (10 :: 32 :: l) = scanFold f s a l := by
  rw [scanFold_cons_skip f s s a 10 _ (skip_begin s 10 (Or.inl rfl) h),
    scanFold_cons_skip f s s a 32 _ (skip_begin s 32 (Or.inr rfl) h)]

theorem post_space (s : Scanner) (a : σ) (h : s.step.isBegin = true) :
    scanFold f s a [32] = (s, a) := by
  rw [scanFold_cons_skip f s s a 32 _ (skip_begin s 32 (Or.inr rfl) h)]
  rfl

theorem post_newline (s : Scanner) (a : σ) (h : s.step.isBegin = true) :
    scanFold f s a [10, 32] = (s, a) := by
  rw [lead_begin f s a [] h]
  rfl

theorem lead_end (s : Scanner) (a : σ) (l : Bytes)
    (h : s.step = .stateEndValue ∨ s.step.isNumEnd = true) (hps : s.parseState ≠ []) :
    scanFold f s a (10 :: 32 :: l) = scanFold f { s with step := .stateEndValue } a l := by
  have h1 := skip_end s 10 (Or.inl rfl) h hps
  have h2 := skip_end { s with step := .stateEndValue } 32 (Or.inr rfl) (Or.inl rfl) hps
  rw [scanFold_cons_skip f s _ a 10 _ h1, scanFold_cons_skip f _ _ a 32 _ h2]

theorem rel_direct (s1 s2 : Scanner) (c : Nat) (hR : Rel s1 s2)
    (he : (s1.doStep c).2 ≠ .scanError) (hk : (s1.doStep c).2 ≠ .scanSkipSpace) :
    s2.doStep c = s1.doStep c := by
  rcases hR with rfl | ⟨hn, hps, rfl⟩
  · rfl
  · exact numEnd_punct s2 c
      (endValue_punct { s2 with step := .stateEndValue } c rfl hps he hk) hn

theorem lead_close (s1 s2 : Scanner) (c : Nat) (a : σ) (l : Bytes)
    (hR : Rel s1 s2) (hc : c = 125 ∨ c = 93)
    (h : s1.step.isOrEmpty = true ∨
      ((s1.step = .stateEndValue ∨ s1.step.isNumEnd = true) ∧ s1.parseState ≠ [])) :
    ∃ s2p, scanFold f s2 a (10 :: 32 :: l) = scanFold f s2p a l ∧
      s2p.doStep c = s1.doStep c := by
  rcases hR with rfl | ⟨hn, hps, rfl⟩
  · rcases h with h | ⟨h, hps⟩
    · exact ⟨s1, lead_begin f s1 a l (isBegin_of_isOrEmpty h), rfl⟩
    · refine ⟨{ s1 with step := .stateEndValue }, ?_, ?_⟩
      · exact lead_end f s1 a l h hps
      · rcases h with h | h
        · obtain ⟨step, ps, et, err⟩ := s1
          simp only at h
          subst h
          rfl
        · exact (numEnd_punct s1 c (by omega) h).symm
  · refine ⟨{ s2 with step := .stateEndValue }, ?_, rfl⟩
    exact lead_end f s2 a l (Or.inr hn) hps

end fold

theorem spec_doStep_ok (s : Scanner) (c : Nat) (he : (s.doStep c).2 ≠ .scanError) :
    StepSpec s c (s.doStep c) := by
  apply spec_doStep
  intro h
  exfalso
  apply he
  obtain ⟨step, ps, et, err⟩ := s
  simp only at h
  subst h
  rfl

theorem punct_comma_ok (s : Scanner)
    (hv : (s.doStep 44).2 ≠ .scanContinue) (he : (s.doStep 44).2 ≠ .scanError)
    (herr : (s.doStep 44).1.err = false) :
    (s.doStep 44).1.step.isBegin = true ∧ (s.doStep 44).1.step.isOrEmpty = false :=
  punct_comma s _ _ rfl hv he herr

theorem rel_orEmpty (s1 s2 : Scanner) (hR : Rel s1 s2) (h : s1.step.isOrEmpty = true) :
    s2 = s1 := by
  rcases hR with rfl | ⟨_, _, rfl⟩
  · rfl
  · simp [Step.isOrEmpty] at h

/-- The bytes `formatJSON` writes for one byte of its input are read back, by
any scanner-driven run, as that one byte: the white space around it is
skipped, the byte gets the same scanner result and leaves the same scanner. -/
theorem replay {σ : Type} (f : σ → Scanner → Op → Nat → σ) (s1 s2 : Scanner) (ni : Bool)
    (c : Nat) (a : σ)
    (hR : Rel s1 s2) (hInv : ni = true → s1.step.isOrEmpty = true)
    (hk : (s1.doStep c).2 ≠ .scanSkipSpace) (he : (s1.doStep c).2 ≠ .scanError)
    (herr : (s1.doStep c).1.err = false) :
    scanFold f s2 a (chunk ni (s1.doStep c).2 c) =
        ((s1.doStep c).1, f a (s1.doStep c).1 (s1.doStep c).2 c) ∧
      (niAfter ni (s1.doStep c).2 c = true → (s1.doStep c).1.step.isOrEmpty = true) := by
  have hspec := spec_doStep_ok s1 c he
  have hdir := rel_direct s1 s2 c hR he hk
  generalize hr : s1.doStep c = r at *
  obtain ⟨s', v⟩ := r
  simp only at hk he herr ⊢
  obtain ⟨-, -, -, -, hEO, hEA⟩ := hspec
  simp only at hEO hEA
  -- one emitting step of the second run at the byte `c`
  have emit : ∀ (s : Scanner) (l : Bytes), s.doStep c = (s', v) →
      scanFold f s a (c :: l) = scanFold f s' (f a s' v c) l := by
    intro s l hs
    rw [scanFold_cons_emit f s s' a c l v hs hk he]
  by_cases hv : v = .scanContinue
  · subst hv
    cases ni
    · have hch : chunk false .scanContinue c = [c] := by simp [chunk, indentEmit]
      have hni : niAfter false .scanContinue c = false := by simp [niAfter, indentEmit]
      simp only [hch, hni] at emit ⊢
      rw [emit s2 [] hdir]
      simp [scanFold]
    · have hch : chunk true .scanContinue c = [10, 32, c] := by
        simp [chunk, indentEmit, appendNewline_fmt]
      have hni : niAfter true .scanContinue c = false := by simp [niAfter, indentEmit]
      have h2 := rel_orEmpty s1 s2 hR (hInv rfl)
      subst h2
      simp only [hch, hni] at emit ⊢
      rw [lead_begin f _ _ _ (isBegin_of_isOrEmpty (hInv rfl)), emit s2 [] hdir]
      simp [scanFold]
  · by_cases hc : c = 125 ∨ c = 93
    · have hpc := punct_close s1 c hc (by rw [hr]; exact hv) (by rw [hr]; exact he)
        (by rw [hr]; exact herr)
      rw [hr] at hpc
      obtain ⟨hvE, hshape⟩ := hpc
      simp only at hvE
      cases ni
      · have hch : chunk false v c = [10, 32, c] := by
          rcases hvE with rfl | rfl <;> rcases hc with rfl | rfl <;>
            simp [chunk, indentEmit, appendNewline_fmt]
        have hni : niAfter false v c = false := by
          rcases hvE with rfl | rfl <;> rcases hc with rfl | rfl <;>
            simp [niAfter, indentEmit]
        obtain ⟨s2p, hlead, hstep⟩ := lead_close f s1 s2 c a [c] hR hc hshape
        simp only [hch, hni] at emit ⊢
        rw [hlead, emit s2p [] (by rw [hstep, hr])]
        simp [scanFold]
      · have hch : chunk true v c = [c] := by
          rcases hvE with rfl | rfl <;> rcases hc with rfl | rfl <;>
            simp [chunk, indentEmit, appendNewline_fmt]
        have hni : niAfter true v c = false := by
          rcases hvE with rfl | rfl <;> rcases hc with rfl | rfl <;>
            simp [niAfter, indentEmit]
        simp only [hch, hni] at emit ⊢
        rw [emit s2 [] hdir]
        simp [scanFold]
    · have hvO : v ≠ .scanEndObject := fun h => hc (Or.inl (hEO h))
      have hvA : v ≠ .scanEndArray := fun h => hc (Or.inr (hEA h))
      have hc1 : c ≠ 125 := fun h => hc (Or.inl h)
      have hc2 : c ≠ 93 := fun h => hc (Or.inr h)
      -- the white space in front of the byte
      have lead : ∀ l, scanFold f s2 a ((if ni then [10, 32] else []) ++ l) =
          scanFold f s2 a l := by
        intro l
        cases ni
        · rfl
        · have h2 := rel_orEmpty s1 s2 hR (hInv rfl)
          subst h2
          exact lead_begin f _ _ _ (isBegin_of_isOrEmpty (hInv rfl))
      by_cases hcomma : c = 44
      · subst hcomma
        have hp := punct_comma_ok s1 (by rw [hr]; exact hv) (by rw [hr]; exact he)
          (by rw [hr]; exact herr)
        rw [hr] at hp
        have hch : chunk ni v 44 = (if ni then [10, 32] else []) ++ 44 :: [10, 32] := by
          cases ni <;> simp [chunk, indentEmit, appendNewline_fmt, hv, hvO, hvA]
        have hni : niAfter ni v 44 = false := by
          cases ni <;> simp [niAfter, indentEmit, hv, hvO, hvA]
        simp only [hch, hni] at emit ⊢
        rw [lead, emit s2 _ hdir, post_newline f _ _ hp.1]
        simp
      · by_cases hcolon : c = 58
        · subst hcolon
          have hp := punct_colon s1 (by rw [hr]; exact hv) (by rw [hr]; exact he)
            (by rw [hr]; exact herr)
          rw [hr] at hp
          have hch : chunk ni v 58 = (if ni then [10, 32] else []) ++ 58 :: [32] := by
            cases ni <;> simp [chunk, indentEmit, appendNewline_fmt, hv, hvO, hvA]
          have hni : niAfter ni v 58 = false := by
            cases ni <;> simp [niAfter, indentEmit, hv, hvO, hvA]
          simp only [hch, hni] at emit ⊢
          rw [lead, emit s2 _ hdir, post_space f _ _ hp.1]
          simp
        · have hch : chunk ni v c = (if ni then [10, 32] else []) ++ c :: [] := by
            cases ni <;> simp [chunk, indentEmit, appendNewline_fmt, hv, hvO, hvA, hc1, hc2,
              hcomma, hcolon] <;> split_ifs <;> rfl
          by_cases hopen : c = 123 ∨ c = 91
          · have hp := punct_open s1 c hopen (by rw [hr]; exact hv) (by rw [hr]; exact he)
              (by rw [hr]; exact herr)
            rw [hr] at hp
            simp only [hch] at emit ⊢
            rw [lead, emit s2 _ hdir]
            simp [scanFold, hp]
          · have hni : niAfter ni v c = false := by
              have h3 : c ≠ 123 := fun h => hopen (Or.inl h)
              have h4 : c ≠ 91 := fun h => hopen (Or.inr h)
              cases ni <;> simp [niAfter, indentEmit, hv, hvO, hvA, hc1, hc2, hcomma, hcolon,
                h3, h4]
            simp only [hch, hni] at emit ⊢
            rw [lead, emit s2 _ hdir]
            simp [scanFold]

theorem rel_wf (s1 s2 : Scanner) (hR : Rel s1 s2) (h : WF s1) : WF s2 := by
  rcases hR with rfl | ⟨hn, _, rfl⟩
  · exact h
  · intro h2
    rw [h2] at hn
    simp [Step.isNumEnd] at hn

theorem rel_skip (s1 s2 : Scanner) (c : Nat) (hR : Rel s1 s2) (hwf : WF s1)
    (h : (s1.doStep c).2 = .scanSkipSpace) : Rel (s1.doStep c).1 s2 := by
  have hsp := (spec_doStep s1 c hwf).2.2.2.1 h
  rcases skip_shape s1 c h hsp with h1 | ⟨hn, hps, h1⟩
  · rw [h1]; exact hR
  · rcases hR with rfl | ⟨_, _, rfl⟩
    · rw [h1]; exact Or.inr ⟨hn, hps, rfl⟩
    · simp [Step.isNumEnd] at hn

theorem skip_orEmpty (s1 : Scanner) (c : Nat) (hwf : WF s1)
    (h : (s1.doStep c).2 = .scanSkipSpace) (ho : s1.step.isOrEmpty = true) :
    (s1.doStep c).1.step.isOrEmpty = true := by
  have hsp := (spec_doStep s1 c hwf).2.2.2.1 h
  rcases skip_shape s1 c h hsp with h1 | ⟨hn, hps, h1⟩
  · rw [h1]; exact ho
  · exfalso
    revert hn ho
    cases s1.step <;> simp [Step.isNumEnd, Step.isOrEmpty]

theorem fmtAcc_eq (ni : Bool) (d : Int) (dst : Bytes) (s1 : Scanner) (v : Op) (c : Nat) :
    fmtAcc ⟨ni, d, dst⟩ s1 v c = ⟨niAfter ni v c, depthAfter ni d v c, dst ++ chunk ni v c⟩ := by
  simp only [fmtAcc, indentEmit_eq]

/-- Whatever a scanner-driven run computes from the input of `formatJSON`, it
computes from the output. -/
theorem replay_all {σ : Type} (f : σ → Scanner → Op → Nat → σ) (x : Bytes) :
    ∀ (s1 s2 : Scanner) (ni : Bool) (d : Int) (d1 : Bytes) (a : σ),
      Rel s1 s2 → WF s1 → (ni = true → s1.step.isOrEmpty = true) →
      (scanFold fmtAcc s1 ⟨ni, d, d1⟩ x).1.err = false →
      ∃ w, (scanFold fmtAcc s1 ⟨ni, d, d1⟩ x).2.dst = d1 ++ w ∧
        (scanFold f s2 a w).2 = (scanFold f s1 a x).2 ∧
        Rel (scanFold f s1 a x).1 (scanFold f s2 a w).1 := by
  induction x with
  | nil =>
    intro s1 s2 ni d d1 a hR _ _ _
    exact ⟨[], by simp [scanFold], rfl, hR⟩
  | cons c cs ih =>
    intro s1 s2 ni d d1 a hR hwf hInv hfin
    have hspec := spec_doStep s1 c hwf
    have hwf1 : WF (s1.doStep c).1 := hspec.2.2.1 hwf
    rcases hr : s1.doStep c with ⟨s', v⟩
    rw [hr] at hspec hwf1
    simp only at hwf1
    by_cases hk : v = .scanSkipSpace
    · subst hk
      rw [scanFold_cons_skip _ s1 s' _ c cs hr] at hfin ⊢
      rw [scanFold_cons_skip f s1 s' a c cs hr]
      have hR1 : Rel s' s2 := by
        have := rel_skip s1 s2 c hR hwf (by rw [hr])
        rwa [hr] at this
      have hInv1 : ni = true → s'.step.isOrEmpty = true := by
        intro h
        have := skip_orEmpty s1 c hwf (by rw [hr]) (hInv h)
        rwa [hr] at this
      exact ih s' s2 ni d d1 a hR1 hwf1 hInv1 hfin
    · by_cases he : v = .scanError
      · subst he
        rw [scanFold_cons_error _ s1 s' _ c cs hr] at hfin
        have := hspec.1 rfl
        simp_all
      · rw [scanFold_cons_emit _ s1 s' _ c cs v hr hk he, fmtAcc_eq] at hfin ⊢
        rw [scanFold_cons_emit f s1 s' a c cs v hr hk he]
        have herr : s'.err = false := by
          by_contra hne
          have h1 : s'.err = true := by simpa using hne
          have := scanFold_err fmtAcc cs s' ⟨niAfter ni v c, depthAfter ni d v c, d1 ++ chunk ni v c⟩ h1
          rw [this] at hfin
          exact absurd hfin (by simp)
        have hrep := replay f s1 s2 ni c a hR hInv (by rw [hr]; exact hk) (by rw [hr]; exact he)
          (by rw [hr]; exact herr)
        rw [hr] at hrep
        obtain ⟨hrep1, hrep2⟩ := hrep
        simp only at hrep1 hrep2
        obtain ⟨w, hw1, hw2, hw3⟩ := ih s' s' (niAfter ni v c) (depthAfter ni d v c)
          (d1 ++ chunk ni v c) (f a s' v c) (Or.inl rfl) hwf1 hrep2 hfin
        refine ⟨chunk ni v c ++ w, ?_, ?_, ?_⟩
        · rw [hw1, List.append_assoc]
        · rw [scanFold_append f _ _ s2 a (rel_wf s1 s2 hR hwf) (by rw [hrep1]; exact herr),
            hrep1]
          exact hw2
        · rw [scanFold_append f _ _ s2 a (rel_wf s1 s2 hR hwf) (by rw [hrep1]; exact herr),
            hrep1]
          exact hw3

theorem wf_reset : WF Scanner.reset := by
  intro h
  simp [Scanner.reset] at h

theorem eof_err (s : Scanner) (h : s.eof = true) : s.err = false := by
  unfold Scanner.eof at h
  cases hs : s.err <;> simp_all

theorem rel_eof (s1 s2 : Scanner) (hR : Rel s1 s2) (h : s1.eof = true) : s2.eof = true := by
  rcases hR with rfl | ⟨hn, hps, rfl⟩
  · exact h
  · have h1 := skip_end { s2 with step := .stateEndValue } 32 (Or.inr rfl) (Or.inl rfl) hps
    unfold Scanner.eof at h ⊢
    rw [h1] at h
    simp only at h
    cases he : s2.err <;> cases ht : s2.endTop <;> simp_all

/-- `checkValid` accepts exactly when a scanner-driven run ends where the
input may end. -/
theorem checkValidFrom_eq {σ : Type} (f : σ → Scanner → Op → Nat → σ) (x : Bytes) :
    ∀ (s : Scanner) (a : σ), WF s → checkValidFrom s x = (scanFold f s a x).1.eof := by
  induction x with
  | nil => intro s a _; rfl
  | cons c cs ih =>
    intro s a hwf
    have hspec := spec_doStep s c hwf
    rcases hr : s.doStep c with ⟨s1, v⟩
    rw [hr] at hspec
    have hwf1 : WF s1 := hspec.2.2.1 hwf
    by_cases hk : v = .scanSkipSpace
    · subst hk
      rw [scanFold_cons_skip f s s1 a c cs hr]
      simp only [checkValidFrom, hr]
      exact ih _ _ hwf1
    · by_cases he : v = .scanError
      · subst he
        rw [scanFold_cons_error f s s1 a c cs hr]
        have h1 : s1.err = true := hspec.1 rfl
        simp [checkValidFrom, hr, Scanner.eof, h1]
      · rw [scanFold_cons_emit f s s1 a c cs v hr hk he]
        have : checkValidFrom s (c :: cs) = checkValidFrom s1 cs := by
          cases v <;> simp_all [checkValidFrom]
        rw [this]
        exact ih _ _ hwf1

theorem formatJSON_eq (data : Bytes) :
    formatJSON data =
      if (scanFold fmtAcc Scanner.reset ⟨false, 0, []⟩ data).1.eof then
        some (scanFold fmtAcc Scanner.reset ⟨false, 0, []⟩ data).2.dst
      else none := by
  simp only [formatJSON, Indent, indentLoop_eq]

/-- `formatJSON` returns exactly on the inputs `json.Valid` accepts. -/
theorem formatJSON_isSome (data : Bytes) : (formatJSON data).isSome = Valid data := by
  rw [formatJSON_eq, Valid, checkValidFrom_eq fmtAcc data Scanner.reset ⟨false, 0, []⟩ wf_reset]
  split <;> simp_all

theorem formatJSON_replay (data out : Bytes) (h : formatJSON data = some out) :
    Valid out = true ∧ formatJSON out = some out ∧
      ∀ (σ : Type) (f : σ → Scanner → Op → Nat → σ) (a : σ),
        (scanFold f Scanner.reset a out).2 = (scanFold f Scanner.reset a data).2 := by
  rw [formatJSON_eq] at h
  split at h
  case isFalse => simp at h
  case isTrue heof =>
    simp only [Option.some.injEq] at h
    have herr := eof_err _ heof
    have key : ∀ (σ : Type) (f : σ → Scanner → Op → Nat → σ) (a : σ),
        (scanFold f Scanner.reset a out).2 = (scanFold f Scanner.reset a data).2 ∧
        (scanFold f Scanner.reset a out).1.eof = true := by
      intro σ f a
      obtain ⟨w, hw1, hw2, hw3⟩ := replay_all f data Scanner.reset Scanner.reset false 0 [] a
        (Or.inl rfl) wf_reset (by simp) herr
      have hw : w = out := by rw [← h, hw1]; rfl
      subst hw
      refine ⟨hw2, rel_eof _ _ hw3 ?_⟩
      rw [scanFold_fst f fmtAcc data Scanner.reset a ⟨false, 0, []⟩]
      exact heof
    have hv : Valid out = true := by
      rw [Valid, checkValidFrom_eq fmtAcc out Scanner.reset ⟨false, 0, []⟩ wf_reset]
      exact (key _ fmtAcc ⟨false, 0, []⟩).2
    refine ⟨hv, ?_, fun σ f a => (key σ f a).1⟩
    rw [formatJSON_eq, (key _ fmtAcc ⟨false, 0, []⟩).2, (key _ fmtAcc ⟨false, 0, []⟩).1]
    simp [h]

theorem spec2_ite {p : Prop} [Decidable p] {s : Scanner} {a b : Scanner × Op}
    (ha : p → StepSpec2 s a) (hb : ¬p → StepSpec2 s b) :
    StepSpec2 s (if p then a else b) := by
  by_cases h : p
  · rw [if_pos h]; exact ha h
  · rw [if_neg h]; exact hb h

theorem spec2_endValue (s : Scanner) (c : Nat) : StepSpec2 s (stateEndValue s c) := by
  obtain ⟨step, ps, et, err⟩ := s
  rcases ps with _ | ⟨p, rest⟩
  · simp only [stateEndValue, stateEndTop, StepSpec2, Scanner.error]
    split <;> simp
  · cases p <;> simp only [stateEndValue] <;>
      repeat' (refine spec2_ite (fun _ => ?_) (fun _ => ?_))
    all_goals simp only [StepSpec2, Scanner.error, Scanner.popParseState]
    all_goals (try split_ifs)
    all_goals simp_all

theorem spec2_beginValue (s : Scanner) (c : Nat) : StepSpec2 s (stateBeginValue s c) := by
  unfold stateBeginValue
  repeat' (refine spec2_ite (fun _ => ?_) (fun _ => ?_))
  all_goals simp_all [StepSpec2, Scanner.error, Scanner.pushParseState]

theorem spec2_beginValueOrEmpty (s : Scanner) (c : Nat) :
    StepSpec2 s (stateBeginValueOrEmpty s c) := by
  unfold stateBeginValueOrEmpty
  refine spec2_ite (fun _ => ?_) (fun _ => spec2_ite (fun _ => ?_) (fun _ => ?_))
  · simp_all [StepSpec2]
  · exact spec2_endValue s c
  · exact spec2_beginValue s c

theorem spec2_beginString (s : Scanner) (c : Nat) : StepSpec2 s (stateBeginString s c) := by
  unfold stateBeginString
  repeat' (refine spec2_ite (fun _ => ?_) (fun _ => ?_))
  all_goals simp_all [StepSpec2, Scanner.error]

theorem spec2_beginStringOrEmpty (s : Scanner) (c : Nat) :
    StepSpec2 s (stateBeginStringOrEmpty s c) := by
  unfold stateBeginStringOrEmpty
  refine spec2_ite (fun _ => ?_) (fun _ => spec2_ite (fun _ => ?_) (fun _ => ?_))
  · simp_all [StepSpec2]
  · have := spec2_endValue { s with parseState := .parseObjectValue :: s.parseState.tail } c
    simpa [StepSpec2] using this
  · exact spec2_beginString s c

theorem spec2_expect (ok : Nat → Bool) (next : Step) (s : Scanner) (c : Nat)
    (hn : next ≠ .stateEndTop) : StepSpec2 s (expect ok next s c) := by
  unfold expect
  refine spec2_ite (fun _ => ?_) (fun _ => ?_) <;> simp_all [StepSpec2, Scanner.error]

theorem spec2_inString (s : Scanner) (c : Nat) : StepSpec2 s (stateInString s c) := by
  unfold stateInString
  repeat' (refine spec2_ite (fun _ => ?_) (fun _ => ?_))
  all_goals simp_all [StepSpec2, Scanner.error]

theorem spec2_inStringEsc (s : Scanner) (c : Nat) : StepSpec2 s (stateInStringEsc s c) := by
  unfold stateInStringEsc
  repeat' (refine spec2_ite (fun _ => ?_) (fun _ => ?_))
  all_goals simp_all [StepSpec2, Scanner.error]

theorem spec2_state0 (s : Scanner) (c : Nat) : StepSpec2 s (state0 s c) := by
  unfold state0
  refine spec2_ite (fun _ => ?_) (fun _ => spec2_ite (fun _ => ?_) (fun _ => ?_))
  · simp_all [StepSpec2]
  · simp_all [StepSpec2]
  · exact spec2_endValue s c

theorem spec2_state1 (s : Scanner) (c : Nat) : StepSpec2 s (state1 s c) := by
  unfold state1
  refine spec2_ite (fun _ => ?_) (fun _ => ?_)
  · simp_all [StepSpec2]
  · exact spec2_state0 s c

theorem spec2_stateNeg (s : Scanner) (c : Nat) : StepSpec2 s (stateNeg s c) := by
  unfold stateNeg
  repeat' (refine spec2_ite (fun _ => ?_) (fun _ => ?_))
  all_goals simp_all [StepSpec2, Scanner.error]

theorem spec2_stateDot0 (s : Scanner) (c : Nat) : StepSpec2 s (stateDot0 s c) := by
  unfold stateDot0
  refine spec2_ite (fun _ => ?_) (fun _ => spec2_ite (fun _ => ?_) (fun _ => ?_))
  · simp_all [StepSpec2]
  · simp_all [StepSpec2]
  · exact spec2_endValue s c

theorem spec2_stateESign (s : Scanner) (c : Nat) : StepSpec2 s (stateESign s c) := by
  unfold stateESign
  refine spec2_ite (fun _ => ?_) (fun _ => ?_) <;> simp_all [StepSpec2, Scanner.error]

theorem spec2_stateE (s : Scanner) (c : Nat) : StepSpec2 s (stateE s c) := by
  unfold stateE
  refine spec2_ite (fun _ => ?_) (fun _ => ?_)
  · simp_all [StepSpec2]
  · exact spec2_stateESign s c

theorem spec2_stateE0 (s : Scanner) (c : Nat) : StepSpec2 s (stateE0 s c) := by
  unfold stateE0
  refine spec2_ite (fun _ => ?_) (fun _ => ?_)
  · simp_all [StepSpec2]
  · exact spec2_endValue s c

theorem spec2_endTop (s : Scanner) (c : Nat) : StepSpec2 s (stateEndTop s c) := by
  unfold stateEndTop
  refine spec2_ite (fun _ => ?_) (fun _ => ?_) <;> simp_all [StepSpec2, Scanner.error]

theorem spec2_doStep (s : Scanner) (c : Nat) : StepSpec2 s (s.doStep c) := by
  unfold Scanner.doStep
  split
  case h_31 h => simp_all [StepSpec2]
  all_goals first
    | exact spec2_expect _ _ s c (by decide)
    | exact spec2_beginValueOrEmpty s c
    | exact spec2_beginValue s c
    | exact spec2_beginStringOrEmpty s c
    | exact spec2_beginString s c
    | exact spec2_endValue s c
    | exact spec2_endTop s c
    | exact spec2_inString s c
    | exact spec2_inStringEsc s c
    | exact spec2_stateNeg s c
    | exact spec2_state1 s c
    | exact spec2_state0 s c
    | exact spec2_stateDot0 s c
    | exact spec2_stateE s c
    | exact spec2_stateESign s c
    | exact spec2_stateE0 s c

theorem good_reset : Good Scanner.reset := by
  simp [Good, Scanner.reset]

theorem good_wf (s : Scanner) (h : Good s) : WF s := fun hs => h.1.mpr hs

/-- The scanner's bookkeeping invariant is kept by every transition. -/
theorem good_doStep (s : Scanner) (c : Nat) (h : Good s) : Good (s.doStep c).1 := by
  obtain ⟨hE, hK, hJ⟩ := h
  have h1 := spec_doStep s c (fun hs => hE.mpr hs)
  have h2 := spec2_doStep s c
  obtain ⟨-, hsticky, hwf, -⟩ := h1
  obtain ⟨hE2, hK2, hJ2, -⟩ := h2
  have hwf1 := hwf (fun hs => hE.mpr hs)
  by_cases herr : s.err = true
  · -- already in `stateError`: the step changes nothing
    have hst := hE.mp herr
    have : s.doStep c = (s, .scanError) := by
      obtain ⟨step, ps, et, err⟩ := s
      simp only at hst
      subst hst
      rfl
    rw [this]
    exact ⟨hE, hK, hJ⟩
  · have herr0 : s.err = false := by simpa using herr
    refine ⟨⟨hE2 herr0, hwf1⟩, hK2 hK, ?_⟩
    by_cases het : s.endTop = true
    · -- the value has ended: the state is `stateEndTop`
      rcases hJ het with hst | hst
      · intro _
        obtain ⟨step, ps, et, err⟩ := s
        simp only at hst
        subst hst
        simp only [Scanner.doStep, stateEndTop, Scanner.error]
        split <;> simp
      · exact absurd (hE.mpr hst) herr
    · exact hJ2 (by simpa using het)

theorem eof_of_scanEnd (s : Scanner) (h : Good s) (hv : (s.doStep 32).2 = .scanEnd) :
    s.eof = true := by
  obtain ⟨hE, hK, hJ⟩ := h
  obtain ⟨step, ps, et, err⟩ := s
  revert hv hE hK hJ
  rcases ps with _ | ⟨p, rest⟩ <;> cases step <;>
    simp [Scanner.eof, Scanner.doStep, stateBeginValueOrEmpty, stateBeginValue,
      stateBeginStringOrEmpty, stateBeginString, stateEndValue, stateEndTop, stateInString,
      stateInStringEsc, expect, state0, state1, stateNeg, stateDot0, stateESign, stateE, stateE0,
      Scanner.error, isSpace, isDigit, isHex] <;>
    (try cases p) <;> simp_all

theorem endValue_space (s : Scanner) :
    ((stateEndValue s 32).2 = .scanEnd ↔ s.parseState = []) ∧
    (s.parseState ≠ [] → (stateEndValue s 32).1 = { s with step := .stateEndValue }) := by
  obtain ⟨step, ps, et, err⟩ := s
  rcases ps with _ | ⟨p, rest⟩ <;> simp [stateEndValue, stateEndTop, isSpace]

/-- A body that is not one JSON value either makes `readValue` fail or holds
a complete first value that is followed by further bytes. -/
theorem readValueFrom_of_invalid (buf : Bytes) (x : Bytes) :
    ∀ (s : Scanner) (n : Nat), Good s → checkValidFrom s x = false →
      (∃ e, readValueFrom buf s n x = .error e) ∨
      (∃ m, readValueFrom buf s n x = .ok m ∧ m < n + x.length) := by
  induction x with
  | nil =>
    intro s n hg hv
    left
    have hne : (s.doStep 32).2 ≠ .scanEnd := by
      intro h
      have := eof_of_scanEnd s hg h
      simp [checkValidFrom] at hv
      simp_all
    simp only [readValueFrom, hne, if_false]
    split <;> exact ⟨_, rfl⟩
  | cons c cs ih =>
    intro s n hg hv
    have hg1 := good_doStep s c hg
    have h2 := (spec2_doStep s c).2.2.2
    rcases hr : s.doStep c with ⟨s1, v⟩
    rw [hr] at hg1 h2
    simp only at hg1 h2
    -- the closing of a bracket, shared by the two bracket cases
    have close : (v = .scanEndObject ∨ v = .scanEndArray) → checkValidFrom s1 cs = false →
        (∃ e, (if (stateEndValue s1 32).2 = .scanEnd then (.ok (n + 1) : Except JsonError Nat)
            else readValueFrom buf (stateEndValue s1 32).1 (n + 1) cs) = .error e) ∨
        (∃ m, (if (stateEndValue s1 32).2 = .scanEnd then (.ok (n + 1) : Except JsonError Nat)
            else readValueFrom buf (stateEndValue s1 32).1 (n + 1) cs) = .ok m ∧
          m < n + (c :: cs).length) := by
      intro hvv hcv
      obtain ⟨hnil, hcons⟩ := h2 hvv
      obtain ⟨hiff, hstay⟩ := endValue_space s1
      by_cases hps : s1.parseState = []
      · rw [if_pos (hiff.mpr hps)]
        right
        refine ⟨n + 1, rfl, ?_⟩
        cases cs with
        | nil =>
          exfalso
          obtain ⟨hst, het⟩ := hnil hps
          have herr : s1.err = false := by
            by_contra hne
            have := hg1.1.mp (by simpa using hne)
            rw [hst] at this
            exact absurd this (by decide)
          simp [checkValidFrom, Scanner.eof, herr, het] at hcv
        | cons d ds => simp
      · rw [if_neg (fun h => hps (hiff.mp h)), hstay hps]
        have hsame : ({ s1 with step := .stateEndValue } : Scanner) = s1 := by
          have := hcons hps
          obtain ⟨step, ps, et, err⟩ := s1
          simp only at this
          subst this
          rfl
        rw [hsame]
        rcases ih s1 (n + 1) hg1 hcv with ⟨e, he⟩ | ⟨m, hm, hlt⟩
        · exact Or.inl ⟨e, he⟩
        · exact Or.inr ⟨m, hm, by simp only [List.length_cons]; omega⟩
    have step : ∀ {r : Except JsonError Nat}, r = readValueFrom buf s1 (n + 1) cs →
        checkValidFrom s1 cs = false →
        (∃ e, r = .error e) ∨ (∃ m, r = .ok m ∧ m < n + (c :: cs).length) := by
      intro r hrr hcv
      subst hrr
      rcases ih s1 (n + 1) hg1 hcv with ⟨e, he⟩ | ⟨m, hm, hlt⟩
      · exact Or.inl ⟨e, he⟩
      · exact Or.inr ⟨m, hm, by simp only [List.length_cons]; omega⟩
    cases v
    case scanError => exact Or.inl ⟨.syntaxError, by simp [readValueFrom, hr]⟩
    case scanEnd =>
      exact Or.inr ⟨n, by simp [readValueFrom, hr], by simp⟩
    case scanEndObject =>
      have hcv : checkValidFrom s1 cs = false := by simpa [checkValidFrom, hr] using hv
      simpa [readValueFrom, hr] using close (Or.inl rfl) hcv
    case scanEndArray =>
      have hcv : checkValidFrom s1 cs = false := by simpa [checkValidFrom, hr] using hv
      simpa [readValueFrom, hr] using close (Or.inr rfl) hcv
    all_goals
      have hcv : checkValidFrom s1 cs = false := by simpa [checkValidFrom, hr] using hv
      exact step (by simp [readValueFrom, hr]) hcv

/-- A body that is not well-formed JSON either makes `readValue` fail or
starts with a complete JSON value and goes on after it. -/
theorem readValue_of_invalid (body : Bytes) (h : Valid body = false) :
    (∃ e, readValue body = .error e) ∨ (∃ n, readValue body = .ok n ∧ n < body.length) := by
  have := readValueFrom_of_invalid body body Scanner.reset 0 good_reset h
  simpa [readValue] using this

theorem noEnd_ite {p : Prop} [Decidable p] {a b : Scanner × Op}
    (ha : p → NoEnd a) (hb : ¬p → NoEnd b) : NoEnd (if p then a else b) := by
  by_cases h : p
  · rw [if_pos h]; exact ha h
  · rw [if_neg h]; exact hb h

theorem endNil_ite {p : Prop} [Decidable p] {s : Scanner} {a b : Scanner × Op}
    (ha : p → EndNil s a) (hb : ¬p → EndNil s b) : EndNil s (if p then a else b) := by
  by_cases h : p
  · rw [if_pos h]; exact ha h
  · rw [if_neg h]; exact hb h

theorem keepOpen_ite {p : Prop} [Decidable p] {s : Scanner} {a b : Scanner × Op}
    (ha : p → KeepOpen s a) (hb : ¬p → KeepOpen s b) : KeepOpen s (if p then a else b) := by
  by_cases h : p
  · rw [if_pos h]; exact ha h
  · rw [if_neg h]; exact hb h

/-! ### Where `scanEnd` comes from -/

theorem endNil_endValue (s : Scanner) (c : Nat) : EndNil s (stateEndValue s c) := by
  obtain ⟨step, ps, et, err⟩ := s
  rcases ps with _ | ⟨p, rest⟩
  · intro _; rfl
  · cases p <;> simp only [stateEndValue] <;>
      repeat' (refine endNil_ite (fun _ => ?_) (fun _ => ?_))
    all_goals simp [EndNil, Scanner.error]

theorem noEnd_beginValue (s : Scanner) (c : Nat) : NoEnd (stateBeginValue s c) := by
  unfold stateBeginValue Scanner.pushParseState
  repeat' (refine noEnd_ite (fun _ => ?_) (fun _ => ?_))
  all_goals simp [NoEnd, Scanner.error]

theorem noEnd_beginString (s : Scanner) (c : Nat) : NoEnd (stateBeginString s c) := by
  unfold stateBeginString
  repeat' (refine noEnd_ite (fun _ => ?_) (fun _ => ?_))
  all_goals simp [NoEnd, Scanner.error]

theorem noEnd_beginStringOrEmpty (s : Scanner) (c : Nat) :
    NoEnd (stateBeginStringOrEmpty s c) := by
  unfold stateBeginStringOrEmpty
  refine noEnd_ite (fun _ => ?_) (fun _ => noEnd_ite (fun _ => ?_) (fun _ => ?_))
  · simp [NoEnd]
  · intro h
    have := endNil_endValue { s with parseState := .parseObjectValue :: s.parseState.tail } c h
    simp at this
  · exact noEnd_beginString s c

theorem noEnd_expect (ok : Nat → Bool) (next : Step) (s : Scanner) (c : Nat) :
    NoEnd (expect ok next s c) := by
  unfold expect
  refine noEnd_ite (fun _ => ?_) (fun _ => ?_) <;> simp [NoEnd, Scanner.error]

theorem noEnd_inString (s : Scanner) (c : Nat) : NoEnd (stateInString s c) := by
  unfold stateInString
  repeat' (refine noEnd_ite (fun _ => ?_) (fun _ => ?_))
  all_goals simp [NoEnd, Scanner.error]

theorem noEnd_inStringEsc (s : Scanner) (c : Nat) : NoEnd (stateInStringEsc s c) := by
  unfold stateInStringEsc
  repeat' (refine noEnd_ite (fun _ => ?_) (fun _ => ?_))
  all_goals simp [NoEnd, Scanner.error]

theorem noEnd_stateNeg (s : Scanner) (c : Nat) : NoEnd (stateNeg s c) := by
  unfold stateNeg
  repeat' (refine noEnd_ite (fun _ => ?_) (fun _ => ?_))
  all_goals simp [NoEnd, Scanner.error]

theorem noEnd_stateESign (s : Scanner) (c : Nat) : NoEnd (stateESign s c) := by
  unfold stateESign
  refine noEnd_ite (fun _ => ?_) (fun _ => ?_) <;> simp [NoEnd, Scanner.error]

theorem noEnd_stateE (s : Scanner) (c : Nat) : NoEnd (stateE s c) := by
  unfold stateE
  refine noEnd_ite (fun _ => ?_) (fun _ => ?_)
  · simp [NoEnd]
  · exact noEnd_stateESign s c

theorem endNil_beginValueOrEmpty (s : Scanner) (c : Nat) :
    EndNil s (stateBeginValueOrEmpty s c) := by
  unfold stateBeginValueOrEmpty
  refine endNil_ite (fun _ => ?_) (fun _ => endNil_ite (fun _ => ?_) (fun _ => ?_))
  · simp [EndNil]
  · exact endNil_endValue s c
  · exact fun h => absurd h (noEnd_beginValue s c)

theorem endNil_state0 (s : Scanner) (c : Nat) : EndNil s (state0 s c) := by
  unfold state0
  refine endNil_ite (fun _ => ?_) (fun _ => endNil_ite (fun _ => ?_) (fun _ => ?_))
  · simp [EndNil]
  · simp [EndNil]
  · exact endNil_endValue s c

theorem endNil_state1 (s : Scanner) (c : Nat) : EndNil s (state1 s c) := by
  unfold state1
  refine endNil_ite (fun _ => ?_) (fun _ => ?_)
  · simp [EndNil]
  · exact endNil_state0 s c

theorem endNil_stateDot0 (s : Scanner) (c : Nat) : EndNil s (stateDot0 s c) := by
  unfold stateDot0
  refine endNil_ite (fun _ => ?_) (fun _ => endNil_ite (fun _ => ?_) (fun _ => ?_))
  · simp [EndNil]
  · simp [EndNil]
  · exact endNil_endValue s c

theorem endNil_stateE0 (s : Scanner) (c : Nat) : EndNil s (stateE0 s c) := by
  unfold stateE0
  refine endNil_ite (fun _ => ?_) (fun _ => ?_)
  · simp [EndNil]
  · exact endNil_endValue s c

/-- A byte ends the top-level value only in `stateEndTop`, or on an empty
stack after a value or in a number. -/
theorem scanEnd_shape (s : Scanner) (c : Nat) (h : (s.doStep c).2 = .scanEnd) :
    s.step = .stateEndTop ∨
      (s.parseState = [] ∧
        (s.step = .stateEndValue ∨ s.step.isNumEnd = true ∨ s.step = .stateBeginValueOrEmpty)) := by
  obtain ⟨step, ps, et, err⟩ := s
  cases step
  case stateEndTop => exact Or.inl rfl
  case stateEndValue => exact Or.inr ⟨endNil_endValue _ c h, Or.inl rfl⟩
  case state0 => exact Or.inr ⟨endNil_state0 _ c h, Or.inr (Or.inl rfl)⟩
  case state1 => exact Or.inr ⟨endNil_state1 _ c h, Or.inr (Or.inl rfl)⟩
  case stateDot0 => exact Or.inr ⟨endNil_stateDot0 _ c h, Or.inr (Or.inl rfl)⟩
  case stateE0 => exact Or.inr ⟨endNil_stateE0 _ c h, Or.inr (Or.inl rfl)⟩
  case stateBeginValueOrEmpty =>
    exact Or.inr ⟨endNil_beginValueOrEmpty _ c h, Or.inr (Or.inr rfl)⟩
  case stateError => simp [Scanner.doStep] at h
  all_goals
    exfalso
    revert h
    first
      | exact noEnd_expect _ _ _ c
      | exact noEnd_beginValue _ c
      | exact noEnd_beginStringOrEmpty _ c
      | exact noEnd_beginString _ c
      | exact noEnd_inString _ c
      | exact noEnd_inStringEsc _ c
      | exact noEnd_stateNeg _ c
      | exact noEnd_stateE _ c

/-- Where one byte ends the top-level value, a space does. -/
theorem scanEnd_space (s : Scanner) (c : Nat) (hr : Reach s) (h : (s.doStep c).2 = .scanEnd) :
    (s.doStep 32).2 = .scanEnd := by
  rcases scanEnd_shape s c h with hst | ⟨hps, hst⟩
  · obtain ⟨step, ps, et, err⟩ := s
    simp only at hst
    subst hst
    simp [Scanner.doStep, stateEndTop, isSpace]
  · obtain ⟨step, ps, et, err⟩ := s
    simp only at hps hst
    subst hps
    rcases hst with hst | hst | hst
    · subst hst
      simp [Scanner.doStep, stateEndValue, stateEndTop, isSpace]
    · cases step <;> simp [Step.isNumEnd] at hst <;>
        simp [Scanner.doStep, state0, state1, stateDot0, stateE0, stateEndValue, stateEndTop,
          isSpace, isDigit]
    · exact absurd rfl (hr.2 hst)

/-! ### The stack in `stateBeginValueOrEmpty` -/

theorem keepOpen_endValue (s : Scanner) (c : Nat) : KeepOpen s (stateEndValue s c) := by
  obtain ⟨step, ps, et, err⟩ := s
  rcases ps with _ | ⟨p, rest⟩
  · simp only [stateEndValue, stateEndTop, KeepOpen, Scanner.error]
    split <;> simp
  · cases p <;> simp only [stateEndValue] <;>
      repeat' (refine keepOpen_ite (fun _ => ?_) (fun _ => ?_))
    all_goals simp only [KeepOpen, Scanner.error, Scanner.popParseState]
    all_goals (try split_ifs)
    all_goals simp_all

theorem keepOpen_beginValue (s : Scanner) (c : Nat) : KeepOpen s (stateBeginValue s c) := by
  unfold stateBeginValue
  repeat' (refine keepOpen_ite (fun _ => ?_) (fun _ => ?_))
  all_goals simp only [KeepOpen, Scanner.error, Scanner.pushParseState]
  all_goals simp_all

theorem keepOpen_beginValueOrEmpty (s : Scanner) (c : Nat) :
    KeepOpen s (stateBeginValueOrEmpty s c) := by
  unfold stateBeginValueOrEmpty
  refine keepOpen_ite (fun _ => ?_) (fun _ => keepOpen_ite (fun _ => ?_) (fun _ => ?_))
  · simp_all [KeepOpen]
  · exact keepOpen_endValue s c
  · exact keepOpen_beginValue s c

theorem keepOpen_beginString (s : Scanner) (c : Nat) : KeepOpen s (stateBeginString s c) := by
  unfold stateBeginString
  repeat' (refine keepOpen_ite (fun _ => ?_) (fun _ => ?_))
  all_goals simp_all [KeepOpen, Scanner.error]

theorem keepOpen_beginStringOrEmpty (s : Scanner) (c : Nat) :
    KeepOpen s (stateBeginStringOrEmpty s c) := by
  unfold stateBeginStringOrEmpty
  refine keepOpen_ite (fun _ => ?_) (fun _ => keepOpen_ite (fun _ => ?_) (fun _ => ?_))
  · simp_all [KeepOpen]
  · have := keepOpen_endValue { s with parseState := .parseObjectValue :: s.parseState.tail } c
    intro _
    exact this (by simp)
  · exact keepOpen_beginString s c

theorem keepOpen_expect (ok : Nat → Bool) (next : Step) (s : Scanner) (c : Nat)
    (hn : next ≠ .stateBeginValueOrEmpty) : KeepOpen s (expect ok next s c) := by
  unfold expect
  refine keepOpen_ite (fun _ => ?_) (fun _ => ?_) <;> simp_all [KeepOpen, Scanner.error]

theorem keepOpen_inString (s : Scanner) (c : Nat) : KeepOpen s (stateInString s c) := by
  unfold stateInString
  repeat' (refine keepOpen_ite (fun _ => ?_) (fun _ => ?_))
  all_goals simp_all [KeepOpen, Scanner.error]

theorem keepOpen_inStringEsc (s : Scanner) (c : Nat) : KeepOpen s (stateInStringEsc s c) := by
  unfold stateInStringEsc
  repeat' (refine keepOpen_ite (fun _ => ?_) (fun _ => ?_))
  all_goals simp_all [KeepOpen, Scanner.error]

theorem keepOpen_state0 (s : Scanner) (c : Nat) : KeepOpen s (state0 s c) := by
  unfold state0
  refine keepOpen_ite (fun _ => ?_) (fun _ => keepOpen_ite (fun _ => ?_) (fun _ => ?_))
  · simp_all [KeepOpen]
  · simp_all [KeepOpen]
  · exact keepOpen_endValue s c

theorem keepOpen_state1 (s : Scanner) (c : Nat) : KeepOpen s (state1 s c) := by
  unfold state1
  refine keepOpen_ite (fun _ => ?_) (fun _ => ?_)
  · simp_all [KeepOpen]
  · exact keepOpen_state0 s c

theorem keepOpen_stateNeg (s : Scanner) (c : Nat) : KeepOpen s (stateNeg s c) := by
  unfold stateNeg
  repeat' (refine keepOpen_ite (fun _ => ?_) (fun _ => ?_))
  all_goals simp_all [KeepOpen, Scanner.error]

theorem keepOpen_stateDot0 (s : Scanner) (c : Nat) : KeepOpen s (stateDot0 s c) := by
  unfold stateDot0
  refine keepOpen_ite (fun _ => ?_) (fun _ => keepOpen_ite (fun _ => ?_) (fun _ => ?_))
  · simp_all [KeepOpen]
  · simp_all [KeepOpen]
  · exact keepOpen_endValue s c

theorem keepOpen_stateESign (s : Scanner) (c : Nat) : KeepOpen s (stateESign s c) := by
  unfold stateESign
  refine keepOpen_ite (fun _ => ?_) (fun _ => ?_) <;> simp_all [KeepOpen, Scanner.error]

theorem keepOpen_stateE (s : Scanner) (c : Nat) : KeepOpen s (stateE s c) := by
  unfold stateE
  refine keepOpen_ite (fun _ => ?_) (fun _ => ?_)
  · simp_all [KeepOpen]
  · exact keepOpen_stateESign s c

theorem keepOpen_stateE0 (s : Scanner) (c : Nat) : KeepOpen s (stateE0 s c) := by
  unfold stateE0
  refine keepOpen_ite (fun _ => ?_) (fun _ => ?_)
  · simp_all [KeepOpen]
  · exact keepOpen_endValue s c

theorem keepOpen_endTop (s : Scanner) (c : Nat) : KeepOpen s (stateEndTop s c) := by
  unfold stateEndTop
  refine keepOpen_ite (fun _ => ?_) (fun _ => ?_) <;> simp_all [KeepOpen, Scanner.error]

theorem keepOpen_doStep (s : Scanner) (c : Nat) : KeepOpen s (s.doStep c) := by
  unfold Scanner.doStep
  split
  case h_31 h => simp_all [KeepOpen]
  all_goals first
    | exact keepOpen_expect _ _ s c (by decide)
    | exact keepOpen_beginValueOrEmpty s c
    | exact keepOpen_beginValue s c
    | exact keepOpen_beginStringOrEmpty s c
    | exact keepOpen_beginString s c
    | exact keepOpen_endValue s c
    | exact keepOpen_endTop s c
    | exact keepOpen_inString s c
    | exact keepOpen_inStringEsc s c
    | exact keepOpen_stateNeg s c
    | exact keepOpen_state1 s c
    | exact keepOpen_state0 s c
    | exact keepOpen_stateDot0 s c
    | exact keepOpen_stateE s c
    | exact keepOpen_stateESign s c
    | exact keepOpen_stateE0 s c

theorem reach_reset : Reach Scanner.reset :=
  ⟨good_reset, by simp [Scanner.reset]⟩

theorem reach_doStep (s : Scanner) (c : Nat) (h : Reach s) : Reach (s.doStep c).1 :=
  ⟨good_doStep s c h.1, keepOpen_doStep s c h.2⟩

/-! ### `readValue` on the first value alone -/

/-- The value `readValue` finds is a prefix of the body on which `readValue`
finds the same value, and which `checkValid` accepts. -/
theorem readValueFrom_take (buf buf2 : Bytes) (x : Bytes) :
    ∀ (s : Scanner) (n m : Nat), Reach s → readValueFrom buf s n x = .ok m →
      n ≤ m ∧ m ≤ n + x.length ∧ readValueFrom buf2 s n (x.take (m - n)) = .ok m ∧
        checkValidFrom s (x.take (m - n)) = true := by
  induction x with
  | nil =>
    intro s n m hr h
    have hend : (s.doStep 32).2 = .scanEnd := by
      by_contra hne
      simp only [readValueFrom, hne, if_false] at h
      split at h <;> cases h
    simp only [readValueFrom, hend, if_true] at h
    cases h
    refine ⟨le_refl _, by simp, by simp [readValueFrom, hend], ?_⟩
    simpa [checkValidFrom] using eof_of_scanEnd s hr.1 hend
  | cons c cs ih =>
    intro s n m hr h
    have hg1 := reach_doStep s c hr
    have h2 := (spec2_doStep s c).2.2.2
    have hsp := scanEnd_space s c hr
    rcases hd : s.doStep c with ⟨s1, v⟩
    rw [hd] at hg1 h2 hsp
    simp only at hg1 h2 hsp
    -- the recursive case, shared by every result that goes on
    have go : v ≠ .scanError → readValueFrom buf s1 (n + 1) cs = .ok m →
        (∀ b, readValueFrom b s n (c :: cs.take (m - (n + 1))) =
          readValueFrom b s1 (n + 1) (cs.take (m - (n + 1)))) →
        n ≤ m ∧ m ≤ n + (c :: cs).length ∧
          readValueFrom buf2 s n ((c :: cs).take (m - n)) = .ok m ∧
          checkValidFrom s ((c :: cs).take (m - n)) = true := by
      intro hne hrec hsame
      obtain ⟨h1, h3, h4, h5⟩ := ih s1 (n + 1) m hg1 hrec
      have hmn : m - n = (m - (n + 1)) + 1 := by omega
      refine ⟨by omega, by simp only [List.length_cons]; omega, ?_, ?_⟩
      · rw [hmn, List.take_succ_cons, hsame]
        exact h4
      · rw [hmn, List.take_succ_cons]
        have : checkValidFrom s (c :: cs.take (m - (n + 1))) =
            checkValidFrom s1 (cs.take (m - (n + 1))) := by
          cases v <;> simp_all [checkValidFrom]
        rw [this]
        exact h5
    -- the closing of a bracket
    have close : (v = .scanEndObject ∨ v = .scanEndArray) →
        (if (stateEndValue s1 32).2 = .scanEnd then (.ok (n + 1) : Except JsonError Nat)
          else readValueFrom buf (stateEndValue s1 32).1 (n + 1) cs) = .ok m →
        (∀ (b : Bytes) (l : Bytes), readValueFrom b s n (c :: l) =
          if (stateEndValue s1 32).2 = .scanEnd then (.ok (n + 1) : Except JsonError Nat)
          else readValueFrom b (stateEndValue s1 32).1 (n + 1) l) →
        n ≤ m ∧ m ≤ n + (c :: cs).length ∧
          readValueFrom buf2 s n ((c :: cs).take (m - n)) = .ok m ∧
          checkValidFrom s ((c :: cs).take (m - n)) = true := by
      intro hvv hres hunf
      obtain ⟨hnil, hcons⟩ := h2 hvv
      obtain ⟨hiff, hstay⟩ := endValue_space s1
      by_cases hps : s1.parseState = []
      · rw [if_pos (hiff.mpr hps)] at hres
        cases hres
        have ht : (c :: cs).take (n + 1 - n) = [c] := by
          have : n + 1 - n = 1 := by omega
          rw [this]
          rfl
        refine ⟨by omega, by simp, ?_, ?_⟩
        · rw [ht, hunf, if_pos (hiff.mpr hps)]
        · rw [ht]
          obtain ⟨hst, het⟩ := hnil hps
          have herr : s1.err = false := by
            by_contra hne
            have := hg1.1.1.mp (by simpa using hne)
            rw [hst] at this
            exact absurd this (by decide)
          have hne : v ≠ .scanError := by rcases hvv with rfl | rfl <;> decide
          have : checkValidFrom s [c] = checkValidFrom s1 [] := by
            cases v <;> simp_all [checkValidFrom]
          rw [this]
          simp [checkValidFrom, Scanner.eof, herr, het]
      · have hno : ¬ (stateEndValue s1 32).2 = .scanEnd := fun h => hps (hiff.mp h)
        rw [if_neg hno, hstay hps] at hres
        have hsame : ({ s1 with step := .stateEndValue } : Scanner) = s1 := by
          have := hcons hps
          obtain ⟨step, ps, et, err⟩ := s1
          simp only at this
          subst this
          rfl
        rw [hsame] at hres
        have hne : v ≠ .scanError := by rcases hvv with rfl | rfl <;> decide
        refine go hne hres (fun b => ?_)
        rw [hunf, if_neg hno, hstay hps, hsame]
    cases v
    case scanError => simp [readValueFrom, hd] at h
    case scanEnd =>
      have hm : m = n := by
        simp [readValueFrom, hd] at h
        exact h.symm
      subst hm
      have hend := hsp rfl
      refine ⟨le_refl _, by simp, ?_, ?_⟩
      · simp [readValueFrom, hend]
      · simpa [checkValidFrom] using eof_of_scanEnd s hr.1 hend
    case scanEndObject =>
      refine close (Or.inl rfl) (by simpa [readValueFrom, hd] using h) (fun b l => ?_)
      simp [readValueFrom, hd]
    case scanEndArray =>
      refine close (Or.inr rfl) (by simpa [readValueFrom, hd] using h) (fun b l => ?_)
      simp [readValueFrom, hd]
    all_goals
      refine go (by decide) (by simpa [readValueFrom, hd] using h) (fun b => ?_)
      simp [readValueFrom, hd]

/-- The first value of a body, taken alone, is a body that `json.Valid`
accepts and of which `readValue` reads all. -/
theorem readValue_take (body : Bytes) (n : Nat) (h : readValue body = .ok n) :
    n ≤ body.length ∧ readValue (body.take n) = .ok n ∧ Valid (body.take n) = true := by
  obtain ⟨-, h2, h3, h4⟩ := readValueFrom_take body (body.take n) body Scanner.reset 0 n
    reach_reset h
  exact ⟨by simpa using h2, by simpa [readValue] using h3, by simpa [Valid] using h4⟩

/-- Decoding stops at the end of the first value: the body and its first value
alone decode alike. -/
theorem Decode_take (body : Bytes) (n : Nat) (h : readValue body = .ok n) :
    Decode (body.take n) = Decode body := by
  obtain ⟨-, h2, -⟩ := readValue_take body n h
  simp only [Decode, h, h2, List.take_take, min_self]

theorem scans_nil (s : Scanner) : Scans s [] s [] := fun _ _ _ _ => rfl

theorem scans_trans {s s1 s2 : Scanner} {x y : Bytes} {e1 e2 : List (Nat × Op)}
    (h1 : Scans s x s1 e1) (h2 : Scans s1 y s2 e2) : Scans s (x ++ y) s2 (e1 ++ e2) := by
  intro σ g a rest
  rw [List.append_assoc, h1, h2, List.foldl_append]

theorem scans_emit {s s1 : Scanner} {c : Nat} {v : Op} (h : s.doStep c = (s1, v))
    (hk : v ≠ .scanSkipSpace) (he : v ≠ .scanError) : Scans s [c] s1 [(c, v)] := by
  intro σ g a rest
  rw [List.singleton_append, scanFold_cons_emit _ s s1 a c rest v h hk he]
  rfl

theorem scans_skip {s s1 : Scanner} {c : Nat} (h : s.doStep c = (s1, .scanSkipSpace)) :
    Scans s [c] s1 [] := by
  intro σ g a rest
  rw [List.singleton_append, scanFold_cons_skip _ s s1 a c rest h]
  rfl

theorem scans_cons {s s1 s2 : Scanner} {c : Nat} {x : Bytes} {e1 e2 : List (Nat × Op)}
    (h1 : Scans s [c] s1 e1) (h2 : Scans s1 x s2 e2) : Scans s (c :: x) s2 (e1 ++ e2) :=
  scans_trans h1 h2

/-- A byte inside a literal. -/
theorem scans_cont {s s1 : Scanner} {c : Nat} (h : s.doStep c = (s1, .scanContinue)) :
    Scans s [c] s1 (contEvents [c]) :=
  scans_emit h (by decide) (by decide)

theorem contEvents_append (x y : Bytes) : contEvents (x ++ y) = contEvents x ++ contEvents y := by
  simp [contEvents]

theorem litEvents_append (x y : Bytes) (h : x ≠ []) :
    litEvents (x ++ y) = litEvents x ++ contEvents y := by
  cases x with
  | nil => exact absurd rfl h
  | cons c cs => simp [litEvents, contEvents]

theorem litEvents_cons (c : Nat) (x : Bytes) :
    litEvents (c :: x) = (c, .scanBeginLiteral) :: contEvents x := rfl

/-! ### White space -/

theorem isWs_cons (c : Nat) (w : Bytes) (h : isWs (c :: w) = true) :
    isSpace c = true ∧ isWs w = true := by
  simp only [isWs, List.all_cons, Bool.and_eq_true] at h
  refine ⟨?_, by simpa [isWs] using h.2⟩
  have h1 := h.1
  simp only [Bool.or_eq_true, beq_iff_eq] at h1
  rcases h1 with ((h1 | h1) | h1) | h1 <;> subst h1 <;> rfl

/-- White space where a value or a key may begin is skipped. -/
theorem run_ws_begin (w : Bytes) (hw : isWs w = true) (st : Step) (ps : List ParseState)
    (et err : Bool) (hst : st.isBegin = true) :
    Scans ⟨st, ps, et, err⟩ w ⟨st, ps, et, err⟩ [] := by
  induction w with
  | nil => exact scans_nil _
  | cons c cs ih =>
    obtain ⟨hc, hcs⟩ := isWs_cons c cs hw
    have h1 : (⟨st, ps, et, err⟩ : Scanner).doStep c = (⟨st, ps, et, err⟩, .scanSkipSpace) := by
      cases st <;> simp [Step.isBegin] at hst <;>
        simp [Scanner.doStep, stateBeginValueOrEmpty, stateBeginValue, stateBeginStringOrEmpty,
          stateBeginString, hc]
    exact scans_cons (scans_skip h1) (ih hcs)

/-- White space after a value inside an array or an object is skipped, and
the scanner is in `stateEndValue` after it. -/
theorem run_ws_end (w : Bytes) (hw : isWs w = true) (st : Step) (p : ParseState)
    (ps : List ParseState) (et err : Bool)
    (hst : st = .stateEndValue ∨ st.isNumEnd = true) :
    ∃ st1, (st1 = .stateEndValue ∨ st1.isNumEnd = true) ∧
      Scans ⟨st, p :: ps, et, err⟩ w ⟨st1, p :: ps, et, err⟩ [] := by
  induction w generalizing st with
  | nil => exact ⟨st, hst, scans_nil _⟩
  | cons c cs ih =>
    obtain ⟨hc, hcs⟩ := isWs_cons c cs hw
    have hd : isDigit c = false := by
      simp only [isSpace, Bool.or_eq_true, beq_iff_eq] at hc
      rcases hc with ((h | h) | h) | h <;> subst h <;> rfl
    have h46 : c ≠ 46 := by
      intro h; subst h; simp [isSpace] at hc
    have h101 : c ≠ 101 := by
      intro h; subst h; simp [isSpace] at hc
    have h69 : c ≠ 69 := by
      intro h; subst h; simp [isSpace] at hc
    have h1 : (⟨st, p :: ps, et, err⟩ : Scanner).doStep c =
        (⟨.stateEndValue, p :: ps, et, err⟩, .scanSkipSpace) := by
      rcases hst with h | h
      · subst h
        simp [Scanner.doStep, stateEndValue, hc]
      · cases st <;> simp [Step.isNumEnd] at h <;>
          simp [Scanner.doStep, state0, state1, stateDot0, stateE0, stateEndValue, hc, hd, h46,
            h101, h69]
    obtain ⟨st1, hst1, hrun⟩ := ih hcs .stateEndValue (Or.inl rfl)
    exact ⟨st1, hst1, scans_cons (scans_skip h1) hrun⟩

/-! ### Numbers -/

theorem isDigit_facts (d : Nat) (h : isDigit d = true) :
    48 ≤ d ∧ d ≤ 57 := by
  simpa [isDigit] using h

/-- Digits in `state1`. -/
theorem run_digits1 (ds : Bytes) (h : ds.all isDigit = true) (ps : List ParseState)
    (et err : Bool) :
    Scans ⟨.state1, ps, et, err⟩ ds ⟨.state1, ps, et, err⟩ (contEvents ds) := by
  induction ds with
  | nil => exact scans_nil _
  | cons d ds ih =>
    simp only [List.all_cons, Bool.and_eq_true] at h
    have h1 : (⟨.state1, ps, et, err⟩ : Scanner).doStep d =
        (⟨.state1, ps, et, err⟩, .scanContinue) := by
      simp [Scanner.doStep, state1, h.1]
    exact scans_cons (scans_cont h1) (ih h.2)

/-- Digits in `stateDot0`. -/
theorem run_digitsDot0 (ds : Bytes) (h : ds.all isDigit = true) (ps : List ParseState)
    (et err : Bool) :
    Scans ⟨.stateDot0, ps, et, err⟩ ds ⟨.stateDot0, ps, et, err⟩ (contEvents ds) := by
  induction ds with
  | nil => exact scans_nil _
  | cons d ds ih =>
    simp only [List.all_cons, Bool.and_eq_true] at h
    have h1 : (⟨.stateDot0, ps, et, err⟩ : Scanner).doStep d =
        (⟨.stateDot0, ps, et, err⟩, .scanContinue) := by
      simp [Scanner.doStep, stateDot0, h.1]
    exact scans_cons (scans_cont h1) (ih h.2)

/-- Digits in `stateE0`. -/
theorem run_digitsE0 (ds : Bytes) (h : ds.all isDigit = true) (ps : List ParseState)
    (et err : Bool) :
    Scans ⟨.stateE0, ps, et, err⟩ ds ⟨.stateE0, ps, et, err⟩ (contEvents ds) := by
  induction ds with
  | nil => exact scans_nil _
  | cons d ds ih =>
    simp only [List.all_cons, Bool.and_eq_true] at h
    have h1 : (⟨.stateE0, ps, et, err⟩ : Scanner).doStep d =
        (⟨.stateE0, ps, et, err⟩, .scanContinue) := by
      simp [Scanner.doStep, stateE0, h.1]
    exact scans_cons (scans_cont h1) (ih h.2)

theorem NumberLit.ok_eq (n : NumberLit) : n.ok = (intOk n.int && fracOk n.frac && expOk n.exp) :=
  rfl

theorem NumberLit.render_eq (n : NumberLit) :
    n.render = (if n.minus then [45] else []) ++ n.int ++ fracBytes n.frac ++ expBytes n.exp :=
  rfl

/-- The digits of `int` after a minus sign. -/
theorem run_int_neg (int : Bytes) (h : intOk int = true) (ps : List ParseState) (et err : Bool) :
    ∃ st, (st = .state0 ∨ st = .state1) ∧
      Scans ⟨.stateNeg, ps, et, err⟩ int ⟨st, ps, et, err⟩ (contEvents int) := by
  cases int with
  | nil => simp [intOk] at h
  | cons d ds =>
    simp only [intOk, Bool.or_eq_true, Bool.and_eq_true, beq_iff_eq, decide_eq_true_eq,
      List.isEmpty_iff] at h
    rcases h with ⟨rfl, rfl⟩ | ⟨⟨h49, h57⟩, hds⟩
    · refine ⟨.state0, Or.inl rfl, ?_⟩
      exact scans_cont (by simp [Scanner.doStep, stateNeg])
    · refine ⟨.state1, Or.inr rfl, ?_⟩
      have h48 : d ≠ 48 := by omega
      have h1 : (⟨.stateNeg, ps, et, err⟩ : Scanner).doStep d =
          (⟨.state1, ps, et, err⟩, .scanContinue) := by
        simp [Scanner.doStep, stateNeg, h48, h49, h57]
      exact scans_cons (scans_cont h1) (run_digits1 ds hds ps et err)

/-- The digits of `int` at the start of a value. -/
theorem run_int_begin (int : Bytes) (h : intOk int = true) (st0 : Step)
    (hst : st0.isValueStart = true) (ps : List ParseState) (et err : Bool) :
    ∃ st, (st = .state0 ∨ st = .state1) ∧
      Scans ⟨st0, ps, et, err⟩ int ⟨st, ps, et, err⟩ (litEvents int) := by
  cases int with
  | nil => simp [intOk] at h
  | cons d ds =>
    simp only [intOk, Bool.or_eq_true, Bool.and_eq_true, beq_iff_eq, decide_eq_true_eq,
      List.isEmpty_iff] at h
    rcases h with ⟨rfl, rfl⟩ | ⟨⟨h49, h57⟩, hds⟩
    · refine ⟨.state0, Or.inl rfl, ?_⟩
      refine scans_emit ?_ (by decide) (by decide)
      cases st0 <;> simp [Step.isValueStart] at hst <;>
        simp [Scanner.doStep, stateBeginValueOrEmpty, stateBeginValue, isSpace]
    · refine ⟨.state1, Or.inr rfl, ?_⟩
      have hsp : isSpace d = false := by
        simp only [isSpace, Bool.or_eq_false_iff, beq_eq_false_iff_ne]
        omega
      have h1 : (⟨st0, ps, et, err⟩ : Scanner).doStep d =
          (⟨.state1, ps, et, err⟩, .scanBeginLiteral) := by
        have e1 : d ≠ 123 := by omega
        have e2 : d ≠ 91 := by omega
        have e3 : d ≠ 34 := by omega
        have e4 : d ≠ 45 := by omega
        have e5 : d ≠ 48 := by omega
        have e6 : d ≠ 116 := by omega
        have e7 : d ≠ 102 := by omega
        have e8 : d ≠ 110 := by omega
        have e9 : d ≠ 93 := by omega
        cases st0 <;> simp [Step.isValueStart] at hst <;>
          simp [Scanner.doStep, stateBeginValueOrEmpty, stateBeginValue, hsp, e1, e2, e3, e4, e5,
            e6, e7, e8, e9, h49, h57]
      rw [litEvents_cons]
      exact scans_cons (scans_emit h1 (by decide) (by decide)) (run_digits1 ds hds ps et err)

/-- The fraction of a number. -/
theorem run_frac (frac : Option Bytes) (h : fracOk frac = true) (st : Step)
    (hst : st = .state0 ∨ st = .state1) (ps : List ParseState) (et err : Bool) :
    ∃ st1, (st1 = .state0 ∨ st1 = .state1 ∨ st1 = .stateDot0) ∧
      Scans ⟨st, ps, et, err⟩ (fracBytes frac) ⟨st1, ps, et, err⟩ (contEvents (fracBytes frac)) := by
  cases frac with
  | none =>
    exact ⟨st, by tauto, scans_nil _⟩
  | some ds =>
    cases ds with
    | nil => simp [fracOk] at h
    | cons d ds =>
      simp only [fracOk, List.isEmpty_cons, Bool.not_false, List.all_cons, Bool.true_and,
        Bool.and_eq_true] at h
      refine ⟨.stateDot0, by tauto, ?_⟩
      have h1 : (⟨st, ps, et, err⟩ : Scanner).doStep 46 =
          (⟨.stateDot, ps, et, err⟩, .scanContinue) := by
        rcases hst with rfl | rfl <;> simp [Scanner.doStep, state0, state1, isDigit]
      have h2 : (⟨.stateDot, ps, et, err⟩ : Scanner).doStep d =
          (⟨.stateDot0, ps, et, err⟩, .scanContinue) := by
        simp [Scanner.doStep, expect, h.1]
      exact scans_cons (scans_cont h1) (scans_cons (scans_cont h2) (run_digitsDot0 ds h.2 ps et err))

/-- The exponent of a number. -/
theorem run_exp (exp : Option (Nat × Option Nat × Bytes)) (h : expOk exp = true) (st : Step)
    (hst : st = .state0 ∨ st = .state1 ∨ st = .stateDot0) (ps : List ParseState) (et err : Bool) :
    ∃ st1, st1.isNumEnd = true ∧
      Scans ⟨st, ps, et, err⟩ (expBytes exp) ⟨st1, ps, et, err⟩ (contEvents (expBytes exp)) := by
  cases exp with
  | none =>
    refine ⟨st, ?_, scans_nil _⟩
    rcases hst with rfl | rfl | rfl <;> rfl
  | some x =>
    obtain ⟨e, sign, ds⟩ := x
    cases ds with
    | nil => simp [expOk] at h
    | cons d ds =>
      simp only [expOk, List.isEmpty_cons, Bool.not_false, List.all_cons, Bool.and_eq_true,
        Bool.or_eq_true, beq_iff_eq, Bool.and_true] at h
      obtain ⟨⟨he, hsign⟩, hd, hds⟩ := h
      refine ⟨.stateE0, rfl, ?_⟩
      have hed : isDigit e = false := by
        rcases he with rfl | rfl <;> rfl
      have h1 : (⟨st, ps, et, err⟩ : Scanner).doStep e =
          (⟨.stateE, ps, et, err⟩, .scanContinue) := by
        have he46 : e ≠ 46 := by rcases he with rfl | rfl <;> decide
        rcases hst with rfl | rfl | rfl <;>
          simp [Scanner.doStep, state0, state1, stateDot0, hed, he46, he]
      have hdd : d ≠ 43 ∧ d ≠ 45 := by
        have := isDigit_facts d hd
        omega
      have hrest : Scans ⟨.stateESign, ps, et, err⟩ (d :: ds) ⟨.stateE0, ps, et, err⟩
          (contEvents (d :: ds)) := by
        have h3 : (⟨.stateESign, ps, et, err⟩ : Scanner).doStep d =
            (⟨.stateE0, ps, et, err⟩, .scanContinue) := by
          simp [Scanner.doStep, stateESign, hd]
        exact scans_cons (scans_cont h3) (run_digitsE0 ds hds ps et err)
      rcases hsign with (hs | hs) | hs
      · subst hs
        have h3 : (⟨.stateE, ps, et, err⟩ : Scanner).doStep d =
            (⟨.stateE0, ps, et, err⟩, .scanContinue) := by
          simp [Scanner.doStep, stateE, stateESign, hd, hdd.1, hdd.2]
        exact scans_cons (scans_cont h1) (scans_cons (scans_cont h3) (run_digitsE0 ds hds ps et err))
      · subst hs
        have h2 : (⟨.stateE, ps, et, err⟩ : Scanner).doStep 43 =
            (⟨.stateESign, ps, et, err⟩, .scanContinue) := by
          simp [Scanner.doStep, stateE]
        exact scans_cons (scans_cont h1) (scans_cons (scans_cont h2) hrest)
      · subst hs
        have h2 : (⟨.stateE, ps, et, err⟩ : Scanner).doStep 45 =
            (⟨.stateESign, ps, et, err⟩, .scanContinue) := by
          simp [Scanner.doStep, stateE]
        exact scans_cons (scans_cont h1) (scans_cons (scans_cont h2) hrest)

theorem intOk_ne_nil (int : Bytes) (h : intOk int = true) : int ≠ [] := by
  cases int with
  | nil => simp [intOk] at h
  | cons d ds => simp

/-- A number where a value begins: the scanner ends in a state in which a
number may end. -/
theorem run_number (n : NumberLit) (h : n.ok = true) (st0 : Step)
    (hst : st0.isValueStart = true) (ps : List ParseState) (et err : Bool) :
    ∃ st, st.isNumEnd = true ∧
      Scans ⟨st0, ps, et, err⟩ n.render ⟨st, ps, et, err⟩ (litEvents n.render) := by
  rw [NumberLit.ok_eq, Bool.and_eq_true, Bool.and_eq_true] at h
  obtain ⟨⟨hi, hf⟩, he⟩ := h
  rw [NumberLit.render_eq]
  have hne := intOk_ne_nil n.int hi
  cases hm : n.minus
  · obtain ⟨st1, hst1, r1⟩ := run_int_begin n.int hi st0 hst ps et err
    obtain ⟨st2, hst2, r2⟩ := run_frac n.frac hf st1 hst1 ps et err
    obtain ⟨st3, hst3, r3⟩ := run_exp n.exp he st2 hst2 ps et err
    refine ⟨st3, hst3, ?_⟩
    have := scans_trans (scans_trans r1 r2) r3
    simp only [Bool.false_eq_true, if_false, List.nil_append]
    rw [litEvents_append _ _ (by simp [hne]), litEvents_append _ _ hne]
    exact this
  · obtain ⟨st1, hst1, r1⟩ := run_int_neg n.int hi ps et err
    obtain ⟨st2, hst2, r2⟩ := run_frac n.frac hf st1 hst1 ps et err
    obtain ⟨st3, hst3, r3⟩ := run_exp n.exp he st2 hst2 ps et err
    refine ⟨st3, hst3, ?_⟩
    have h0 : (⟨st0, ps, et, err⟩ : Scanner).doStep 45 =
        (⟨.stateNeg, ps, et, err⟩, .scanBeginLiteral) := by
      cases st0 <;> simp [Step.isValueStart] at hst <;>
        simp [Scanner.doStep, stateBeginValueOrEmpty, stateBeginValue, isSpace]
    have := scans_cons (scans_emit h0 (by decide) (by decide)) (scans_trans (scans_trans r1 r2) r3)
    simp only [if_true, List.singleton_append, List.cons_append, litEvents_cons,
      contEvents_append]
    simpa using this

/-! ### Strings -/

/-- The characters of a string, inside the string. -/
theorem run_items (items : List StringItem) (h : items.all StringItem.ok = true)
    (ps : List ParseState) (et err : Bool) :
    Scans ⟨.stateInString, ps, et, err⟩ (items.map StringItem.render).flatten
      ⟨.stateInString, ps, et, err⟩ (contEvents (items.map StringItem.render).flatten) := by
  induction items with
  | nil => exact scans_nil _
  | cons i is ih =>
    simp only [List.all_cons, Bool.and_eq_true] at h
    have hrest := ih h.2
    simp only [List.map_cons, List.flatten_cons, contEvents_append]
    refine scans_trans ?_ hrest
    cases i with
    | plain c =>
      have hc := h.1
      simp only [StringItem.ok, Bool.and_eq_true, decide_eq_true_eq, bne_iff_ne, ne_eq] at hc
      obtain ⟨⟨h32, h34⟩, h92⟩ := hc
      have h1 : (⟨.stateInString, ps, et, err⟩ : Scanner).doStep c =
          (⟨.stateInString, ps, et, err⟩, .scanContinue) := by
        have : ¬ c < 32 := by omega
        simp [Scanner.doStep, stateInString, h34, h92, this]
      exact scans_cont h1
    | escape e =>
      have he := h.1
      simp only [StringItem.ok, Bool.or_eq_true, beq_iff_eq] at he
      have h1 : (⟨.stateInString, ps, et, err⟩ : Scanner).doStep 92 =
          (⟨.stateInStringEsc, ps, et, err⟩, .scanContinue) := by
        simp [Scanner.doStep, stateInString]
      have h2 : (⟨.stateInStringEsc, ps, et, err⟩ : Scanner).doStep e =
          (⟨.stateInString, ps, et, err⟩, .scanContinue) := by
        have : e = 98 ∨ e = 102 ∨ e = 110 ∨ e = 114 ∨ e = 116 ∨ e = 92 ∨ e = 47 ∨ e = 34 := by
          tauto
        simp [Scanner.doStep, stateInStringEsc, this]
      exact scans_cons (scans_cont h1) (scans_cont h2)
    | unicode a b c d =>
      have hu := h.1
      simp only [StringItem.ok, Bool.and_eq_true] at hu
      obtain ⟨⟨⟨ha, hb⟩, hc⟩, hd⟩ := hu
      have h1 : (⟨.stateInString, ps, et, err⟩ : Scanner).doStep 92 =
          (⟨.stateInStringEsc, ps, et, err⟩, .scanContinue) := by
        simp [Scanner.doStep, stateInString]
      have h2 : (⟨.stateInStringEsc, ps, et, err⟩ : Scanner).doStep 117 =
          (⟨.stateInStringEscU, ps, et, err⟩, .scanContinue) := by
        simp [Scanner.doStep, stateInStringEsc]
      have h3 : (⟨.stateInStringEscU, ps, et, err⟩ : Scanner).doStep a =
          (⟨.stateInStringEscU1, ps, et, err⟩, .scanContinue) := by
        simp [Scanner.doStep, expect, ha]
      have h4 : (⟨.stateInStringEscU1, ps, et, err⟩ : Scanner).doStep b =
          (⟨.stateInStringEscU12, ps, et, err⟩, .scanContinue) := by
        simp [Scanner.doStep, expect, hb]
      have h5 : (⟨.stateInStringEscU12, ps, et, err⟩ : Scanner).doStep c =
          (⟨.stateInStringEscU123, ps, et, err⟩, .scanContinue) := by
        simp [Scanner.doStep, expect, hc]
      have h6 : (⟨.stateInStringEscU123, ps, et, err⟩ : Scanner).doStep d =
          (⟨.stateInString, ps, et, err⟩, .scanContinue) := by
        simp [Scanner.doStep, expect, hd]
      exact scans_cons (scans_cont h1) (scans_cons (scans_cont h2) (scans_cons (scans_cont h3)
        (scans_cons (scans_cont h4) (scans_cons (scans_cont h5) (scans_cont h6)))))

/-- A string where a value or a key begins: the scanner ends in
`stateEndValue`. -/
theorem run_string (items : List StringItem) (h : items.all StringItem.ok = true) (st0 : Step)
    (hst : st0.isStringStart = true) (ps : List ParseState) (et err : Bool) :
    Scans ⟨st0, ps, et, err⟩ (renderString items) ⟨.stateEndValue, ps, et, err⟩
      (litEvents (renderString items)) := by
  have h0 : (⟨st0, ps, et, err⟩ : Scanner).doStep 34 =
      (⟨.stateInString, ps, et, err⟩, .scanBeginLiteral) := by
    cases st0 <;> simp [Step.isStringStart] at hst <;>
      simp [Scanner.doStep, stateBeginValueOrEmpty, stateBeginValue, stateBeginStringOrEmpty,
        stateBeginString, isSpace]
  have h9 : (⟨.stateInString, ps, et, err⟩ : Scanner).doStep 34 =
      (⟨.stateEndValue, ps, et, err⟩, .scanContinue) := by
    simp [Scanner.doStep, stateInString]
  have := scans_cons (scans_emit h0 (by decide) (by decide))
    (scans_trans (run_items items h ps et err) (scans_cont h9))
  simpa [renderString, litEvents_cons, contEvents_append] using this

/-! ### Tokens -/

/-- A token where a value begins: the scanner reads it as one literal and
ends in `stateEndValue` or, after a number, in a state in which the number
may end. -/
theorem run_token (tok : Token) (h : tok.ok = true) (st0 : Step)
    (hst : st0.isValueStart = true) (ps : List ParseState) (et err : Bool) :
    ∃ st, (st = .stateEndValue ∨ st.isNumEnd = true) ∧
      Scans ⟨st0, ps, et, err⟩ tok.render ⟨st, ps, et, err⟩ (litEvents tok.render) := by
  have hss : st0.isStringStart = true := by
    cases st0 <;> simp [Step.isValueStart] at hst <;> rfl
  cases tok with
  | number n =>
    obtain ⟨st, hst1, r⟩ := run_number n h st0 hst ps et err
    exact ⟨st, Or.inr hst1, r⟩
  | string items => exact ⟨.stateEndValue, Or.inl rfl, run_string items h st0 hss ps et err⟩
  | litNull =>
    refine ⟨.stateEndValue, Or.inl rfl, ?_⟩
    have h0 : (⟨st0, ps, et, err⟩ : Scanner).doStep 110 =
        (⟨.stateN, ps, et, err⟩, .scanBeginLiteral) := by
      cases st0 <;> simp [Step.isValueStart] at hst <;>
        simp [Scanner.doStep, stateBeginValueOrEmpty, stateBeginValue, isSpace]
    have h1 : (⟨.stateN, ps, et, err⟩ : Scanner).doStep 117 =
        (⟨.stateNu, ps, et, err⟩, .scanContinue) := by simp [Scanner.doStep, expect]
    have h2 : (⟨.stateNu, ps, et, err⟩ : Scanner).doStep 108 =
        (⟨.stateNul, ps, et, err⟩, .scanContinue) := by simp [Scanner.doStep, expect]
    have h3 : (⟨.stateNul, ps, et, err⟩ : Scanner).doStep 108 =
        (⟨.stateEndValue, ps, et, err⟩, .scanContinue) := by simp [Scanner.doStep, expect]
    exact scans_cons (scans_emit h0 (by decide) (by decide))
      (scans_cons (scans_cont h1) (scans_cons (scans_cont h2) (scans_cont h3)))
  | litTrue =>
    refine ⟨.stateEndValue, Or.inl rfl, ?_⟩
    have h0 : (⟨st0, ps, et, err⟩ : Scanner).doStep 116 =
        (⟨.stateT, ps, et, err⟩, .scanBeginLiteral) := by
      cases st0 <;> simp [Step.isValueStart] at hst <;>
        simp [Scanner.doStep, stateBeginValueOrEmpty, stateBeginValue, isSpace]
    have h1 : (⟨.stateT, ps, et, err⟩ : Scanner).doStep 114 =
        (⟨.stateTr, ps, et, err⟩, .scanContinue) := by simp [Scanner.doStep, expect]
    have h2 : (⟨.stateTr, ps, et, err⟩ : Scanner).doStep 117 =
        (⟨.stateTru, ps, et, err⟩, .scanContinue) := by simp [Scanner.doStep, expect]
    have h3 : (⟨.stateTru, ps, et, err⟩ : Scanner).doStep 101 =
        (⟨.stateEndValue, ps, et, err⟩, .scanContinue) := by simp [Scanner.doStep, expect]
    exact scans_cons (scans_emit h0 (by decide) (by decide))
      (scans_cons (scans_cont h1) (scans_cons (scans_cont h2) (scans_cont h3)))
  | litFalse =>
    refine ⟨.stateEndValue, Or.inl rfl, ?_⟩
    have h0 : (⟨st0, ps, et, err⟩ : Scanner).doStep 102 =
        (⟨.stateF, ps, et, err⟩, .scanBeginLiteral) := by
      cases st0 <;> simp [Step.isValueStart] at hst <;>
        simp [Scanner.doStep, stateBeginValueOrEmpty, stateBeginValue, isSpace]
    have h1 : (⟨.stateF, ps, et, err⟩ : Scanner).doStep 97 =
        (⟨.stateFa, ps, et, err⟩, .scanContinue) := by simp [Scanner.doStep, expect]
    have h2 : (⟨.stateFa, ps, et, err⟩ : Scanner).doStep 108 =
        (⟨.stateFal, ps, et, err⟩, .scanContinue) := by simp [Scanner.doStep, expect]
    have h3 : (⟨.stateFal, ps, et, err⟩ : Scanner).doStep 115 =
        (⟨.stateFals, ps, et, err⟩, .scanContinue) := by simp [Scanner.doStep, expect]
    have h4 : (⟨.stateFals, ps, et, err⟩ : Scanner).doStep 101 =
        (⟨.stateEndValue, ps, et, err⟩, .scanContinue) := by simp [Scanner.doStep, expect]
    exact scans_cons (scans_emit h0 (by decide) (by decide))
      (scans_cons (scans_cont h1) (scans_cons (scans_cont h2) (scans_cons (scans_cont h3) (scans_cont h4))))

/-! ### Brackets, commas and colons -/

theorem step_open_array (st0 : Step) (hst : st0.isValueStart = true) (ps : List ParseState)
    (et err : Bool) (h : ps.length + 1 ≤ maxNestingDepth) :
    (⟨st0, ps, et, err⟩ : Scanner).doStep 91 =
      (⟨.stateBeginValueOrEmpty, .parseArrayValue :: ps, et, err⟩, .scanBeginArray) := by
  cases st0 <;> simp [Step.isValueStart] at hst <;>
    simp [Scanner.doStep, stateBeginValueOrEmpty, stateBeginValue, isSpace,
      Scanner.pushParseState, h]

theorem step_open_object (st0 : Step) (hst : st0.isValueStart = true) (ps : List ParseState)
    (et err : Bool) (h : ps.length + 1 ≤ maxNestingDepth) :
    (⟨st0, ps, et, err⟩ : Scanner).doStep 123 =
      (⟨.stateBeginStringOrEmpty, .parseObjectKey :: ps, et, err⟩, .scanBeginObject) := by
  cases st0 <;> simp [Step.isValueStart] at hst <;>
    simp [Scanner.doStep, stateBeginValueOrEmpty, stateBeginValue, isSpace,
      Scanner.pushParseState, h]

theorem step_close_array (st : Step)
    (hst : st.isPost ∨ st = .stateBeginValueOrEmpty) (ps : List ParseState) (et err : Bool) :
    (⟨st, .parseArrayValue :: ps, et, err⟩ : Scanner).doStep 93 =
      ((⟨st, .parseArrayValue :: ps, et, err⟩ : Scanner).popParseState, .scanEndArray) := by
  rcases hst with (h | h) | h
  · subst h
    simp [Scanner.doStep, stateEndValue, isSpace]
  · cases st <;> simp [Step.isNumEnd] at h <;>
      simp [Scanner.doStep, state0, state1, stateDot0, stateE0, stateEndValue, isSpace, isDigit,
        Scanner.popParseState]
  · subst h
    simp [Scanner.doStep, stateBeginValueOrEmpty, stateEndValue, isSpace]

theorem step_close_object (st : Step) (hst : st.isPost) (ps : List ParseState) (et err : Bool) :
    (⟨st, .parseObjectValue :: ps, et, err⟩ : Scanner).doStep 125 =
      ((⟨st, .parseObjectValue :: ps, et, err⟩ : Scanner).popParseState, .scanEndObject) := by
  rcases hst with h | h
  · subst h
    simp [Scanner.doStep, stateEndValue, isSpace]
  · cases st <;> simp [Step.isNumEnd] at h <;>
      simp [Scanner.doStep, state0, state1, stateDot0, stateE0, stateEndValue, isSpace, isDigit,
        Scanner.popParseState]

theorem step_close_object_empty (ps : List ParseState) (et err : Bool) :
    (⟨.stateBeginStringOrEmpty, .parseObjectKey :: ps, et, err⟩ : Scanner).doStep 125 =
      ((⟨.stateBeginStringOrEmpty, .parseObjectValue :: ps, et, err⟩ : Scanner).popParseState,
        .scanEndObject) := by
  simp [Scanner.doStep, stateBeginStringOrEmpty, stateEndValue, isSpace]

theorem step_comma_array (st : Step) (hst : st.isPost) (ps : List ParseState) (et err : Bool) :
    (⟨st, .parseArrayValue :: ps, et, err⟩ : Scanner).doStep 44 =
      (⟨.stateBeginValue, .parseArrayValue :: ps, et, err⟩, .scanArrayValue) := by
  rcases hst with h | h
  · subst h
    simp [Scanner.doStep, stateEndValue, isSpace]
  · cases st <;> simp [Step.isNumEnd] at h <;>
      simp [Scanner.doStep, state0, state1, stateDot0, stateE0, stateEndValue, isSpace, isDigit]

theorem step_comma_object (st : Step) (hst : st.isPost) (ps : List ParseState) (et err : Bool) :
    (⟨st, .parseObjectValue :: ps, et, err⟩ : Scanner).doStep 44 =
      (⟨.stateBeginString, .parseObjectKey :: ps, et, err⟩, .scanObjectValue) := by
  rcases hst with h | h
  · subst h
    simp [Scanner.doStep, stateEndValue, isSpace]
  · cases st <;> simp [Step.isNumEnd] at h <;>
      simp [Scanner.doStep, state0, state1, stateDot0, stateE0, stateEndValue, isSpace, isDigit]

theorem step_colon (st : Step) (hst : st.isPost) (ps : List ParseState) (et err : Bool) :
    (⟨st, .parseObjectKey :: ps, et, err⟩ : Scanner).doStep 58 =
      (⟨.stateBeginValue, .parseObjectValue :: ps, et, err⟩, .scanObjectKey) := by
  rcases hst with h | h
  · subst h
    simp [Scanner.doStep, stateEndValue, isSpace]
  · cases st <;> simp [Step.isNumEnd] at h <;>
      simp [Scanner.doStep, state0, state1, stateDot0, stateE0, stateEndValue, isSpace, isDigit]

theorem pop_cons (st : Step) (q p : ParseState) (ps : List ParseState) (et err : Bool) :
    (⟨st, q :: p :: ps, et, err⟩ : Scanner).popParseState =
      ⟨.stateEndValue, p :: ps, et, err⟩ := by
  simp [Scanner.popParseState]

theorem pop_top (st : Step) (q : ParseState) (et err : Bool) :
    (⟨st, [q], et, err⟩ : Scanner).popParseState = ⟨.stateEndTop, [], true, err⟩ := by
  simp [Scanner.popParseState]

/-! ### A key, its colon, and the white space around them -/

/-- The key of a member up to the start of its value. -/
theorem run_key (key : List StringItem) (ws1 ws2 : Bytes) (hk : key.all StringItem.ok = true)
    (h1 : isWs ws1 = true) (h2 : isWs ws2 = true) (st0 : Step)
    (hst : st0 = .stateBeginString ∨ st0 = .stateBeginStringOrEmpty) (ps : List ParseState)
    (et err : Bool) :
    Scans ⟨st0, .parseObjectKey :: ps, et, err⟩ (renderString key ++ ws1 ++ 58 :: ws2)
      ⟨.stateBeginValue, .parseObjectValue :: ps, et, err⟩
      (litEvents (renderString key) ++ [(58, .scanObjectKey)]) := by
  have hss : st0.isStringStart = true := by rcases hst with rfl | rfl <;> rfl
  have r1 := run_string key hk st0 hss (.parseObjectKey :: ps) et err
  obtain ⟨st1, hst1, r2⟩ := run_ws_end ws1 h1 .stateEndValue .parseObjectKey ps et err (Or.inl rfl)
  have r3 := scans_emit (step_colon st1 hst1 ps et err) (by decide) (by decide)
  have r4 := run_ws_begin ws2 h2 .stateBeginValue (.parseObjectValue :: ps) et err rfl
  have := scans_trans (scans_trans (scans_trans r1 r2) r3) r4
  simpa using this

/-! ### Trees inside an array or an object -/

/-- An array up to its last element, from the opening bracket. -/
theorem run_array_body (ws : Bytes) (es : JsonTree .elements) (hw : isWs ws = true)
    (hes : ScanSpec .elements es) (st0 : Step) (hst : st0.isValueStart = true)
    (ps : List ParseState) (et err : Bool)
    (hd : (ps.length + 1) + es.depth ≤ maxNestingDepth) :
    ∃ st, st.isPost ∧
      Scans ⟨st0, ps, et, err⟩ (91 :: ws ++ es.render) ⟨st, .parseArrayValue :: ps, et, err⟩
        ((91, .scanBeginArray) :: es.events) := by
  have r1 := scans_emit (step_open_array st0 hst ps et err (by omega)) (by decide) (by decide)
  have r2 := run_ws_begin ws hw .stateBeginValueOrEmpty (.parseArrayValue :: ps) et err rfl
  obtain ⟨st, hst1, r3⟩ := hes .stateBeginValueOrEmpty ps et err rfl hd
  refine ⟨st, hst1, ?_⟩
  have := scans_cons r1 (scans_trans r2 r3)
  simpa using this

/-- An object up to its last member, from the opening bracket. -/
theorem run_object_body (ws : Bytes) (ms : JsonTree .members) (hw : isWs ws = true)
    (hms : ScanSpec .members ms) (st0 : Step) (hst : st0.isValueStart = true)
    (ps : List ParseState) (et err : Bool)
    (hd : (ps.length + 1) + ms.depth ≤ maxNestingDepth) :
    ∃ st, st.isPost ∧
      Scans ⟨st0, ps, et, err⟩ (123 :: ws ++ ms.render) ⟨st, .parseObjectValue :: ps, et, err⟩
        ((123, .scanBeginObject) :: ms.events) := by
  have r1 := scans_emit (step_open_object st0 hst ps et err (by omega)) (by decide) (by decide)
  have r2 := run_ws_begin ws hw .stateBeginStringOrEmpty (.parseObjectKey :: ps) et err rfl
  obtain ⟨st, hst1, r3⟩ := hms .stateBeginStringOrEmpty ps et err (Or.inr rfl) hd
  refine ⟨st, hst1, ?_⟩
  have := scans_cons r1 (scans_trans r2 r3)
  simpa using this

/-- An empty array up to its closing bracket, from the opening bracket. -/
theorem run_emptyArray_body (ws : Bytes) (hw : isWs ws = true) (st0 : Step)
    (hst : st0.isValueStart = true) (ps : List ParseState) (et err : Bool)
    (hd : ps.length + 1 ≤ maxNestingDepth) :
    Scans ⟨st0, ps, et, err⟩ (91 :: ws) ⟨.stateBeginValueOrEmpty, .parseArrayValue :: ps, et, err⟩
      [(91, .scanBeginArray)] := by
  have r1 := scans_emit (step_open_array st0 hst ps et err hd) (by decide) (by decide)
  have r2 := run_ws_begin ws hw .stateBeginValueOrEmpty (.parseArrayValue :: ps) et err rfl
  have := scans_cons r1 r2
  simpa using this

/-- An empty object up to its closing bracket, from the opening bracket. -/
theorem run_emptyObject_body (ws : Bytes) (hw : isWs ws = true) (st0 : Step)
    (hst : st0.isValueStart = true) (ps : List ParseState) (et err : Bool)
    (hd : ps.length + 1 ≤ maxNestingDepth) :
    Scans ⟨st0, ps, et, err⟩ (123 :: ws)
      ⟨.stateBeginStringOrEmpty, .parseObjectKey :: ps, et, err⟩ [(123, .scanBeginObject)] := by
  have r1 := scans_emit (step_open_object st0 hst ps et err hd) (by decide) (by decide)
  have r2 := run_ws_begin ws hw .stateBeginStringOrEmpty (.parseObjectKey :: ps) et err rfl
  have := scans_cons r1 r2
  simpa using this

/-- The scanner reads every well-formed tree whose nesting stays within its
limit, without an error, and reports the events of the tree. -/
theorem run_tree {k : Cat} (t : JsonTree k) (hok : t.ok = true) : ScanSpec k t := by
  induction t with
  | literal tok =>
    intro st0 p ps et err hst _
    exact run_token tok hok st0 hst (p :: ps) et err
  | emptyArray ws =>
    intro st0 p ps et err hst hd
    simp only [JsonTree.depth] at hd
    have r1 := run_emptyArray_body ws hok st0 hst (p :: ps) et err (by simpa using hd)
    have r2 := scans_emit (step_close_array .stateBeginValueOrEmpty (Or.inr rfl) (p :: ps) et err)
      (by decide) (by decide)
    rw [pop_cons] at r2
    refine ⟨.stateEndValue, Or.inl rfl, ?_⟩
    have := scans_trans r1 r2
    simpa [JsonTree.render, JsonTree.events] using this
  | array ws es ih =>
    intro st0 p ps et err hst hd
    simp only [JsonTree.ok, Bool.and_eq_true] at hok
    simp only [JsonTree.depth] at hd
    obtain ⟨st, hst1, r1⟩ := run_array_body ws es hok.1 (ih hok.2) st0 hst (p :: ps) et err
      (by simp only [List.length_cons] at hd ⊢; omega)
    have r2 := scans_emit (step_close_array st (Or.inl hst1) (p :: ps) et err)
      (by decide) (by decide)
    rw [pop_cons] at r2
    refine ⟨.stateEndValue, Or.inl rfl, ?_⟩
    have := scans_trans r1 r2
    simpa [JsonTree.render, JsonTree.events] using this
  | emptyObject ws =>
    intro st0 p ps et err hst hd
    simp only [JsonTree.depth] at hd
    have r1 := run_emptyObject_body ws hok st0 hst (p :: ps) et err (by simpa using hd)
    have r2 := scans_emit (step_close_object_empty (p :: ps) et err) (by decide) (by decide)
    rw [pop_cons] at r2
    refine ⟨.stateEndValue, Or.inl rfl, ?_⟩
    have := scans_trans r1 r2
    simpa [JsonTree.render, JsonTree.events] using this
  | object ws ms ih =>
    intro st0 p ps et err hst hd
    simp only [JsonTree.ok, Bool.and_eq_true] at hok
    simp only [JsonTree.depth] at hd
    obtain ⟨st, hst1, r1⟩ := run_object_body ws ms hok.1 (ih hok.2) st0 hst (p :: ps) et err
      (by simp only [List.length_cons] at hd ⊢; omega)
    have r2 := scans_emit (step_close_object st hst1 (p :: ps) et err) (by decide) (by decide)
    rw [pop_cons] at r2
    refine ⟨.stateEndValue, Or.inl rfl, ?_⟩
    have := scans_trans r1 r2
    simpa [JsonTree.render, JsonTree.events] using this
  | single v ws ih =>
    intro st0 ps et err hst hd
    simp only [JsonTree.ok, Bool.and_eq_true] at hok
    simp only [JsonTree.depth] at hd
    obtain ⟨st, hst1, r1⟩ := ih hok.1 st0 .parseArrayValue ps et err hst
      (by simp only [List.length_cons]; omega)
    obtain ⟨st2, hst2, r2⟩ := run_ws_end ws hok.2 st .parseArrayValue ps et err hst1
    refine ⟨st2, hst2, ?_⟩
    have := scans_trans r1 r2
    simpa [JsonTree.render, JsonTree.events] using this
  | more v ws1 ws2 rest ihv ihr =>
    intro st0 ps et err hst hd
    simp only [JsonTree.ok, Bool.and_eq_true] at hok
    obtain ⟨⟨⟨hv, h1⟩, h2⟩, hr⟩ := hok
    simp only [JsonTree.depth] at hd
    obtain ⟨st, hst1, r1⟩ := ihv hv st0 .parseArrayValue ps et err hst
      (by simp only [List.length_cons]; omega)
    obtain ⟨st2, hst2, r2⟩ := run_ws_end ws1 h1 st .parseArrayValue ps et err hst1
    have r3 := scans_emit (step_comma_array st2 hst2 ps et err) (by decide) (by decide)
    have r4 := run_ws_begin ws2 h2 .stateBeginValue (.parseArrayValue :: ps) et err rfl
    obtain ⟨st5, hst5, r5⟩ := ihr hr .stateBeginValue ps et err rfl (by omega)
    refine ⟨st5, hst5, ?_⟩
    have := scans_trans (scans_trans (scans_trans (scans_trans r1 r2) r3) r4) r5
    simpa [JsonTree.render, JsonTree.events] using this
  | member key ws1 ws2 v ws3 ih =>
    intro st0 ps et err hst hd
    simp only [JsonTree.ok, Bool.and_eq_true] at hok
    obtain ⟨⟨⟨⟨hk, h1⟩, h2⟩, hv⟩, h3⟩ := hok
    simp only [JsonTree.depth] at hd
    have r1 := run_key key ws1 ws2 hk h1 h2 st0 hst ps et err
    obtain ⟨st, hst1, r2⟩ := ih hv .stateBeginValue .parseObjectValue ps et err rfl
      (by simp only [List.length_cons]; omega)
    obtain ⟨st3, hst3, r3⟩ := run_ws_end ws3 h3 st .parseObjectValue ps et err hst1
    refine ⟨st3, hst3, ?_⟩
    have := scans_trans (scans_trans r1 r2) r3
    simpa [JsonTree.render, JsonTree.events] using this
  | members key ws1 ws2 v ws3 ws4 rest ihv ihr =>
    intro st0 ps et err hst hd
    simp only [JsonTree.ok, Bool.and_eq_true] at hok
    obtain ⟨⟨⟨⟨⟨⟨hk, h1⟩, h2⟩, hv⟩, h3⟩, h4⟩, hr⟩ := hok
    simp only [JsonTree.depth] at hd
    have r1 := run_key key ws1 ws2 hk h1 h2 st0 hst ps et err
    obtain ⟨st, hst1, r2⟩ := ihv hv .stateBeginValue .parseObjectValue ps et err rfl
      (by simp only [List.length_cons]; omega)
    obtain ⟨st3, hst3, r3⟩ := run_ws_end ws3 h3 st .parseObjectValue ps et err hst1
    have r4 := scans_emit (step_comma_object st3 hst3 ps et err) (by decide) (by decide)
    have r5 := run_ws_begin ws4 h4 .stateBeginString (.parseObjectKey :: ps) et err rfl
    obtain ⟨st6, hst6, r6⟩ := ihr hr .stateBeginString ps et err (Or.inl rfl) (by omega)
    refine ⟨st6, hst6, ?_⟩
    have := scans_trans (scans_trans (scans_trans (scans_trans (scans_trans r1 r2) r3) r4) r5) r6
    simpa [JsonTree.render, JsonTree.events] using this

/-! ### The top-level value -/

/-- White space once the top-level value has ended. -/
theorem run_ws_endTop (w : Bytes) (hw : isWs w = true) (err : Bool) :
    Scans ⟨.stateEndTop, [], true, err⟩ w ⟨.stateEndTop, [], true, err⟩ (endEvents w) := by
  induction w with
  | nil => exact scans_nil _
  | cons c cs ih =>
    obtain ⟨hc, hcs⟩ := isWs_cons c cs hw
    have h1 : (⟨.stateEndTop, [], true, err⟩ : Scanner).doStep c =
        (⟨.stateEndTop, [], true, err⟩, .scanEnd) := by
      simp [Scanner.doStep, stateEndTop, hc]
    exact scans_cons (scans_emit h1 (by decide) (by decide)) (ih hcs)

/-- White space after a top-level token. -/
theorem run_ws_top (w : Bytes) (hw : isWs w = true) (st : Step) (hst : st.isPost) (et : Bool) :
    ∃ s1, s1.eof = true ∧ Scans ⟨st, [], et, false⟩ w s1 (endEvents w) := by
  cases w with
  | nil =>
    refine ⟨⟨st, [], et, false⟩, ?_, scans_nil _⟩
    rcases hst with h | h
    · subst h
      cases et <;> simp [Scanner.eof, Scanner.doStep, stateEndValue, stateEndTop, isSpace]
    · cases st <;> simp [Step.isNumEnd] at h <;> cases et <;>
        simp [Scanner.eof, Scanner.doStep, state0, state1, stateDot0, stateE0, stateEndValue,
          stateEndTop, isSpace, isDigit]
  | cons c cs =>
    obtain ⟨hc, hcs⟩ := isWs_cons c cs hw
    have hd : isDigit c = false := by
      simp only [isSpace, Bool.or_eq_true, beq_iff_eq] at hc
      rcases hc with ((h | h) | h) | h <;> subst h <;> rfl
    have h46 : c ≠ 46 := by
      intro h; subst h; simp [isSpace] at hc
    have h101 : c ≠ 101 := by
      intro h; subst h; simp [isSpace] at hc
    have h69 : c ≠ 69 := by
      intro h; subst h; simp [isSpace] at hc
    have h1 : (⟨st, [], et, false⟩ : Scanner).doStep c =
        (⟨.stateEndTop, [], true, false⟩, .scanEnd) := by
      rcases hst with h | h
      · subst h
        simp [Scanner.doStep, stateEndValue, stateEndTop, hc]
      · cases st <;> simp [Step.isNumEnd] at h <;>
          simp [Scanner.doStep, state0, state1, stateDot0, stateE0, stateEndValue, stateEndTop,
            hc, hd, h46, h101, h69]
    exact ⟨⟨.stateEndTop, [], true, false⟩, by simp [Scanner.eof],
      scans_cons (scans_emit h1 (by decide) (by decide)) (run_ws_endTop cs hcs false)⟩

/-- The scanner reads every JSON text whose nesting stays within its limit:
from `reset` it meets no error, reports the events of the value and `scanEnd`
for the white space after it, and ends where the input may end. -/
theorem run_text (t : JsonText) (hok : t.ok = true) (hd : t.depth ≤ maxNestingDepth) :
    ∃ s1, s1.eof = true ∧
      Scans Scanner.reset t.render s1 (t.value.events ++ endEvents t.trail) := by
  obtain ⟨lead, value, trail⟩ := t
  simp only [JsonText.ok, Bool.and_eq_true] at hok
  obtain ⟨⟨hl, hv⟩, ht⟩ := hok
  simp only [JsonText.depth] at hd
  have r0 := run_ws_begin lead hl .stateBeginValue [] false false rfl
  have rtop := run_ws_endTop trail ht false
  simp only [JsonText.render]
  -- the value, then the white space after it
  suffices h : ∃ s1, s1.eof = true ∧
      Scans ⟨.stateBeginValue, [], false, false⟩ (value.render ++ trail) s1
        (value.events ++ endEvents trail) by
    obtain ⟨s1, he, r⟩ := h
    refine ⟨s1, he, ?_⟩
    have := scans_trans r0 r
    simpa [Scanner.reset, List.append_assoc] using this
  have hfin : (⟨.stateEndTop, [], true, false⟩ : Scanner).eof = true := by simp [Scanner.eof]
  cases value with
  | literal tok =>
    obtain ⟨st, hst, r1⟩ := run_token tok hv .stateBeginValue rfl [] false false
    obtain ⟨s1, he, r2⟩ := run_ws_top trail ht st hst false
    exact ⟨s1, he, scans_trans r1 r2⟩
  | emptyArray ws =>
    have r1 := run_emptyArray_body ws hv .stateBeginValue rfl [] false false
      (by simp [maxNestingDepth])
    have r2 := scans_emit (step_close_array .stateBeginValueOrEmpty (Or.inr rfl) [] false false)
      (by decide) (by decide)
    rw [pop_top] at r2
    refine ⟨_, hfin, ?_⟩
    have := scans_trans (scans_trans r1 r2) rtop
    simpa [JsonTree.render, JsonTree.events] using this
  | array ws es =>
    simp only [JsonTree.ok, Bool.and_eq_true] at hv
    simp only [JsonTree.depth] at hd
    obtain ⟨st, hst1, r1⟩ := run_array_body ws es hv.1 (run_tree es hv.2) .stateBeginValue rfl
      [] false false (by simp only [List.length_nil]; omega)
    have r2 := scans_emit (step_close_array st (Or.inl hst1) [] false false)
      (by decide) (by decide)
    rw [pop_top] at r2
    refine ⟨_, hfin, ?_⟩
    have := scans_trans (scans_trans r1 r2) rtop
    simpa [JsonTree.render, JsonTree.events] using this
  | emptyObject ws =>
    have r1 := run_emptyObject_body ws hv .stateBeginValue rfl [] false false
      (by simp [maxNestingDepth])
    have r2 := scans_emit (step_close_object_empty [] false false) (by decide) (by decide)
    rw [pop_top] at r2
    refine ⟨_, hfin, ?_⟩
    have := scans_trans (scans_trans r1 r2) rtop
    simpa [JsonTree.render, JsonTree.events] using this
  | object ws ms =>
    simp only [JsonTree.ok, Bool.and_eq_true] at hv
    simp only [JsonTree.depth] at hd
    obtain ⟨st, hst1, r1⟩ := run_object_body ws ms hv.1 (run_tree ms hv.2) .stateBeginValue rfl
      [] false false (by simp only [List.length_nil]; omega)
    have r2 := scans_emit (step_close_object st hst1 [] false false) (by decide) (by decide)
    rw [pop_top] at r2
    refine ⟨_, hfin, ?_⟩
    have := scans_trans (scans_trans r1 r2) rtop
    simpa [JsonTree.render, JsonTree.events] using this

/-! ### What the decoder reads of a JSON text -/

/-- `json.Valid` accepts every JSON text whose nesting stays within the
scanner's limit. -/
theorem Valid_of_text (t : JsonText) (hok : t.ok = true) (hd : t.depth ≤ maxNestingDepth) :
    Valid t.render = true := by
  obtain ⟨s1, he, r⟩ := run_text t hok hd
  have h := r Unit (fun a _ _ => a) () []
  rw [List.append_nil] at h
  rw [Valid, checkValidFrom_eq (fun a _ _ _ => a) t.render Scanner.reset () wf_reset, h]
  exact he

theorem pretty_value (t : JsonTree .value) (tr : Bytes) : t.pretty tr = t.pretty [] := by
  cases t <;> rfl

theorem isBody_nil : IsBody [] := ⟨[], rfl, rfl⟩

theorem set_accept (t : Transaction) (f : Field) (s : Bytes) :
    (t.set f s).acceptMalfunctionedStr = t.acceptMalfunctionedStr := by
  cases f <;> rfl

theorem decodeMember_accept (st : Transaction × Option JsonError) (m : Bytes × JValue) :
    (decodeMember st m).1.acceptMalfunctionedStr = st.1.acceptMalfunctionedStr := by
  unfold decodeMember
  split
  · rfl
  · split <;> simp [set_accept]

theorem foldl_decodeMember_accept (ms : List (Bytes × JValue)) :
    ∀ st : Transaction × Option JsonError,
      (ms.foldl decodeMember st).1.acceptMalfunctionedStr = st.1.acceptMalfunctionedStr := by
  induction ms with
  | nil => intro st; rfl
  | cons m ms ih => intro st; rw [List.foldl_cons, ih, decodeMember_accept]

theorem unmarshalTransaction_accept (t : Transaction) (v : JValue) :
    (unmarshalTransaction t v).1.acceptMalfunctionedStr = t.acceptMalfunctionedStr := by
  cases v <;> simp [unmarshalTransaction, foldl_decodeMember_accept]

/-- Whatever the body, a decoded record has an empty `acceptMalfunctionedStr`. -/
theorem Decode_accept (body : Bytes) (t : Transaction) (h : Decode body = .ok t) :
    t.acceptMalfunctionedStr = [] := by
  unfold Decode at h
  split at h
  · simp at h
  · split at h
    · simp at h
    · rename_i v _
      have := unmarshalTransaction_accept Transaction.zero v
      split at h
      · rename_i t1 heq
        simp only [DecodeResult.ok.injEq] at h
        subst h
        rw [heq] at this
        exact this
      · simp at h

theorem callsOf_submitAndReport (contract : Contract) (banner name : Bytes) (args : List Bytes) :
    callsOf (submitAndReport contract banner name args).events = [⟨.submit, name, args⟩] ∧
      (submitAndReport contract banner name args).panicked = false := by
  unfold submitAndReport
  split <;> simp [callsOf]

theorem callsOf_evaluateAndPrint (contract : Contract) (banner name : Bytes)
    (args : List Bytes) :
    callsOf (evaluateAndPrint contract banner name args).events = [⟨.evaluate, name, args⟩] ∧
      ((evaluateAndPrint contract banner name args).panicked =
        match contract.EvaluateTransaction name args with
        | .ok payload => !Valid payload
        | .error _ => false) := by
  unfold evaluateAndPrint
  cases h : contract.EvaluateTransaction name args with
  | error err => simp [callsOf]
  | ok payload =>
    have hv := formatJSON_isSome payload
    cases hf : formatJSON payload with
    | none =>
      rw [hf] at hv
      have hv2 : Valid payload = false := by simpa using hv.symm
      simp [callsOf, hv2, hf]
    | some result =>
      rw [hf] at hv
      have hv2 : Valid payload = true := by simpa using hv.symm
      simp [callsOf, hv2, hf]

theorem decodeMember_error (st : Transaction × Option JsonError) (m : Bytes × JValue) :
    (decodeMember st m).2 = none ↔ (st.2 = none ∧ memberDecodes m = true) := by
  unfold decodeMember memberDecodes
  cases hl : lookupField m.1 with
  | none => simp
  | some f =>
    cases hv : m.2 <;> simp <;> cases st.2 <;> simp

theorem foldl_decodeMember_error (members : List (Bytes × JValue)) :
    ∀ st : Transaction × Option JsonError,
      (members.foldl decodeMember st).2 = none ↔
        (st.2 = none ∧ members.all memberDecodes = true) := by
  induction members with
  | nil => intro st; simp
  | cons m ms ih =>
    intro st
    rw [List.foldl_cons, ih, decodeMember_error]
    simp [and_assoc]

/-- Decoding a value into a `Transaction` saves no error exactly when the
value is `null` or an object whose members that select an exported field hold
a string or `null`. -/
theorem unmarshalTransaction_ok_iff (t : Transaction) (v : JValue) :
    (unmarshalTransaction t v).2 = none ↔ decodes v = true := by
  cases v <;> simp [unmarshalTransaction, decodes, foldl_decodeMember_error]

/-- `Decode` accepts a body exactly when its first JSON value is read and is
`null` or an object whose members that select an exported field hold a string
or `null`. -/
theorem Decode_ok_iff (body : Bytes) :
    (∃ t, Decode body = .ok t) ↔
      ∃ n v, readValue body = .ok n ∧ jsonValue (body.take n) = some v ∧ decodes v = true := by
  cases hn : readValue body with
  | error e => simp [Decode, hn]
  | ok n =>
    cases hv : jsonValue (body.take n) with
    | none => simp [Decode, hn, hv]
    | some v =>
      have h := unmarshalTransaction_ok_iff Transaction.zero v
      rcases hu : unmarshalTransaction Transaction.zero v with ⟨t, e⟩
      rw [hu] at h
      cases e with
      | none =>
        have hd : decodes v = true := h.mp rfl
        simp [Decode, hn, hv, hu, hd]
      | some e =>
        have hd : ¬ decodes v = true := fun hd => by simpa using h.mpr hd
        simp [Decode, hn, hv, hu, hd]

theorem withTransaction_err (body : Bytes) (op : Transaction → Run) (e : JsonError)
    (h : Decode body = .err e) : withTransaction body op = ⟨[], .status 400⟩ := by
  simp [withTransaction, h]

theorem withTransaction_ok (body : Bytes) (op : Transaction → Run) (t : Transaction)
    (h : Decode body = .ok t) :
    withTransaction body op =
      ⟨(op t).events, if (op t).panicked then .panicked else .status 200⟩ := by
  simp only [withTransaction, h]
  split <;> simp_all

theorem Decode_scenarioB :
    Decode scenarioB =
      .ok { Transaction.zero with CarID := str "asset1", NewOwnerID := str "Alice" } := by
  decide

/-- C1 (the code departs from the claim): on `/transferCarAsset` the third
argument of the submit is never `"false"`.  For the body of Scenario B, whose
`acceptMalfunctionedStr` is `"n"`, the handler submits `TransferCarAsset` with
`["asset1", "Alice", "true"]`; and for every body and every contract the calls
are either none (the body did not decode) or one submit whose flag argument is
`"true"`, because decoding leaves the unexported field empty. -/
theorem transferCarAsset_flag_is_true :
    (∀ contract : Contract,
      (handle contract .transferCarAsset scenarioB).calls =
        [⟨.submit, str "TransferCarAsset", [str "asset1", str "Alice", str "true"]⟩]) ∧
    (∀ (contract : Contract) (body : Bytes),
      (handle contract .transferCarAsset body).calls = [] ∨
      ∃ id newOwner, (handle contract .transferCarAsset body).calls =
        [⟨.submit, str "TransferCarAsset", [id, newOwner, str "true"]⟩]) := by
  constructor
  · intro contract
    simp only [handle, Response.calls, withTransaction_ok _ _ _ Decode_scenarioB, transferCarAsset]
    rw [(callsOf_submitAndReport _ _ _ _).1]
    simp [FormatBool, Transaction.zero, str]
  · intro contract body
    cases h : Decode body with
    | err e => left; simp [handle, Response.calls, withTransaction, h, callsOf]
    | phasePanic => left; simp [handle, Response.calls, withTransaction, h, callsOf]
    | ok t =>
      right
      refine ⟨t.CarID, t.NewOwnerID, ?_⟩
      simp only [handle, Response.calls, withTransaction_ok _ _ _ h, transferCarAsset]
      rw [(callsOf_submitAndReport _ _ _ _).1, Decode_accept body t h]
      simp [FormatBool, str]

/-! ### C2 -/

/-- C2, as stated, fails: `{` is not well-formed JSON, yet `/initLedger`
answers 200 and submits `InitLedger`; and `{} x` is not well-formed JSON, yet
`/readCarAsset` decodes its first value, evaluates `ReadCarAsset` and answers
200. -/
theorem malformed_body_not_always_rejected :
    Valid (str "\x7b") = false ∧
    (handle emptyObjectContract .initLedger (str "\x7b")).outcome = .status 200 ∧
    (handle emptyObjectContract .initLedger (str "\x7b")).calls =
      [⟨.submit, str "InitLedger", []⟩] ∧
    Valid (str "\x7b\x7d x") = false ∧
    (handle emptyObjectContract .readCarAsset (str "\x7b\x7d x")).outcome = .status 200 ∧
    (handle emptyObjectContract .readCarAsset (str "\x7b\x7d x")).calls =
      [⟨.evaluate, str "ReadCarAsset", [[]]⟩] := by
  decide

/-- On each of the eight routes other than `/initLedger`, a body on which
`Decode` returns an error is answered with status 400 and no remote call is
issued. -/
theorem undecodable_body_rejected (contract : Contract) (route : Route) (body : Bytes)
    (e : JsonError) (hroute : route ≠ .initLedger) (hdec : Decode body = .err e) :
    (handle contract route body).outcome = .status 400 ∧
      (handle contract route body).calls = [] := by
  cases route <;> first
    | exact absurd rfl hroute
    | simp [handle, Response.calls, withTransaction_err _ _ e hdec, callsOf]

/-- A handler reads its body through `Decode` only. -/
theorem handle_congr (contract : Contract) (route : Route) (body1 body2 : Bytes)
    (h : Decode body1 = Decode body2) :
    handle contract route body1 = handle contract route body2 := by
  cases route <;> simp [handle, withTransaction, h]

/-- The decoder does not check that a string is UTF-8: the body
`{"carID":"\xff"}` is accepted by `json.Valid`, answered 200, and the byte is
replaced by U+FFFD in the argument of the call. -/
theorem invalid_utf8_body_accepted :
    Valid (str "\x7b\"carID\":\"" ++ [255] ++ str "\"\x7d") = true ∧
    (handle emptyObjectContract .readCarAsset
      (str "\x7b\"carID\":\"" ++ [255] ++ str "\"\x7d")).outcome = .status 200 ∧
    (handle emptyObjectContract .readCarAsset
      (str "\x7b\"carID\":\"" ++ [255] ++ str "\"\x7d")).calls =
      [⟨.evaluate, str "ReadCarAsset", [[0xEF, 0xBF, 0xBD]]⟩] := by
  decide

/-- C2 (amended): on each of the eight routes other than `/initLedger`, for
a body that `json.Valid` rejects (such a body is no JSON text of the grammar
nested at most `maxNestingDepth` deep), either the decoder finds no complete
first value, and the handler answers 400 and issues no remote call; or the
body starts with a complete JSON value, itself accepted by `json.Valid`, and
goes on after it, and the handler does exactly what it does for that value
alone as the body: in particular it answers 400 and issues no remote call
when the value does not decode into a `Transaction`. -/
theorem malformed_body_rejected (contract : Contract) (route : Route) (body : Bytes)
    (hroute : route ≠ .initLedger) (hmal : Valid body = false) :
    (∀ t : JsonText, t.ok = true → t.depth ≤ maxNestingDepth → t.render ≠ body) ∧
    ((∃ e, readValue body = .error e ∧
      (handle contract route body).outcome = .status 400 ∧
      (handle contract route body).calls = []) ∨
    (∃ n, readValue body = .ok n ∧ n < body.length ∧ Valid (body.take n) = true ∧
      handle contract route body = handle contract route (body.take n) ∧
      ∀ v, jsonValue (body.take n) = some v → decodes v = false →
        (handle contract route body).outcome = .status 400 ∧
        (handle contract route body).calls = [])) := by
  refine ⟨fun t hok hd he => ?_, ?_⟩
  · have := Valid_of_text t hok hd
    rw [he, hmal] at this
    cases this
  rcases readValue_of_invalid body hmal with ⟨e, he⟩ | ⟨n, hn, hlt⟩
  · exact Or.inl ⟨e, he,
      undecodable_body_rejected contract route body e hroute (by simp [Decode, he])⟩
  · refine Or.inr ⟨n, hn, hlt, (readValue_take body n hn).2.2,
      handle_congr contract route _ _ (Decode_take body n hn).symm, fun v hv hd => ?_⟩
    have hu := unmarshalTransaction_ok_iff Transaction.zero v
    rcases hr : unmarshalTransaction Transaction.zero v with ⟨t, e⟩
    rw [hr] at hu
    cases e with
    | none => exact absurd (hu.mp rfl) (by simp [hd])
    | some e =>
      exact undecodable_body_rejected contract route body e hroute
        (by simp [Decode, hn, hv, hr])

theorem malformed_body_rejected_witness :
    Valid (str "5 x") = false ∧ readValue (str "5 x") = .ok 1 ∧
    (handle emptyObjectContract .readCarAsset (str "5 x")).outcome = .status 400 ∧
      (handle emptyObjectContract .readCarAsset (str "5 x")).calls = [] := by
  have e1 : readValue (str "5 x") = .ok 1 := rfl
  refine ⟨by decide, e1, ?_⟩
  rcases (malformed_body_rejected emptyObjectContract .readCarAsset (str "5 x") (by decide)
    (by decide)).2 with ⟨e, he, -⟩ | ⟨n, hn, -, -, -, hv⟩
  · rw [e1] at he
    cases he
  · rw [e1] at hn
    cases hn
    exact hv (.number (str "5")) rfl rfl

/-! ### C3 -/

/-- C3, as stated, fails: with a well-formed body and a successful evaluate
whose payload is empty, `/readCarAsset` panics in `formatJSON` and writes no
status; and the well-formed body `{"carID":5}` is answered 400. -/
theorem status_not_always_200 :
    Valid (str "\x7b\"carID\":\"asset1\"\x7d") = true ∧
    (handle emptyPayloadContract .readCarAsset (str "\x7b\"carID\":\"asset1\"\x7d")).outcome =
      .panicked ∧
    Valid (str "\x7b\"carID\":5\x7d") = true ∧
    (handle emptyObjectContract .readCarAsset (str "\x7b\"carID\":5\x7d")).outcome = .status 400 := by
  decide

/-- C3 (amended): for every route, every body that `Decode` accepts (on
`/initLedger` every body) and every outcome of the remote call, the handler
answers 200, except when an evaluate succeeds with a payload that
`json.Valid` rejects (the acceptance of the scanner of `json.Indent`: one
JSON value by its syntax, nested at most `maxNestingDepth` deep, the bytes of
strings from 0x80 up unchecked): then `formatJSON` panics and no status is
written. -/
theorem status_after_decoding (contract : Contract) (route : Route) (body : Bytes)
    (t : Transaction) (hdec : route = .initLedger ∨ Decode body = .ok t) :
    (handle contract route body).outcome =
      match tableKind route, contract.EvaluateTransaction (tableName route) (tableArgs route t) with
      | some .evaluate, .ok payload => if Valid payload then .status 200 else .panicked
      | _, _ => .status 200 := by
  cases route
  case initLedger => simp [handle, tableKind]
  all_goals
    rcases hdec with h | h
    · simp at h
    simp only [handle, withTransaction_ok _ _ _ h, tableKind, tableName, tableArgs]
  case readPersonAsset =>
    rw [readPersonAsset, (callsOf_evaluateAndPrint _ _ _ _).2]
    cases contract.EvaluateTransaction (str "ReadPersonAsset") [t.PersonID] <;> simp
    split <;> simp_all
  case readCarAsset =>
    rw [readCarAsset, (callsOf_evaluateAndPrint _ _ _ _).2]
    cases contract.EvaluateTransaction (str "ReadCarAsset") [t.CarID] <;> simp
    split <;> simp_all
  case getCarsByColor =>
    rw [getCarsByColor, (callsOf_evaluateAndPrint _ _ _ _).2]
    cases contract.EvaluateTransaction (str "GetCarsByColor") [t.Color] <;> simp
    split <;> simp_all
  case getCarsByColorAndOwner =>
    rw [getCarsByColorAndOwner, (callsOf_evaluateAndPrint _ _ _ _).2]
    cases contract.EvaluateTransaction (str "GetCarsByColorAndOwner") [t.Color, t.OwnerID] <;>
      simp
    split <;> simp_all
  case transferCarAsset =>
    rw [transferCarAsset, (callsOf_submitAndReport _ _ _ _).2]; simp
  case addCarMalfunction => simp
  case changeCarColor =>
    rw [changeCarColor, (callsOf_submitAndReport _ _ _ _).2]; simp
  case repairCar =>
    rw [repairCar, (callsOf_submitAndReport _ _ _ _).2]; simp

theorem status_after_decoding_witness :
    (handle emptyObjectContract .readCarAsset (str "\x7b\"carID\":\"asset1\"\x7d")).outcome =
      .status 200 := by
  have h := status_after_decoding emptyObjectContract .readCarAsset
    (str "\x7b\"carID\":\"asset1\"\x7d") { Transaction.zero with CarID := str "asset1" }
    (Or.inr (by decide))
  rw [h]
  decide

/-! ### C4 -/

/-- C4, as stated, fails: the body `{"carID":5}` is well-formed JSON, and
`/readCarAsset` issues no remote call for it. -/
theorem wellformed_body_without_call :
    Valid (str "\x7b\"carID\":5\x7d") = true ∧
    (handle emptyObjectContract .readCarAsset (str "\x7b\"carID\":5\x7d")).calls = [] := by
  decide

/-- C4 (amended): on each forwarding route (all but `/addCarMalfunction`),
for every body that `Decode` accepts (on `/initLedger` every body), the
handler issues exactly one remote call, whose kind and function name are
those of the operation table for the route. -/
theorem one_call_by_table (contract : Contract) (route : Route) (body : Bytes)
    (t : Transaction) (hroute : route ≠ .addCarMalfunction)
    (hdec : route = .initLedger ∨ Decode body = .ok t) :
    ∃ kind args, tableKind route = some kind ∧
      (handle contract route body).calls = [⟨kind, tableName route, args⟩] := by
  cases route
  case addCarMalfunction => exact absurd rfl hroute
  case initLedger =>
    exact ⟨.submit, [], rfl, by
      simp only [handle, Response.calls, callsOf, initLedger]
      exact (callsOf_submitAndReport _ _ _ _).1⟩
  all_goals
    rcases hdec with h | h
    · simp at h
    simp only [handle, Response.calls, withTransaction_ok _ _ _ h, tableKind, tableName]
  case readPersonAsset =>
    exact ⟨.evaluate, _, rfl, (callsOf_evaluateAndPrint _ _ _ _).1⟩
  case readCarAsset =>
    exact ⟨.evaluate, _, rfl, (callsOf_evaluateAndPrint _ _ _ _).1⟩
  case getCarsByColor =>
    exact ⟨.evaluate, _, rfl, (callsOf_evaluateAndPrint _ _ _ _).1⟩
  case getCarsByColorAndOwner =>
    exact ⟨.evaluate, _, rfl, (callsOf_evaluateAndPrint _ _ _ _).1⟩
  case transferCarAsset =>
    exact ⟨.submit, _, rfl, (callsOf_submitAndReport _ _ _ _).1⟩
  case changeCarColor =>
    exact ⟨.submit, _, rfl, (callsOf_submitAndReport _ _ _ _).1⟩
  case repairCar =>
    exact ⟨.submit, _, rfl, (callsOf_submitAndReport _ _ _ _).1⟩

theorem one_call_by_table_witness :
    ∃ kind args, tableKind .changeCarColor = some kind ∧
      (handle emptyObjectContract .changeCarColor
        (str "\x7b\"carID\":\"asset1\",\"color\":\"red\"\x7d")).calls =
        [⟨kind, tableName .changeCarColor, args⟩] :=
  one_call_by_table emptyObjectContract .changeCarColor
    (str "\x7b\"carID\":\"asset1\",\"color\":\"red\"\x7d")
    { Transaction.zero with CarID := str "asset1", Color := str "red" }
    (by decide) (Or.inr (by decide))

/-! ### C5 -/

theorem scanInt_nonnumeric (r : Nat) (rest : List Nat) (hs : isSpaceRune r = false)
    (hp : r ≠ 43) (hm : r ≠ 45) (hd : isDigit r = false) : scanInt (r :: rest) = none := by
  have h10 : r ≠ 10 := by rintro rfl; simp [isSpaceRune] at hs
  have h13 : r ≠ 13 := by rintro rfl; simp [isSpaceRune] at hs
  have hskip : SkipSpace (r :: rest) = some (r :: rest) := by
    simp [SkipSpace, h10, h13, hs]
  simp [scanInt, hskip, hp, hm, List.takeWhile, hd]

/-- C6: the organisation `main` selects is the map's entry for `org2`, `org3`
or `org4` when `Scanf` stores 2, 3 or 4, and the entry for `org1` for every
other input: another integer (such as `9`), or an input on which the scan
fails and the option stays zero, as it does for every input that starts with
a rune that is no space, sign or digit. -/
theorem selectOrg_spec (orgsConfig : List (Bytes × OrgConfig)) (input : List Nat) :
    (scanInt input = some 2 → selectOrg orgsConfig input = mapIndex orgsConfig (str "org2")) ∧
    (scanInt input = some 3 → selectOrg orgsConfig input = mapIndex orgsConfig (str "org3")) ∧
    (scanInt input = some 4 → selectOrg orgsConfig input = mapIndex orgsConfig (str "org4")) ∧
    (scanInt input ≠ some 2 → scanInt input ≠ some 3 → scanInt input ≠ some 4 →
      selectOrg orgsConfig input = mapIndex orgsConfig (str "org1")) ∧
    (scanInt input = none → selectOrg orgsConfig input = mapIndex orgsConfig (str "org1")) ∧
    (∀ r rest, input = r :: rest → isSpaceRune r = false → r ≠ 43 → r ≠ 45 →
      isDigit r = false → selectOrg orgsConfig input = mapIndex orgsConfig (str "org1")) ∧
    scanInt (str "2") = some 2 ∧ scanInt (str "3") = some 3 ∧ scanInt (str "4") = some 4 ∧
    scanInt (str "9") = some 9 ∧ scanInt (str "abc") = none ∧
    selectOrg orgsConfig (str "9") = mapIndex orgsConfig (str "org1") ∧
    selectOrg orgsConfig (str "abc") = mapIndex orgsConfig (str "org1") := by
  have hnone : scanInt input = none →
      selectOrg orgsConfig input = mapIndex orgsConfig (str "org1") := by
    intro h
    simp [selectOrg, h]
  have h9 : scanInt (str "9") = some 9 := by decide
  have habc : scanInt (str "abc") = none := by decide
  refine ⟨?_, ?_, ?_, ?_, hnone, ?_, by decide, by decide, by decide, h9, habc, ?_, ?_⟩
  · intro h; simp [selectOrg, h]
  · intro h; simp [selectOrg, h]
  · intro h; simp [selectOrg, h]
  · intro h2 h3 h4
    unfold selectOrg
    cases h : scanInt input with
    | none => simp
    | some n =>
      have n2 : n ≠ 2 := fun e => h2 (by rw [h, e])
      have n3 : n ≠ 3 := fun e => h3 (by rw [h, e])
      have n4 : n ≠ 4 := fun e => h4 (by rw [h, e])
      simp [n2, n3, n4]
  · intro r rest hin hs hp hm hd
    subst hin
    exact hnone (scanInt_nonnumeric r rest hs hp hm hd)
  · simp [selectOrg, h9]
  · simp [selectOrg, habc]

/-! ### C7 -/

/-- C7 (the code departs from the claim): only a failure to open the
configuration file aborts `main` before the organisation prompt.  Whenever
the file opens, `main` prompts and scans whatever `ReadAll` and `Unmarshal`
did; with the content `{`, which is no JSON, it goes on to
`newGrpcConnection` with empty paths and a gateway name; with a configuration
whose `channelName` has the wrong type it dials, connects and serves. -/
theorem config_errors_not_fatal :
    (∀ w : World, w.configFile = none → main w = ⟨[], .error .configOpen⟩) ∧
    (∀ (w : World) (bytes : Bytes) (readFailed : Bool),
      w.configFile = some (bytes, readFailed) → (main w).actions.take 2 = [.prompt, .scan]) ∧
    Valid (str "\x7b") = false ∧
    (main { friendlyWorld (str "\x7b") (str "1") with ReadFile := fun _ => none }).actions =
      [.prompt, .scan, .readFile []] ∧
    (main (friendlyWorld (str "\x7b") (str "1"))).actions =
      [.prompt, .scan, .readFile [], .parseCertificate, .dial [] [], .readFile [],
        .parseCertificate, .newIdentity [], .readDir [], .readFile (str "priv_sk"),
        .parsePrivateKey, .newSign, .connect, .listen [] []] ∧
    (main (friendlyWorld mistypedConfig (str "1"))).actions =
      [.prompt, .scan, .readFile (str "tls.pem"), .parseCertificate,
        .dial (str "localhost:7051") (str "peer0.org1"), .readFile (str "cert.pem"),
        .parseCertificate, .newIdentity (str "Org1MSP"), .readDir (str "keystore"),
        .readFile (str "keystore/priv_sk"), .parsePrivateKey, .newSign, .connect,
        .listen [] (str "cars")] := by
  refine ⟨?_, ?_, by decide, by decide!, by decide!, by decide!⟩
  · intro w h
    simp [main, h, Startup.panic]
  · intro w bytes readFailed h
    simp only [main, h, Startup.andThen, Startup.done]
    simp

/-! ### C10 -/

/-- C10: `newSign` indexes the listing in bounds exactly when the listing is
non-empty.  When `ReadDir` lists at least one entry, the one file read is the
first entry joined to the directory path and the run does not end on the
index; when it lists none, `newSign` panics on the index, reads no file and
returns no signing function. -/
theorem newSign_first_entry (w : World) (keyPath : Bytes) :
    (∀ first rest, w.ReadDir keyPath = some (first :: rest) →
      filesRead (newSign w keyPath).actions = [pathJoin [keyPath, first]] ∧
      (newSign w keyPath).result ≠ .error .indexOutOfRange) ∧
    (w.ReadDir keyPath = some [] →
      (newSign w keyPath).result = .error .indexOutOfRange ∧
      filesRead (newSign w keyPath).actions = []) ∧
    ((newSign w keyPath).result = .error .indexOutOfRange ↔ w.ReadDir keyPath = some []) := by
  have hcons : ∀ first rest, w.ReadDir keyPath = some (first :: rest) →
      filesRead (newSign w keyPath).actions = [pathJoin [keyPath, first]] ∧
      (newSign w keyPath).result ≠ .error .indexOutOfRange := by
    intro first rest h
    simp only [newSign, h]
    cases hf : w.ReadFile (pathJoin [keyPath, first]) with
    | none => simp [Startup.panic, filesRead]
    | some pem =>
      cases h1 : w.PrivateKeyFromPEM pem <;> cases h2 : w.NewPrivateKeySign pem <;>
        simp [Startup.panic, Startup.done, filesRead, h1, h2]
  refine ⟨hcons, ?_, ?_⟩
  · intro h
    simp [newSign, h, Startup.panic, filesRead]
  · constructor
    · intro h
      cases hd : w.ReadDir keyPath with
      | none => simp [newSign, hd, Startup.panic] at h
      | some files =>
        cases files with
        | nil => rfl
        | cons first rest => exact absurd h (hcons first rest hd).2
    · intro h
      simp [newSign, h, Startup.panic]

/-- A key directory with two entries: the first one is read. -/
theorem keyDirectory_example :
    filesRead (newSign { friendlyWorld [] [] with
        ReadDir := fun _ => some [str "a_sk", str "b_sk"] } (str "keystore/")).actions =
      [str "keystore/a_sk"] ∧
    (newSign { friendlyWorld [] [] with ReadDir := fun _ => some [] } (str "keystore/")).result =
      .error .indexOutOfRange :=
  ⟨by decide, rfl⟩

/-- For every input that `json.Valid` accepts, `formatJSON` returns; its
output is accepted by `json.Valid`; the decoder reads from the output the
bytes it reads from the input (every byte outside the white space between
tokens, with its role), hence the same value; and formatting the output again
returns the output itself. -/
theorem formatJSON_of_valid (data : Bytes) (h : Valid data = true) :
    ∃ out, formatJSON data = some out ∧ Valid out = true ∧ events out = events data ∧
      jsonValue out = jsonValue data ∧ formatJSON out = some out := by
  have hs := formatJSON_isSome data
  rw [h] at hs
  obtain ⟨out, hout⟩ := Option.isSome_iff_exists.mp hs
  obtain ⟨hv, hidem, hsame⟩ := formatJSON_replay data out hout
  have hev : events out = events data := hsame _ collect []
  refine ⟨out, hout, hv, hev, ?_, hidem⟩
  simp only [jsonValue, hev]

/-- The value the example text denotes. -/
theorem exampleText_denote :
    jsonValue exampleText.render =
      some (.object [(str "a", .array [.number (str "1"), .object [(str "b", .null)]]),
        (str "c", .string (str "x"))]) := by
  rfl

/-- C9 (the code departs from the claim): `formatJSON` passes `" "` as the
prefix of `Indent` and `""` as its indent, so every new line starts with
exactly one space whatever the nesting depth.  For `{"a":{"b":1}}` the member
`"b"`, at depth 2, and both closing brackets are each preceded by one space.
The other half of the claim holds: on input that is not valid JSON
`formatJSON` does not return. -/
theorem formatJSON_flat_indentation :
    formatJSON (str "\x7b\"a\":\x7b\"b\":1\x7d\x7d") =
      some (str "\x7b\n \"a\": \x7b\n \"b\": 1\n \x7d\n \x7d") ∧
    (∀ (dst : Bytes) (depth : Int), appendNewline dst [32] [] depth = dst ++ [10, 32]) ∧
    (∀ data : Bytes, Valid data = false → formatJSON data = none) := by
  refine ⟨by decide, appendNewline_fmt, ?_⟩
  intro data h
  have hs := formatJSON_isSome data
  rw [h] at hs
  cases hf : formatJSON data with
  | none => rfl
  | some out => rw [hf] at hs; simp at hs

end CarsApp
